import Mathlib

/-!
# Order manager of the relay: lifecycle engine

A shallow embedding of `ordermanager/ordermanager.go` and of the code around it:
the event and call decoders of `ethaccessor/contract_types.go`, the filled-order
rows of `dao/ring.go`, the account manager of `market/accountmanager.go` and the
depth and paging helpers of `gateway/jsonrpc.go`.  Go packages become namespaces
(`common`, `types`, `dao`, `ethaccessor`, `market`, `gateway`, `ordermanager`),
`*big.Int` becomes `Int`, `*big.Rat` becomes `ℚ` (`Option` of them where the code
tells nil from a value), and a method that mutates the store and returns `error`
becomes a function returning the new manager together with `Option OrderError`
(`none` is Go's `nil` error).  The chain behind the accessor is an oracle;
`handleGatewayOrder` and `MinerOrders` also return the log of the chain calls,
respectively store calls, they made.  Code that can panic returns a `go.Exec`,
which tells a return from a panic.  Block numbers and block marks are integers;
where the code truncates a big integer to `int64` or adds in `int64` (the block
marks and the query threshold of `handleGatewayOrder` and `MinerOrders`), the
value goes through `go.int64`, the two's-complement wrap to 64 bits.
-/

/-! ## Data model -/

/-- The 32-byte `common.Hash`; only its identity is used, so it is a number. -/
abbrev common.Hash := Nat

/-- The 20-byte `common.Address`; only its identity is used, so it is a number. -/
abbrev common.Address := Nat

/-- The order status enumeration `types.OrderStatus`. -/
inductive types.OrderStatus where
  | ORDER_UNKNOWN
  | ORDER_NEW
  | ORDER_PARTIAL
  | ORDER_FINISHED
  | ORDER_CANCEL
  | ORDER_CUTOFF
  deriving DecidableEq, Repr

/-- The signed order `types.Order` (the raw order of an order state).  Its
`Price`, read by the depth query only, comes last and is 0 where no price was
generated; a nil `Price`, which the depth query would dereference, is not
modelled. -/
structure types.Order where
  Protocol : common.Address
  TokenS : common.Address
  TokenB : common.Address
  AmountS : Int
  AmountB : Int
  Timestamp : Int
  Ttl : Int
  Salt : Int
  LrcFee : Int
  BuyNoMoreThanAmountB : Bool
  MarginSplitPercentage : Nat
  V : Nat
  R : Nat
  S : Nat
  Owner : common.Address
  Hash : common.Hash
  Price : ℚ := 0
  deriving DecidableEq, Repr

/-- The mutable shell `types.OrderState` around an order. -/
structure types.OrderState where
  RawOrder : types.Order
  UpdatedBlock : Int
  DealtAmountS : Int
  DealtAmountB : Int
  CancelledAmountS : Int
  CancelledAmountB : Int
  AvailableAmountS : Int
  Status : types.OrderStatus
  BroadcastTime : Int
  deriving DecidableEq, Repr

/-- The event `types.OrderFilledEvent`, as built by `RingMinedEvent.ConvertDown`. -/
structure types.OrderFilledEvent where
  Ringhash : common.Hash
  PreOrderHash : common.Hash
  OrderHash : common.Hash
  NextOrderHash : common.Hash
  RingIndex : Int
  AmountS : Int
  AmountB : Int
  LrcReward : Int
  LrcFee : Int
  SplitS : Int
  SplitB : Int
  Blocknumber : Int
  TxHash : common.Hash
  deriving DecidableEq, Repr

/-- The event `types.OrderCancelledEvent`. -/
structure types.OrderCancelledEvent where
  OrderHash : common.Hash
  AmountCancelled : Int
  Blocknumber : Int
  TxHash : common.Hash
  deriving DecidableEq, Repr

/-- The event `types.RingMinedEvent`, as built by `RingMinedEvent.ConvertDown` of
package `ethaccessor`. -/
structure types.RingMinedEvent where
  RingIndex : Int
  Ringhash : common.Hash
  Miner : common.Address
  FeeRecipient : common.Address
  IsRinghashReserved : Bool
  TotalLrcFee : Int
  TradeAmount : Int
  deriving DecidableEq, Repr

/-- Modelled from the spec: `OrderState.SettleFinishedStatus` of package `types`
is not among the sources; section 4.4.2 step 5 gives it as "if true then
FINISHED else PARTIAL". -/
def types.OrderState.SettleFinishedStatus (ord : types.OrderState) (isFullFinished : Bool) :
    types.OrderState :=
  if isFullFinished then
    { ord with Status := types.OrderStatus.ORDER_FINISHED }
  else
    { ord with Status := types.OrderStatus.ORDER_PARTIAL }

/-! ## Order store -/

/-- Modelled from the spec: the row type `dao.Order` is not among the sources;
its columns are the order, the cumulative counters, status, `updatedBlock`,
`broadcastTime` and `minerBlockMark` of section 3. -/
structure dao.Order where
  RawOrder : types.Order
  DealtAmountS : Int
  DealtAmountB : Int
  CancelledAmountS : Int
  CancelledAmountB : Int
  Status : types.OrderStatus
  UpdatedBlock : Int
  BroadcastTime : Int
  MinerBlockMark : Int
  deriving DecidableEq, Repr

/-- Modelled from the spec: `dao.Order.ConvertUp` is not among the sources; it
loads the stored columns into the state ("Load the order"), decimal strings
being decoded losslessly (section 9). -/
def dao.Order.ConvertUp (o : dao.Order) (state : types.OrderState) : types.OrderState :=
  { state with
    RawOrder := o.RawOrder
    DealtAmountS := o.DealtAmountS
    DealtAmountB := o.DealtAmountB
    CancelledAmountS := o.CancelledAmountS
    CancelledAmountB := o.CancelledAmountB
    Status := o.Status
    UpdatedBlock := o.UpdatedBlock
    BroadcastTime := o.BroadcastTime }

/-- Modelled from the spec: the row type `dao.FillEvent` with
`FillEvent.ConvertDown` is not among the sources; a fill row carries the event
unchanged and is keyed by `(ringhash, orderhash)`. -/
abbrev dao.FillEvent := types.OrderFilledEvent

/-- Modelled from the spec: the row type `dao.CancelEvent` with
`CancelEvent.ConvertDown` is not among the sources; a cancel row carries the
event unchanged and is keyed by `(orderhash, txHash)`. -/
abbrev dao.CancelEvent := types.OrderCancelledEvent

/-- Modelled from the spec: the row type `dao.RingMinedEvent` is not among the
sources; a ring-mined row carries the event unchanged and is keyed by
`ringIndex` (section 4.4.6). -/
abbrev dao.RingMinedEvent := types.RingMinedEvent

/-- The row type `dao.Block` of `dao/block.go`; the `int64` columns are integers. -/
structure dao.Block where
  ID : Int
  BlockNumber : Int
  BlockHash : common.Hash
  ParentHash : common.Hash
  CreateTime : Int
  Fork : Bool
  deriving DecidableEq, Repr

/-- The zero value `Block{}` that `FindLatestBlock` returns beside its error. -/
def dao.Block.zero : dao.Block where
  ID := 0
  BlockNumber := 0
  BlockHash := 0
  ParentHash := 0
  CreateTime := 0
  Fork := false

/-- Modelled from the spec: the relational store behind `dao.RdsService` is not
among the sources; it is the tables of orders, fills, cancels, blocks and
ring-mined events of section 6, each a list of rows in insertion order. -/
structure dao.RdsService where
  orders : List dao.Order
  fills : List dao.FillEvent
  cancels : List dao.CancelEvent
  blocks : List dao.Block := []
  ringMineds : List dao.RingMinedEvent := []
  deriving DecidableEq, Repr

/-- Modelled from the spec: `RdsService.GetOrderByHash` is not among the
sources; "look up order by hash", `none` standing for the not-found error. -/
def dao.RdsService.GetOrderByHash (s : dao.RdsService) (hash : common.Hash) : Option dao.Order :=
  s.orders.find? (fun o => decide (o.RawOrder.Hash = hash))

/-- Modelled from the spec: `RdsService.FindFillEventByRinghashAndOrderhash` is
not among the sources; it looks a fill up by its key `(ringhash, orderhash)`,
`none` standing for the not-found error. -/
def dao.RdsService.FindFillEventByRinghashAndOrderhash (s : dao.RdsService)
    (ringhash orderhash : common.Hash) : Option dao.FillEvent :=
  s.fills.find? (fun f => decide (f.Ringhash = ringhash ∧ f.OrderHash = orderhash))

/-- Modelled from the spec: `RdsService.FindCancelEvent` is not among the
sources; it looks a cancel up by its key `(orderhash, txHash)`, `none` standing
for the not-found error. -/
def dao.RdsService.FindCancelEvent (s : dao.RdsService)
    (orderhash txhash : common.Hash) : Option dao.CancelEvent :=
  s.cancels.find? (fun c => decide (c.OrderHash = orderhash ∧ c.TxHash = txhash))

/-- Modelled from the spec: `RdsService.Add` on a fill row is not among the
sources; insert with unique-key rejection on `(ringhash, orderhash)`, `none`
standing for the rejection. -/
def dao.RdsService.AddFillEvent (s : dao.RdsService) (f : dao.FillEvent) : Option dao.RdsService :=
  match s.FindFillEventByRinghashAndOrderhash f.Ringhash f.OrderHash with
  | some _ => none
  | none => some { s with fills := s.fills ++ [f] }

/-- Modelled from the spec: `RdsService.Add` on a cancel row is not among the
sources; insert with unique-key rejection on `(orderhash, txHash)`, `none`
standing for the rejection. -/
def dao.RdsService.AddCancelEvent (s : dao.RdsService) (c : dao.CancelEvent) :
    Option dao.RdsService :=
  match s.FindCancelEvent c.OrderHash c.TxHash with
  | some _ => none
  | none => some { s with cancels := s.cancels ++ [c] }

/-- Modelled from the spec: `RdsService.UpdateOrderWhileFill` is not among the
sources; a targeted update of status, dealt amounts and updated block of the
rows whose order hash is `hash` ("persist only the mutated fields"). -/
def dao.RdsService.UpdateOrderWhileFill (s : dao.RdsService) (hash : common.Hash)
    (status : types.OrderStatus) (dealtAmountS dealtAmountB blockNumber : Int) : dao.RdsService :=
  { s with orders := s.orders.map (fun o =>
      if o.RawOrder.Hash = hash then
        { o with Status := status, DealtAmountS := dealtAmountS, DealtAmountB := dealtAmountB,
                 UpdatedBlock := blockNumber }
      else o) }

/-- Modelled from the spec: `RdsService.UpdateOrderWhileCancel` is not among the
sources; a targeted update of status, cancelled amounts and updated block of
the rows whose order hash is `hash`. -/
def dao.RdsService.UpdateOrderWhileCancel (s : dao.RdsService) (hash : common.Hash)
    (status : types.OrderStatus) (cancelledAmountS cancelledAmountB blockNumber : Int) :
    dao.RdsService :=
  { s with orders := s.orders.map (fun o =>
      if o.RawOrder.Hash = hash then
        { o with Status := status, CancelledAmountS := cancelledAmountS,
                 CancelledAmountB := cancelledAmountB, UpdatedBlock := blockNumber }
      else o) }

/-- Modelled from the spec: `dao.Order.ConvertDown` is not among the sources; it
writes the order, the cumulative counters, status, `updatedBlock` and
`broadcastTime` of the state into the row and leaves `minerBlockMark` as it is
(the market label column is left out). -/
def dao.Order.ConvertDown (o : dao.Order) (state : types.OrderState) : dao.Order :=
  { o with
    RawOrder := state.RawOrder
    DealtAmountS := state.DealtAmountS
    DealtAmountB := state.DealtAmountB
    CancelledAmountS := state.CancelledAmountS
    CancelledAmountB := state.CancelledAmountB
    Status := state.Status
    UpdatedBlock := state.UpdatedBlock
    BroadcastTime := state.BroadcastTime }

/-- Modelled from the spec: `RdsService.Add` on an order row is not among the
sources; insert with unique-key rejection on the order hash (section 6), `none`
standing for the rejection. -/
def dao.RdsService.AddOrder (s : dao.RdsService) (o : dao.Order) : Option dao.RdsService :=
  match s.GetOrderByHash o.RawOrder.Hash with
  | some _ => none
  | none => some { s with orders := s.orders ++ [o] }

/-- Modelled from the spec: `RdsService.Add` on a ring-mined row is not among the
sources; insert keyed by `ringIndex`, `none` standing for the rejection of a
ring index that is already stored. -/
def dao.RdsService.AddRingMinedEvent (s : dao.RdsService) (e : dao.RingMinedEvent) :
    Option dao.RdsService :=
  match s.ringMineds.find? (fun r => decide (r.RingIndex = e.RingIndex)) with
  | some _ => none
  | none => some { s with ringMineds := s.ringMineds ++ [e] }

/-- The query `RdsService.FindLatestBlock` of `dao/block.go`: the first row by
descending `create_time` (the earliest inserted among equal times), returned
beside the flag `err != nil`; with no row the block is the zero value. -/
def dao.RdsService.FindLatestBlock (s : dao.RdsService) : dao.Block × Bool :=
  match s.blocks with
  | [] => (dao.Block.zero, true)
  | b :: rest =>
    (rest.foldl (fun best c => if best.CreateTime < c.CreateTime then c else best) b, false)

/-- Modelled from the spec: `RdsService.MarkMinerOrders` is not among the sources;
"mark miner-block for a set of hashes" sets `minerBlockMark` of the rows whose
hash is listed. -/
def dao.RdsService.MarkMinerOrders (s : dao.RdsService) (filterOrderhashs : List common.Hash)
    (blockNumber : Int) : dao.RdsService :=
  { s with orders := s.orders.map (fun o =>
      if o.RawOrder.Hash ∈ filterOrderhashs then { o with MinerBlockMark := blockNumber }
      else o) }

/-- The price `amountS / amountB` by which the miner query orders its rows. -/
def dao.Order.price (o : dao.Order) : ℚ :=
  (o.RawOrder.AmountS : ℚ) / (o.RawOrder.AmountB : ℚ)

/-- Modelled from the spec: `RdsService.GetOrdersForMiner` is not among the
sources; section 4.6 step 3 selects up to `length` rows whose protocol, tokenS
and tokenB match, whose status is not filtered and whose `minerBlockMark` is at
most the threshold, ascending by price, ties by earliest timestamp. -/
def dao.RdsService.GetOrdersForMiner (s : dao.RdsService) (protocol tokenS tokenB : common.Address)
    (length : Nat) (filterStatus : List types.OrderStatus) (markBlockNumber : Int) :
    List dao.Order :=
  ((s.orders.filter (fun o =>
      decide (o.RawOrder.Protocol = protocol ∧ o.RawOrder.TokenS = tokenS
        ∧ o.RawOrder.TokenB = tokenB ∧ o.Status ∉ filterStatus
        ∧ o.MinerBlockMark ≤ markBlockNumber))).insertionSort
    (fun a b => a.price < b.price
      ∨ (a.price = b.price ∧ a.RawOrder.Timestamp ≤ b.RawOrder.Timestamp))).take length

/-- The store calls of `MinerOrders`, in the order they are made, each with its
arguments (and, for the query, the rows it returned). -/
inductive dao.Call where
  | MarkMinerOrders (filterOrderhashs : List common.Hash) (blockNumber : Int)
  | GetOrdersForMiner (protocol tokenS tokenB : common.Address) (length : Nat)
      (filterStatus : List types.OrderStatus) (markBlockNumber : Int)
      (result : List dao.Order)
  deriving DecidableEq, Repr

/-! ## Chain accessor -/

/-- Modelled from the spec: `ethaccessor.BatchErc20Req` is not among the sources;
one balance and allowance probe of section 4.5 for `(owner, token, spender)`,
with the two results and the two per-probe error flags the batch writes back. -/
structure ethaccessor.BatchErc20Req where
  Owner : common.Address
  Token : common.Address
  Spender : common.Address
  Balance : Int
  Allowance : Int
  BalanceErr : Bool
  AllowanceErr : Bool
  deriving DecidableEq, Repr

/-- Modelled from the spec: `ethaccessor.EthNodeAccessor` is not among the
sources; the chain behind the read methods of section 6 is an oracle:
`cancelledOrFilled(orderHash)` and the two ERC-20 reads answer a value or fail
(`none`), the delegate lookup answers an address, and a batch as a whole may
fail.  The delegate lookup returns an error beside its address where
`GetSenderAddressFails` says so; the order manager drops that error, the account
manager tests it. -/
structure ethaccessor.EthNodeAccessor where
  GetCancelledOrFilled : common.Address → common.Hash → Option Int
  GetSenderAddress : common.Address → common.Address
  Erc20Balance : common.Address → common.Address → Option Int
  Erc20Allowance : common.Address → common.Address → common.Address → Option Int
  BatchFails : List ethaccessor.BatchErc20Req → Bool
  GetSenderAddressFails : common.Address → Bool := fun _ => false

/-- What a successful batch writes back into one request: the balance of
`(token, owner)` and the allowance of `(token, owner, spender)`, or the error
flag of the probe that failed. -/
def ethaccessor.EthNodeAccessor.probe (a : ethaccessor.EthNodeAccessor)
    (req : ethaccessor.BatchErc20Req) : ethaccessor.BatchErc20Req :=
  { req with
    Balance := (a.Erc20Balance req.Token req.Owner).getD 0
    BalanceErr := (a.Erc20Balance req.Token req.Owner).isNone
    Allowance := (a.Erc20Allowance req.Token req.Owner req.Spender).getD 0
    AllowanceErr := (a.Erc20Allowance req.Token req.Owner req.Spender).isNone }

/-- Modelled from the spec: `EthNodeAccessor.BatchErc20BalanceAndAllowance` is not
among the sources; one batched call that either fails as a whole (`none`) or
writes every probe's result back into its request, an error on one probe not
poisoning the others (section 4.5). -/
def ethaccessor.EthNodeAccessor.BatchErc20BalanceAndAllowance (a : ethaccessor.EthNodeAccessor)
    (reqs : List ethaccessor.BatchErc20Req) : Option (List ethaccessor.BatchErc20Req) :=
  if a.BatchFails reqs then none else some (reqs.map a.probe)

/-- A chain where nothing is cancelled or filled, every balance and allowance is
0 and no call fails. -/
def ethaccessor.idleAccessor : ethaccessor.EthNodeAccessor where
  GetCancelledOrFilled := fun _ _ => some 0
  GetSenderAddress := fun _ => 0
  Erc20Balance := fun _ _ => some 0
  Erc20Allowance := fun _ _ _ => some 0
  BatchFails := fun _ => false

/-- The chain calls of a handler, in the order they are made, each with its
arguments and its result. -/
inductive ethaccessor.Call where
  | GetCancelledOrFilled (protocol : common.Address) (hash : common.Hash) (result : Option Int)
  | GetSenderAddress (protocol : common.Address) (result : common.Address)
  | BatchErc20BalanceAndAllowance (reqs : List ethaccessor.BatchErc20Req)
      (result : Option (List ethaccessor.BatchErc20Req))
  deriving DecidableEq, Repr

/-- A chain call failed: the query or the batch returned an error, or one of the
probes of a batch that went through reports a balance or allowance error. -/
def ethaccessor.Call.failed : ethaccessor.Call → Bool
  | ethaccessor.Call.GetCancelledOrFilled _ _ result => result.isNone
  | ethaccessor.Call.GetSenderAddress _ _ => false
  | ethaccessor.Call.BatchErc20BalanceAndAllowance _ none => true
  | ethaccessor.Call.BatchErc20BalanceAndAllowance _ (some reqs) =>
    reqs.any (fun r => r.BalanceErr || r.AllowanceErr)

/-- Modelled from the spec: `usermanager.UserManager` is not among the sources;
only its white-list predicate is used. -/
structure usermanager.UserManager where
  InWhiteList : common.Address → Bool

/-- Modelled from the spec: `CutoffCache` is not among the sources; section 4.2
maps each owner to the cutoff recorded for it, if any. -/
structure ordermanager.CutoffCache where
  cutoff : common.Address → Option Int

/-- Modelled from the spec: `CutoffCache.IsOrderCutoff` is not among the sources;
"true iff a cutoff exists with `cutoff ≥ orderCreateTime`" (section 4.2). -/
def ordermanager.CutoffCache.IsOrderCutoff (c : ordermanager.CutoffCache)
    (owner : common.Address) (createTime : Int) : Bool :=
  match c.cutoff owner with
  | some cutoff => decide (createTime ≤ cutoff)
  | none => false

/-! ## Go run time -/

/-- The run-time panics the embedded code can raise. -/
inductive go.Panic where
  | nilDereference
  | indexOutOfRange
  | sliceBoundsOutOfRange
  deriving DecidableEq, Repr

/-- How a Go call ends: it returns its results, or it panics. -/
inductive go.Exec (α : Type) where
  | returned (results : α)
  | panicked (cause : go.Panic)
  deriving DecidableEq, Repr

/-- The value an integer has as an `int64`: what `big.Int.Int64` returns (the low
64 bits, in two's complement) and what an `int64` addition wraps to. -/
def go.int64 (x : Int) : Int :=
  (x + 9223372036854775808) % 18446744073709551616 - 9223372036854775808

/-- The integer is the value of an `int64`. -/
def go.fitsInt64 (x : Int) : Prop :=
  -9223372036854775808 ≤ x ∧ x < 9223372036854775808

/-- A Go slice: its elements and its capacity.  The slots of the backing array
between the length and the capacity hold the zero value. -/
structure go.Slice (α : Type) where
  elems : List α
  cap : Nat
  deriving DecidableEq, Repr

/-- The slice `make([]T, 0)`: no element, capacity 0. -/
def go.Slice.make (α : Type) : go.Slice α where
  elems := []
  cap := 0

/-- The built-in `append(s, x)`: within the capacity the backing array is kept;
a full slice moves to a new array, of capacity 1 from capacity 0 and of twice
the capacity otherwise (the growth of the run time below 1024 elements). -/
def go.Slice.append {α : Type} (s : go.Slice α) (x : α) : go.Slice α where
  elems := s.elems ++ [x]
  cap := if s.elems.length < s.cap then s.cap else if s.cap = 0 then 1 else 2 * s.cap

/-- The slice expression `s[:high]`: a bound that is negative or beyond the
capacity panics; otherwise the first `high` slots, those past the length
holding `zero`. -/
def go.Slice.slice {α : Type} (s : go.Slice α) (high : Int) (zero : α) : go.Exec (List α) :=
  if high < 0 ∨ (s.cap : Int) < high then go.Exec.panicked go.Panic.sliceBoundsOutOfRange
  else
    go.Exec.returned
      ((s.elems ++ List.replicate (s.cap - s.elems.length) zero).take high.toNat)

/-! ## Contract types -/

/-- The unpacking errors of `contract_types.go`, one per `return` site. -/
inductive ethaccessor.UnpackError where
  | orderHashListLengthInvalid
  | ordersLengthInvalid
  deriving DecidableEq, Repr

/-- The unpacked event `ethaccessor.RingMinedEvent`: a `[32]uint8` is a hash, a
`[6]*big.Int` a function on the six indices. -/
structure ethaccessor.RingMinedEvent where
  RingIndex : Int
  RingHash : common.Hash
  Miner : common.Address
  FeeRecipient : common.Address
  IsRingHashReserved : Bool
  OrderHashList : List common.Hash
  AmountsList : List (Fin 6 → Int)

/-- The zero value of `types.OrderFilledEvent`. -/
def types.OrderFilledEvent.zero : types.OrderFilledEvent where
  Ringhash := 0
  PreOrderHash := 0
  OrderHash := 0
  NextOrderHash := 0
  RingIndex := 0
  AmountS := 0
  AmountB := 0
  LrcReward := 0
  LrcFee := 0
  SplitS := 0
  SplitB := 0
  Blocknumber := 0
  TxHash := 0

/-- One turn of the loop of `RingMinedEvent.ConvertDown`: the fill of index `i`
of a ring of `length` orders; `none` is an index out of range. -/
def ethaccessor.RingMinedEvent.fill (e : ethaccessor.RingMinedEvent) (length i : Nat) :
    Option types.OrderFilledEvent := do
  let pre := if i = 0 then length - 1 else if i = length - 1 then length - 2 else i - 1
  let next := if i = 0 then 1 else if i = length - 1 then 0 else i + 1
  let preOrderHash ← e.OrderHashList[pre]?
  let nextOrderHash ← e.OrderHashList[next]?
  let orderHash ← e.OrderHashList[i]?
  let amounts ← e.AmountsList[i]?
  pure
    { types.OrderFilledEvent.zero with
      Ringhash := e.RingHash
      PreOrderHash := preOrderHash
      OrderHash := orderHash
      NextOrderHash := nextOrderHash
      RingIndex := e.RingIndex
      AmountS := amounts 0
      AmountB := amounts 1
      LrcReward := amounts 2
      LrcFee := amounts 3
      SplitS := amounts 4
      SplitB := amounts 5 }

/-- The method `RingMinedEvent.ConvertDown` of package `ethaccessor`: the length
check, then one fill per order hash, the LRC fees summed on the way. -/
def ethaccessor.RingMinedEvent.ConvertDown (e : ethaccessor.RingMinedEvent) :
    go.Exec (Except ethaccessor.UnpackError
      (types.RingMinedEvent × List types.OrderFilledEvent)) :=
  let length := e.OrderHashList.length
  if length ≠ e.AmountsList.length ∨ length < 2 then
    go.Exec.returned (Except.error ethaccessor.UnpackError.orderHashListLengthInvalid)
  else
    let loop :=
      (List.range length).foldlM
        (fun (acc : List types.OrderFilledEvent × Int) i =>
          (e.fill length i).map (fun fill => (acc.1 ++ [fill], acc.2 + fill.LrcFee)))
        (([] : List types.OrderFilledEvent), (0 : Int))
    match loop with
    | none => go.Exec.panicked go.Panic.indexOutOfRange
    | some (list, lrcFee) =>
      go.Exec.returned (Except.ok
        ({ RingIndex := e.RingIndex
           Ringhash := e.RingHash
           Miner := e.Miner
           FeeRecipient := e.FeeRecipient
           IsRinghashReserved := e.IsRingHashReserved
           TotalLrcFee := lrcFee
           TradeAmount := (length : Int) }, list))

/-- The unpacked call `ethaccessor.SubmitRingMethod`: the fixed-size arrays are
functions on their indices, a `uint8` is a natural number, a `[32]uint8` a
number. -/
structure ethaccessor.SubmitRingMethod where
  AddressList : List (Fin 2 → common.Address)
  UintArgsList : List (Fin 7 → Int)
  Uint8ArgsList : List (Fin 2 → Nat)
  BuyNoMoreThanBList : List Bool
  VList : List Nat
  RList : List Nat
  SList : List Nat
  RingMiner : common.Address
  FeeRecipient : common.Address

/-- The zero value of `types.Order`, what `var order types.Order` declares. -/
def types.Order.zero : types.Order where
  Protocol := 0
  TokenS := 0
  TokenB := 0
  AmountS := 0
  AmountB := 0
  Timestamp := 0
  Ttl := 0
  Salt := 0
  LrcFee := 0
  BuyNoMoreThanAmountB := false
  MarginSplitPercentage := 0
  V := 0
  R := 0
  S := 0
  Owner := 0
  Hash := 0

/-- One turn of the loop of `SubmitRingMethod.ConvertDown`: the order of index
`i` of a ring of `length` orders, its fields assigned in the order of the
source; `none` is an index out of range. -/
def ethaccessor.SubmitRingMethod.order (m : ethaccessor.SubmitRingMethod) (length i : Nat) :
    Option types.Order := do
  let order := types.Order.zero
  let addresses ← m.AddressList[i]?
  let order := { order with Owner := addresses 0 }
  let order := { order with TokenS := addresses 1 }
  let next ← m.AddressList[if i = length - 1 then 0 else i + 1]?
  let order := { order with TokenB := next 1 }
  let uintArgs ← m.UintArgsList[i]?
  let order := { order with AmountS := uintArgs 0 }
  let order := { order with AmountB := uintArgs 1 }
  let order := { order with Timestamp := uintArgs 2 }
  let order := { order with Ttl := uintArgs 3 }
  let order := { order with Salt := uintArgs 4 }
  let order := { order with LrcFee := uintArgs 5 }
  let uint8Args ← m.Uint8ArgsList[i]?
  let order := { order with MarginSplitPercentage := uint8Args 0 }
  let order := { order with LrcFee := (uint8Args 1 : Int) }
  let buyNoMoreThanB ← m.BuyNoMoreThanBList[i]?
  let order := { order with BuyNoMoreThanAmountB := buyNoMoreThanB }
  let v ← m.VList[i]?
  let order := { order with V := v }
  let r ← m.RList[i]?
  let order := { order with R := r }
  let s ← m.SList[i]?
  let order := { order with S := s }
  pure order

/-- The length check of `SubmitRingMethod.ConvertDown`: true when the call is
turned down.  The lists `v`, `r`, `s` hold one more entry, the ring's own. -/
def ethaccessor.SubmitRingMethod.lengthInvalid (m : ethaccessor.SubmitRingMethod) : Bool :=
  let length : Int := m.AddressList.length
  decide (length ≠ m.UintArgsList.length ∨ length ≠ m.Uint8ArgsList.length
    ∨ length ≠ (m.VList.length : Int) - 1 ∨ length ≠ (m.SList.length : Int) - 1
    ∨ length ≠ (m.RList.length : Int) - 1 ∨ length < 2)

/-- The method `SubmitRingMethod.ConvertDown`: the length check, then one order
per entry of the address list. -/
def ethaccessor.SubmitRingMethod.ConvertDown (m : ethaccessor.SubmitRingMethod) :
    go.Exec (Except ethaccessor.UnpackError (List types.Order)) :=
  let length := m.AddressList.length
  if m.lengthInvalid = true then
    go.Exec.returned (Except.error ethaccessor.UnpackError.ordersLengthInvalid)
  else
    let loop :=
      (List.range length).foldlM
        (fun (list : List types.Order) i => (m.order length i).map (fun order => list ++ [order]))
        ([] : List types.Order)
    match loop with
    | none => go.Exec.panicked go.Panic.indexOutOfRange
    | some list => go.Exec.returned (Except.ok list)

/-- A ring of two orders as the contract reports it mined: fees 3 and 4. -/
def ethaccessor.ringOfTwo : ethaccessor.RingMinedEvent where
  RingIndex := 1
  RingHash := 77
  Miner := 5
  FeeRecipient := 6
  IsRingHashReserved := false
  OrderHashList := [10, 11]
  AmountsList := [![100, 200, 1, 3, 0, 0], ![200, 100, 2, 4, 0, 0]]

/-- A `submitRing` call of two orders that passes the length check: the LRC fees
of the orders are 7 and 8, their fee selections 1 and 0. -/
def ethaccessor.submitRingOfTwo : ethaccessor.SubmitRingMethod where
  AddressList := [![9, 1], ![19, 2]]
  UintArgsList := [![1000, 10, 50, 3600, 1, 7, 1000], ![10, 1000, 51, 3600, 2, 8, 10]]
  Uint8ArgsList := [![30, 1], ![40, 0]]
  BuyNoMoreThanBList := [false, true]
  VList := [27, 28, 27]
  RList := [101, 102, 103]
  SList := [201, 202, 203]
  RingMiner := 5
  FeeRecipient := 6

/-- The call `submitRingOfTwo` with an empty `BuyNoMoreThanBList`; the other
lists are untouched, so the length check still passes. -/
def ethaccessor.submitRingNoFlags : ethaccessor.SubmitRingMethod :=
  { ethaccessor.submitRingOfTwo with BuyNoMoreThanBList := [] }

/-! ## JSON-RPC gateway -/

/-- The variables of the loop of `calculateDepth`: the rows appended so far, the
two running sums and the price of the run being summed. -/
structure gateway.DepthLoop where
  depth : go.Slice (List String)
  tempSumAmountS : Int
  tempSumAmountB : Int
  lastPrice : ℚ

/-- One turn of the loop of `calculateDepth` on the state `item.2` of index
`item.1`; a row is the pair of the decimal strings of the two sums. -/
def gateway.calculateDepth.turn (acc : gateway.DepthLoop) (item : Nat × types.OrderState) :
    gateway.DepthLoop :=
  let i := item.1
  let s := item.2
  if i = 0 then
    { acc with
      lastPrice := s.RawOrder.Price
      tempSumAmountS := s.RawOrder.AmountS
      tempSumAmountB := s.RawOrder.AmountB }
  else if acc.lastPrice ≠ s.RawOrder.Price then
    { depth := acc.depth.append [toString acc.tempSumAmountS, toString acc.tempSumAmountB]
      tempSumAmountS := 0
      tempSumAmountB := 0
      lastPrice := s.RawOrder.Price }
  else
    { acc with
      tempSumAmountS := acc.tempSumAmountS + s.RawOrder.AmountS
      tempSumAmountB := acc.tempSumAmountB + s.RawOrder.AmountB }

/-- The function `calculateDepth`: the rows of the order book `states` cut at
`length`; the slot of a row that was never appended is the nil row `[]`. -/
def gateway.calculateDepth (states : List types.OrderState) (length : Int) :
    go.Exec (List (List String)) :=
  if states.length = 0 then go.Exec.returned []
  else
    let start : gateway.DepthLoop :=
      { depth := go.Slice.make (List String)
        tempSumAmountS := 0
        tempSumAmountB := 0
        lastPrice := 0 }
    let final := states.enum.foldl gateway.calculateDepth.turn start
    final.depth.slice length []

/-- The query `FillQuery` of the JSON-RPC service. -/
structure gateway.FillQuery where
  ContractVersion : String
  Market : String
  Owner : String
  OrderHash : String
  RingHash : String
  PageIndex : Int
  PageSize : Int
  deriving DecidableEq, Repr

/-- The query `RingMinedQuery` of the JSON-RPC service. -/
structure gateway.RingMinedQuery where
  ContractVersion : String
  RingHash : String
  PageIndex : Int
  PageSize : Int
  deriving DecidableEq, Repr

/-- The function `fillQueryToMap`: the filter map, the page index and the page
size.  The map is the list of its entries in the order they are set (the keys
are distinct); the table `util.ContractVersionConfig` is a parameter. -/
def gateway.fillQueryToMap (ContractVersionConfig : String → String) (q : gateway.FillQuery) :
    List (String × String) × Int × Int :=
  let rst : List (String × String) := []
  let rst := if q.Market ≠ "" then rst ++ [("market", q.Market)] else rst
  let pi : Int := if q.PageIndex ≤ 0 then 1 else q.PageIndex
  let ps : Int := if q.PageSize ≤ 0 ∨ q.PageSize > 20 then 20 else q.PageIndex
  let rst :=
    if q.ContractVersion ≠ "" then
      rst ++ [("contract_version", ContractVersionConfig q.ContractVersion)]
    else rst
  let rst := if q.Owner ≠ "" then rst ++ [("owner", q.Owner)] else rst
  let rst := if q.OrderHash ≠ "" then rst ++ [("order_hash", q.OrderHash)] else rst
  let rst := if q.RingHash ≠ "" then rst ++ [("ring_hash", q.RingHash)] else rst
  (rst, pi, ps)

/-- The function `ringMinedQueryToMap`, modelled as `fillQueryToMap` is. -/
def gateway.ringMinedQueryToMap (ContractVersionConfig : String → String)
    (q : gateway.RingMinedQuery) : List (String × String) × Int × Int :=
  let rst : List (String × String) := []
  let pi : Int := if q.PageIndex ≤ 0 then 1 else q.PageIndex
  let ps : Int := if q.PageSize ≤ 0 ∨ q.PageSize > 20 then 20 else q.PageIndex
  let rst :=
    if q.ContractVersion ≠ "" then
      rst ++ [("contract_version", ContractVersionConfig q.ContractVersion)]
    else rst
  let rst := if q.RingHash ≠ "" then rst ++ [("ring_hash", q.RingHash)] else rst
  (rst, pi, ps)

/-- An order state of the book: its hash, its price and its two amounts. -/
def gateway.bookState (hash : common.Hash) (price : ℚ) (amountS amountB : Int) :
    types.OrderState where
  RawOrder :=
    { types.Order.zero with Hash := hash, Price := price, AmountS := amountS, AmountB := amountB }
  UpdatedBlock := 0
  DealtAmountS := 0
  DealtAmountB := 0
  CancelledAmountS := 0
  CancelledAmountB := 0
  AvailableAmountS := 0
  Status := types.OrderStatus.ORDER_NEW
  BroadcastTime := 0

/-- A book of three orders at the three prices 1, 2 and 3. -/
def gateway.bookOfThree : List types.OrderState :=
  [gateway.bookState 10 1 5 5, gateway.bookState 11 2 14 7, gateway.bookState 12 3 27 9]

/-- The fill query of page 0 with page size 10, every filter empty. -/
def gateway.fillQueryPage0 : gateway.FillQuery where
  ContractVersion := ""
  Market := ""
  Owner := ""
  OrderHash := ""
  RingHash := ""
  PageIndex := 0
  PageSize := 10

/-- The fill query of page 50 with page size 10, every filter empty. -/
def gateway.fillQueryPage50 : gateway.FillQuery :=
  { gateway.fillQueryPage0 with PageIndex := 50 }

/-- The ring-mined query of page 50 with page size 10, every filter empty. -/
def gateway.ringMinedQueryPage50 : gateway.RingMinedQuery where
  ContractVersion := ""
  RingHash := ""
  PageIndex := 50
  PageSize := 10

/-! ## Filled-order rows -/

/-- The text form of the rationals of `math/big`, which is not part of the
repository: `RatString` is `Rat.String` and `SetString s` is what
`new(big.Rat).SetString(s)` leaves behind, the value of the fresh receiver and
whether the text was read. -/
structure big.RatText where
  RatString : ℚ → String
  SetString : String → ℚ × Bool

/-- The contract of `math/big` the rows rely on: the empty text is turned down
before the receiver is touched, so the fresh receiver stays 0, and the text
`Rat.String` prints reads back as the same rational. -/
def big.RatText.faithful (t : big.RatText) : Prop :=
  t.SetString "" = (0, false) ∧ ∀ v : ℚ, t.SetString (t.RatString v) = (v, true)

/-- The decimal digits of `n`, most significant first, at most `fuel` of them. -/
def big.natDigits : Nat → Nat → List Char
  | 0, _ => []
  | fuel + 1, n =>
    if n < 10 then [Nat.digitChar n]
    else big.natDigits fuel (n / 10) ++ [Nat.digitChar (n % 10)]

/-- The decimal text of a natural number. -/
def big.natText (n : Nat) : List Char :=
  big.natDigits (n + 1) n

/-- The decimal text of an integer, `-` before a negative one. -/
def big.intText (z : Int) : List Char :=
  if z < 0 then '-' :: big.natText z.natAbs else big.natText z.natAbs

/-- The text `a/b` of a rational in lowest terms, as `Rat.String` prints it. -/
def big.ratText (v : ℚ) : List Char :=
  big.intText v.num ++ '/' :: big.natText v.den

/-- One turn of the scan of a decimal number: the next character must be a digit. -/
def big.scanDigit (acc : Nat) (c : Char) : Option Nat :=
  if c.isDigit = true then some (acc * 10 + (c.toNat - 48)) else none

/-- The scan of a decimal natural number: digits only, and at least one. -/
def big.scanNat (cs : List Char) : Option Nat :=
  if cs = [] then none else cs.foldlM big.scanDigit 0

/-- The scan of a decimal integer: an optional sign, then a natural number. -/
def big.scanInt (cs : List Char) : Option Int :=
  match cs with
  | [] => none
  | c :: rest =>
    if c = '-' then Option.map (fun (n : Nat) => -(n : Int)) (big.scanNat rest)
    else if c = '+' then Option.map (fun (n : Nat) => (n : Int)) (big.scanNat rest)
    else Option.map (fun (n : Nat) => (n : Int)) (big.scanNat cs)

/-- The scan of a fraction `a/b`: an integer, the bar, a natural number other
than 0. -/
def big.scanRat (cs : List Char) : Option ℚ :=
  match cs.dropWhile (fun c => c != '/') with
  | _ :: den =>
    match big.scanInt (cs.takeWhile (fun c => c != '/')), big.scanNat den with
    | some a, some b => if b = 0 then none else some ((a : ℚ) / (b : ℚ))
    | _, _ => none
  | [] => none

/-- A text form that prints fractions as `math/big` does and reads the fraction
form back; any text that is not a fraction is turned down and taken to leave
the receiver at 0. -/
def big.fractionText : big.RatText where
  RatString := fun v => String.mk (big.ratText v)
  SetString := fun s =>
    match big.scanRat s.data with
    | some v => (v, true)
    | none => (0, false)

/-- The ring member `types.FilledOrder`, with the fields the row conversions of
`dao/ring.go` read and write; a `*big.Rat` field may be nil (`none`). -/
structure types.FilledOrder where
  OrderState : types.OrderState
  FeeSelection : Nat
  RateAmountS : Option ℚ
  AvailableAmountS : Option ℚ
  AvailableAmountB : Option ℚ
  FillAmountS : Option ℚ
  FillAmountB : Option ℚ
  LrcReward : Option ℚ
  LrcFee : Option ℚ
  FeeS : Option ℚ
  LegalFee : Option ℚ
  SPrice : Option ℚ
  BPrice : Option ℚ
  deriving DecidableEq, Repr

/-- The row type `dao.FilledOrder`; the two hash columns, hex strings in the
code, are hashes, the other text columns are strings. -/
structure dao.FilledOrder where
  ID : Int
  RingHash : common.Hash
  OrderHash : common.Hash
  FeeSelection : Nat
  RateAmountS : String
  AvailableAmountS : String
  AvailableAmountB : String
  FillAmountS : String
  FillAmountB : String
  LrcReward : String
  LrcFee : String
  FeeS : String
  LegalFee : String
  SPrice : String
  BPrice : String
  deriving DecidableEq, Repr

/-- The helper `getRatString`: the empty string for nil, else the text of the
rational. -/
def dao.getRatString (t : big.RatText) (v : Option ℚ) : String :=
  match v with
  | none => ""
  | some v => t.RatString v

/-- The method `FilledOrder.ConvertDown`: the row after the call, and the error,
which is always nil. -/
def dao.FilledOrder.ConvertDown (t : big.RatText) (daoFilledOrder : dao.FilledOrder)
    (filledOrder : types.FilledOrder) (ringhash : common.Hash) :
    dao.FilledOrder × Option Unit :=
  ({ daoFilledOrder with
     RingHash := ringhash
     OrderHash := filledOrder.OrderState.RawOrder.Hash
     FeeSelection := filledOrder.FeeSelection
     RateAmountS := dao.getRatString t filledOrder.RateAmountS
     AvailableAmountS := dao.getRatString t filledOrder.AvailableAmountS
     AvailableAmountB := dao.getRatString t filledOrder.AvailableAmountB
     FillAmountS := dao.getRatString t filledOrder.FillAmountS
     FillAmountB := dao.getRatString t filledOrder.FillAmountB
     LrcReward := dao.getRatString t filledOrder.LrcReward
     LrcFee := dao.getRatString t filledOrder.LrcFee
     FeeS := dao.getRatString t filledOrder.FeeS
     LegalFee := dao.getRatString t filledOrder.LegalFee
     SPrice := dao.getRatString t filledOrder.SPrice
     BPrice := dao.getRatString t filledOrder.BPrice }, none)

/-- The zero value `&types.OrderState{}`. -/
def types.OrderState.zero : types.OrderState where
  RawOrder := types.Order.zero
  UpdatedBlock := 0
  DealtAmountS := 0
  DealtAmountB := 0
  CancelledAmountS := 0
  CancelledAmountB := 0
  AvailableAmountS := 0
  Status := types.OrderStatus.ORDER_UNKNOWN
  BroadcastTime := 0

/-- The two statements `f = new(big.Rat); f.SetString(column)` of
`FilledOrder.ConvertUp`: the field is the fresh rational, whatever `SetString`
answers. -/
def dao.setRat (t : big.RatText) (column : String) : Option ℚ :=
  some (t.SetString column).1

/-- The method `FilledOrder.ConvertUp`: the filled order after the call, and the
error.  With a store (`rds` not nil) the order state is loaded first, and a
failed lookup returns its error before any field is written. -/
def dao.FilledOrder.ConvertUp (t : big.RatText) (daoFilledOrder : dao.FilledOrder)
    (filledOrder : types.FilledOrder) (rds : Option dao.RdsService) :
    types.FilledOrder × Option Unit :=
  let loaded : Option types.FilledOrder :=
    match rds with
    | some rds =>
      match rds.GetOrderByHash daoFilledOrder.OrderHash with
      | none => none
      | some daoOrderState =>
        let orderState := daoOrderState.ConvertUp types.OrderState.zero
        some { filledOrder with OrderState := orderState }
    | none => some filledOrder
  match loaded with
  | none => (filledOrder, some ())
  | some filledOrder =>
    ({ filledOrder with
       FeeSelection := daoFilledOrder.FeeSelection
       RateAmountS := dao.setRat t daoFilledOrder.RateAmountS
       AvailableAmountS := dao.setRat t daoFilledOrder.AvailableAmountS
       AvailableAmountB := dao.setRat t daoFilledOrder.AvailableAmountB
       FillAmountS := dao.setRat t daoFilledOrder.FillAmountS
       FillAmountB := dao.setRat t daoFilledOrder.FillAmountB
       LrcReward := dao.setRat t daoFilledOrder.LrcReward
       LrcFee := dao.setRat t daoFilledOrder.LrcFee
       FeeS := dao.setRat t daoFilledOrder.FeeS
       LegalFee := dao.setRat t daoFilledOrder.LegalFee
       SPrice := dao.setRat t daoFilledOrder.SPrice
       BPrice := dao.setRat t daoFilledOrder.BPrice }, none)

/-- The zero value of `types.FilledOrder`: every rational nil. -/
def types.FilledOrder.zero : types.FilledOrder where
  OrderState := types.OrderState.zero
  FeeSelection := 0
  RateAmountS := none
  AvailableAmountS := none
  AvailableAmountB := none
  FillAmountS := none
  FillAmountB := none
  LrcReward := none
  LrcFee := none
  FeeS := none
  LegalFee := none
  SPrice := none
  BPrice := none

/-- The zero value of `dao.FilledOrder`: every column empty. -/
def dao.FilledOrder.zero : dao.FilledOrder where
  ID := 0
  RingHash := 0
  OrderHash := 0
  FeeSelection := 0
  RateAmountS := ""
  AvailableAmountS := ""
  AvailableAmountB := ""
  FillAmountS := ""
  FillAmountB := ""
  LrcReward := ""
  LrcFee := ""
  FeeS := ""
  LegalFee := ""
  SPrice := ""
  BPrice := ""

/-- A stored row whose two price columns are empty and whose fill amounts are
`3/2` and `-5/1`. -/
def dao.rowNoPrices : dao.FilledOrder :=
  { dao.FilledOrder.zero with
    RingHash := 77, OrderHash := 10, FillAmountS := "3/2", FillAmountB := "-5/1" }

/-- A filled order with fill amount `3/2`, price `2/3` on the sell side and no
price on the buy side. -/
def types.filledOrderHalfPriced : types.FilledOrder :=
  { types.FilledOrder.zero with FillAmountS := some (3 / 2), SPrice := some (2 / 3) }

/-! ## Account manager -/

/-- The event `types.TransferEvent`, with the fields the account manager reads. -/
structure types.TransferEvent where
  From : common.Address
  To : common.Address
  Value : Int
  Blocknumber : Int
  ContractAddress : common.Address
  deriving DecidableEq, Repr

/-- The event `types.ApprovalEvent`, with the fields the account manager reads. -/
structure types.ApprovalEvent where
  Owner : common.Address
  Spender : common.Address
  Value : Int
  Blocknumber : Int
  ContractAddress : common.Address
  deriving DecidableEq, Repr

set_option linter.dupNamespace false in
/-- The balance entry `market.Balance`; the `*big.Int` may be nil (`none`). -/
structure market.Balance where
  Token : String
  Balance : Option Int
  deriving DecidableEq, Repr

/-- The allowance entry `market.Allowance`; the `*big.Int` may be nil (`none`). -/
structure market.Allowance where
  token : String
  allowance : Option Int
  deriving DecidableEq, Repr

/-- The cached `market.Account`: its two maps are functions on their keys, `none`
where the key is absent. -/
structure market.Account where
  Address : String
  Balances : String → Option market.Balance
  Allowances : String → Option market.Allowance

/-- What the account manager reads from outside the sources, as parameters of
which nothing is assumed: the tables of package `market/util`
(`AddressToAlias`, the protocol address of `AllTokens[token]`,
`ContractVersionConfig`) and the text forms of an address (`Address.String`,
`HexToAddress`). -/
structure market.Env where
  AddressToAlias : String → String
  Protocol : String → common.Address
  ContractVersionConfig : String → String
  AddressString : common.Address → String
  HexToAddress : String → common.Address

/-- The manager `market.AccountManager`: the cache `c`, a map from the string of
an address to its account, the chain accessor and the newest block number,
beside the package-level tables `env`. -/
structure market.AccountManager where
  c : String → Option market.Account
  accessor : ethaccessor.EthNodeAccessor
  newestBlockNumber : Int
  env : market.Env

/-- The errors of the account manager, one per `errors.New` site of the two
update methods. -/
inductive market.Error where
  | unsupportedTokenType
  | invalidSpenderAddress
  | unsupportedContractAddress
  deriving DecidableEq, Repr

/-- The method `AccountManager.GetBalanceFromAccessor`; `none` is the error. -/
def market.AccountManager.GetBalanceFromAccessor (a : market.AccountManager)
    (token owner : String) : Option Int :=
  a.accessor.Erc20Balance (a.env.Protocol token) (a.env.HexToAddress owner)

/-- The function `buildAllowanceKey`. -/
def market.buildAllowanceKey (_version token : String) : String :=
  token

/-- The map assignment `m[key] = value`. -/
def market.setKey {α : Type} (m : String → Option α) (key : String) (value : α) :
    String → Option α :=
  fun k => if k = key then some value else m k

/-- The method `AccountManager.updateBalance`: the manager it leaves and how it
ends.  `Sub` and `Add` on the nil balance of an entry whose chain read had
failed dereference nil. -/
def market.AccountManager.updateBalance (a : market.AccountManager)
    (event : types.TransferEvent) (isAdd : Bool) :
    market.AccountManager × go.Exec (Option market.Error) :=
  let tokenAlias := a.env.AddressToAlias (a.env.AddressString event.ContractAddress)
  let address : String :=
    if !isAdd then a.env.AddressString event.From else a.env.AddressString event.To
  if tokenAlias = "" then (a, go.Exec.returned (some market.Error.unsupportedTokenType))
  else
    match a.c address with
    | some account =>
      match account.Balances tokenAlias with
      | none =>
        let balance : market.Balance := { Token := tokenAlias, Balance := none }
        let balance :=
          match a.GetBalanceFromAccessor (a.env.AddressString event.ContractAddress) tokenAlias with
          | none => balance
          | some amount => { balance with Balance := some amount }
        let account := { account with Balances := market.setKey account.Balances tokenAlias balance }
        ({ a with c := market.setKey a.c address account }, go.Exec.returned none)
      | some balance =>
        match balance.Balance with
        | none => (a, go.Exec.panicked go.Panic.nilDereference)
        | some oldBalance =>
          let balance : market.Balance :=
            if isAdd then { balance with Balance := some (oldBalance - event.Value) }
            else { balance with Balance := some (oldBalance + event.Value) }
          let account :=
            { account with Balances := market.setKey account.Balances tokenAlias balance }
          ({ a with c := market.setKey a.c address account }, go.Exec.returned none)
    | none => (a, go.Exec.returned none)

/-- The method `AccountManager.updateAllowance`: the manager it leaves and the
error it returns.  The two lower-cased hex strings differ exactly when the two
addresses do. -/
def market.AccountManager.updateAllowance (a : market.AccountManager)
    (event : types.ApprovalEvent) : market.AccountManager × Option market.Error :=
  let tokenAlias := a.env.AddressToAlias (a.env.AddressString event.ContractAddress)
  let spender := a.env.AddressString event.Spender
  let address := a.env.AddressString event.Owner
  let protocol := a.env.HexToAddress (a.env.ContractVersionConfig "v1.0")
  let spenderAddress := a.accessor.GetSenderAddress protocol
  if a.accessor.GetSenderAddressFails protocol = true then
    (a, some market.Error.invalidSpenderAddress)
  else if spenderAddress ≠ event.Spender then
    (a, some market.Error.unsupportedContractAddress)
  else
    match a.c address with
    | some account =>
      let allowance : market.Allowance := { token := tokenAlias, allowance := some event.Value }
      let account :=
        { account with
          Allowances :=
            market.setKey account.Allowances (market.buildAllowanceKey spender tokenAlias)
              allowance }
      ({ a with c := market.setKey a.c address account }, none)
    | none => (a, none)

/-- The handler `AccountManager.HandleTokenTransfer`: the manager it leaves and
how it ends.  The errors of the two balance updates are dropped. -/
def market.AccountManager.HandleTokenTransfer (a : market.AccountManager)
    (event : types.TransferEvent) : market.AccountManager × go.Exec (Option market.Error) :=
  if event.Blocknumber < a.newestBlockNumber then
    ({ a with c := fun _ => none, newestBlockNumber := -1 }, go.Exec.returned none)
  else
    match a.updateBalance event true with
    | (a1, go.Exec.panicked cause) => (a1, go.Exec.panicked cause)
    | (a1, go.Exec.returned _) =>
      match a1.updateBalance event false with
      | (a2, go.Exec.panicked cause) => (a2, go.Exec.panicked cause)
      | (a2, go.Exec.returned _) => (a2, go.Exec.returned none)

/-- The handler `AccountManager.HandleApprove`: the manager it leaves and how it
ends.  After the allowance update the handler logs `err.Error()`, which
dereferences nil when the update returned no error. -/
def market.AccountManager.HandleApprove (a : market.AccountManager)
    (event : types.ApprovalEvent) : market.AccountManager × go.Exec (Option market.Error) :=
  if event.Blocknumber < a.newestBlockNumber then
    ({ a with c := fun _ => none, newestBlockNumber := -1 }, go.Exec.returned none)
  else
    match a.updateAllowance event with
    | (a1, none) => (a1, go.Exec.panicked go.Panic.nilDereference)
    | (a1, some err) => (a1, go.Exec.returned (some err))

/-- The cached balance of `token` of the account under `address`, if both are
there and the balance is not nil. -/
def market.AccountManager.cachedBalance (a : market.AccountManager) (address token : String) :
    Option Int :=
  match a.c address with
  | some account =>
    match account.Balances token with
    | some balance => balance.Balance
    | none => none
  | none => none

/-- The cached allowance of `token` of the account under `address`, if both are
there and the allowance is not nil. -/
def market.AccountManager.cachedAllowance (a : market.AccountManager) (address token : String) :
    Option Int :=
  match a.c address with
  | some account =>
    match account.Allowances token with
    | some allowance => allowance.allowance
    | none => none
  | none => none

/-- Tables that know the token contract 1 as `LRC` and no other, and write an
address as the decimal string of its number. -/
def market.lrcEnv : market.Env where
  AddressToAlias := fun s => if s = "1" then "LRC" else ""
  Protocol := fun _ => 0
  ContractVersionConfig := fun _ => "7"
  AddressString := fun a => toString a
  HexToAddress := fun s => s.toNat?.getD 0

/-- An account holding 100 `LRC`, with an allowance of 50. -/
def market.lrcAccount (address : String) : market.Account where
  Address := address
  Balances := fun k => if k = "LRC" then some { Token := "LRC", Balance := some 100 } else none
  Allowances := fun k => if k = "LRC" then some { token := "LRC", allowance := some 50 } else none

/-- A manager at block 100 whose cache holds the accounts of the addresses 20
and 21, over a chain whose delegate is the address 8. -/
def market.lrcManager : market.AccountManager where
  c := fun k => if k = "20" ∨ k = "21" then some (market.lrcAccount k) else none
  accessor := { ethaccessor.idleAccessor with GetSenderAddress := fun _ => 8 }
  newestBlockNumber := 100
  env := market.lrcEnv

/-- A transfer of 30 `LRC` from the address 20 to the address 21 at block 100. -/
def market.transfer30 : types.TransferEvent where
  From := 20
  To := 21
  Value := 30
  Blocknumber := 100
  ContractAddress := 1

/-- An approval of 500 `LRC` by the address 20 to the delegate 8 at block 100. -/
def market.approval500 : types.ApprovalEvent where
  Owner := 20
  Spender := 8
  Value := 500
  Blocknumber := 100
  ContractAddress := 1

/-! ## Order manager -/

/-- The options `config.OrderManagerOptions` read by the order manager. -/
structure config.OrderManagerOptions where
  BlockPeriod : Int
  AccountPeriod : Int

/-- The manager `OrderManagerImpl`: its options, its store, the market-cap
provider `mc`, taken as the price function `GetMarketCap` of a token, the chain
accessor, the user manager and the cutoff cache. -/
structure ordermanager.OrderManagerImpl where
  options : config.OrderManagerOptions
  rds : dao.RdsService
  GetMarketCap : common.Address → ℚ
  accessor : ethaccessor.EthNodeAccessor := ethaccessor.idleAccessor
  um : usermanager.UserManager := { InWhiteList := fun _ => false }
  cutoffCache : ordermanager.CutoffCache := { cutoff := fun _ => none }

/-- The errors the handlers of the order manager return, one per `return` site. -/
inductive ordermanager.OrderError where
  | fillAlreadyExist
  | cancelAlreadyExist
  | insertFailed
  | orderNotFound
  | illegalStatus (status : types.OrderStatus)
  | getCancelledOrFilledFailed
  | batchErc20BalanceAndAllowanceFailed
  | balanceOrAllowanceFailed
  | convertDownFailed
  deriving DecidableEq, Repr

namespace ordermanager

open types

/-- The zero value `&types.OrderState{}` of Go: nil amounts read as 0, status 0. -/
def emptyOrderState : OrderState where
  RawOrder :=
    { Protocol := 0, TokenS := 0, TokenB := 0, AmountS := 0, AmountB := 0, Timestamp := 0,
      Ttl := 0, Salt := 0, LrcFee := 0, BuyNoMoreThanAmountB := false,
      MarginSplitPercentage := 0, V := 0, R := 0, S := 0, Owner := 0, Hash := 0 }
  UpdatedBlock := 0
  DealtAmountS := 0
  DealtAmountB := 0
  CancelledAmountS := 0
  CancelledAmountB := 0
  AvailableAmountS := 0
  Status := OrderStatus.ORDER_UNKNOWN
  BroadcastTime := 0

/-- The method `OrderManagerImpl.IsFundInsufficient`. -/
def OrderManagerImpl.IsFundInsufficient (om : OrderManagerImpl) (state : OrderState) : Bool :=
  let price := om.GetMarketCap state.RawOrder.TokenS
  let amount : ℚ := (state.AvailableAmountS : ℚ)
  let value := price * amount
  if value > 1 then false else true

/-- The local `valueOfRemainAmount` of `OrderManagerImpl.IsOrderFullFinished`. -/
def OrderManagerImpl.valueOfRemainAmount (om : OrderManagerImpl) (state : OrderState) : ℚ :=
  if state.RawOrder.BuyNoMoreThanAmountB then
    let cancelOrFilledAmountB := state.DealtAmountB + state.CancelledAmountB
    let remainAmountB := state.RawOrder.AmountB - cancelOrFilledAmountB
    let ratRemainAmountB : ℚ := (remainAmountB : ℚ)
    let price := om.GetMarketCap state.RawOrder.TokenB
    price * ratRemainAmountB
  else
    let cancelOrFilledAmountS := state.DealtAmountS + state.CancelledAmountS
    let remainAmountS := state.RawOrder.AmountS - cancelOrFilledAmountS
    let ratRemainAmountS : ℚ := (remainAmountS : ℚ)
    let price := om.GetMarketCap state.RawOrder.TokenS
    price * ratRemainAmountS

/-- The method `OrderManagerImpl.IsOrderFullFinished`. -/
def OrderManagerImpl.IsOrderFullFinished (om : OrderManagerImpl) (state : OrderState) : Bool :=
  if om.valueOfRemainAmount state > 1 then false else true

/-- The handler `OrderManagerImpl.handleOrderFilled`.  The in-memory
`model.ConvertDown(state)` before the update touches no stored row and is left
out; the error returns of `ConvertDown`, `ConvertUp` and `UpdateOrderWhileFill`
have no branch here, those steps being total in the store model. -/
def OrderManagerImpl.handleOrderFilled (om : OrderManagerImpl) (event : OrderFilledEvent) :
    OrderManagerImpl × Option OrderError :=
  -- save event
  match om.rds.FindFillEventByRinghashAndOrderhash event.Ringhash event.OrderHash with
  | some _ => (om, some OrderError.fillAlreadyExist)
  | none =>
    let newFillModel : dao.FillEvent := event
    match om.rds.AddFillEvent newFillModel with
    | none => (om, some OrderError.insertFailed)
    | some rds1 =>
      let om1 : OrderManagerImpl := { om with rds := rds1 }
      -- get rds.Order and types.OrderState
      let state0 : OrderState := { emptyOrderState with UpdatedBlock := event.Blocknumber }
      match om1.rds.GetOrderByHash event.OrderHash with
      | none => (om1, some OrderError.orderNotFound)
      | some model =>
        let state1 := model.ConvertUp state0
        -- judge order status
        if state1.Status = OrderStatus.ORDER_CUTOFF ∨ state1.Status = OrderStatus.ORDER_FINISHED
            ∨ state1.Status = OrderStatus.ORDER_UNKNOWN then
          (om1, some (OrderError.illegalStatus state1.Status))
        else
          -- calculate dealt amount
          let state2 : OrderState := { state1 with UpdatedBlock := event.Blocknumber }
          let state3 : OrderState :=
            { state2 with DealtAmountS := state2.DealtAmountS + event.AmountS }
          let state4 : OrderState :=
            { state3 with DealtAmountB := state3.DealtAmountB + event.AmountB }
          -- update order status
          let finished := om1.IsOrderFullFinished state4
          let state5 := state4.SettleFinishedStatus finished
          -- update rds.Order
          let rds2 := om1.rds.UpdateOrderWhileFill state5.RawOrder.Hash state5.Status
            state5.DealtAmountS state5.DealtAmountB state5.UpdatedBlock
          ({ om1 with rds := rds2 }, none)

/-- The handler `OrderManagerImpl.handleOrderCancelled`.  The in-memory
`model.ConvertDown(state)` before the update touches no stored row and is left
out; the error returns of `ConvertDown`, `ConvertUp` and `UpdateOrderWhileCancel`
have no branch here, those steps being total in the store model. -/
def OrderManagerImpl.handleOrderCancelled (om : OrderManagerImpl) (event : OrderCancelledEvent) :
    OrderManagerImpl × Option OrderError :=
  -- save event
  match om.rds.FindCancelEvent event.OrderHash event.TxHash with
  | some _ => (om, some OrderError.cancelAlreadyExist)
  | none =>
    let newCancelEventModel : dao.CancelEvent := event
    match om.rds.AddCancelEvent newCancelEventModel with
    | none => (om, some OrderError.insertFailed)
    | some rds1 =>
      let om1 : OrderManagerImpl := { om with rds := rds1 }
      -- get rds.Order and types.OrderState
      let state0 : OrderState := emptyOrderState
      match om1.rds.GetOrderByHash event.OrderHash with
      | none => (om1, some OrderError.orderNotFound)
      | some model =>
        let state1 := model.ConvertUp state0
        -- judge status
        if state1.Status = OrderStatus.ORDER_CUTOFF ∨ state1.Status = OrderStatus.ORDER_FINISHED
            ∨ state1.Status = OrderStatus.ORDER_UNKNOWN then
          (om1, some (OrderError.illegalStatus state1.Status))
        else
          -- calculate remainAmount
          let state2 : OrderState :=
            if state1.RawOrder.BuyNoMoreThanAmountB then
              { state1 with CancelledAmountB := state1.CancelledAmountB + event.AmountCancelled }
            else
              { state1 with CancelledAmountS := state1.CancelledAmountS + event.AmountCancelled }
          -- update order status
          let finished := om1.IsOrderFullFinished state2
          let state3 := state2.SettleFinishedStatus finished
          -- update rds.Order
          let rds2 := om1.rds.UpdateOrderWhileCancel state3.RawOrder.Hash state3.Status
            state3.CancelledAmountS state3.CancelledAmountB state3.UpdatedBlock
          ({ om1 with rds := rds2 }, none)

/-- The zero value `&dao.Order{}` of Go. -/
def emptyOrderModel : dao.Order where
  RawOrder := emptyOrderState.RawOrder
  DealtAmountS := 0
  DealtAmountB := 0
  CancelledAmountS := 0
  CancelledAmountB := 0
  Status := OrderStatus.ORDER_UNKNOWN
  UpdatedBlock := 0
  BroadcastTime := 0
  MinerBlockMark := 0

/-- Modelled from the spec: `generateErc20Req` is not among the sources; the
probe of section 4.5 for the order's owner, its tokenS and the delegate. -/
def generateErc20Req (state : OrderState) (spender : common.Address) :
    ethaccessor.BatchErc20Req where
  Owner := state.RawOrder.Owner
  Token := state.RawOrder.TokenS
  Spender := spender
  Balance := 0
  Allowance := 0
  BalanceErr := false
  AllowanceErr := false

/-- Modelled from the spec: `calculateAmountS` is not among the sources; section
4.5 sets `availableS := min(balance, allowance)`. -/
def calculateAmountS (state : OrderState) (req : ethaccessor.BatchErc20Req) : OrderState :=
  { state with AvailableAmountS := min req.Balance req.Allowance }

/-- The method `OrderManagerImpl.IsOrderCutoff`. -/
def OrderManagerImpl.IsOrderCutoff (om : OrderManagerImpl) (owner : common.Address)
    (createTime : Int) : Bool :=
  om.cutoffCache.IsOrderCutoff owner createTime

/-- What `handleGatewayOrder` leaves behind: the manager, the returned error and
the chain calls it made. -/
structure GatewayResult where
  om : OrderManagerImpl
  err : Option OrderError
  calls : List ethaccessor.Call

/-- The tail of `handleGatewayOrder`: build the row with its miner block mark and
insert it. -/
def OrderManagerImpl.addGatewayOrder (om : OrderManagerImpl) (state : OrderState)
    (markBlockNumber : Int) (calls : List ethaccessor.Call) : GatewayResult :=
  let model0 : dao.Order := { emptyOrderModel with MinerBlockMark := markBlockNumber }
  let model := model0.ConvertDown state
  match om.rds.AddOrder model with
  | none => { om := om, err := some OrderError.insertFailed, calls := calls }
  | some rds1 => { om := { om with rds := rds1 }, err := none, calls := calls }

/-- The handler `OrderManagerImpl.handleGatewayOrder`. -/
def OrderManagerImpl.handleGatewayOrder (om : OrderManagerImpl) (input : OrderState) :
    GatewayResult :=
  let state0 : OrderState :=
    { input with
      Status := OrderStatus.ORDER_NEW
      DealtAmountS := 0
      DealtAmountB := 0
      CancelledAmountS := 0
      CancelledAmountB := 0 }
  -- order already exist in dao/order
  match om.rds.GetOrderByHash state0.RawOrder.Hash with
  | some _ => { om := om, err := none, calls := [] }
  | none =>
    -- get order cancelled or filled amount from chain
    let result1 := om.accessor.GetCancelledOrFilled state0.RawOrder.Protocol state0.RawOrder.Hash
    let call1 := ethaccessor.Call.GetCancelledOrFilled state0.RawOrder.Protocol
      state0.RawOrder.Hash result1
    match result1 with
    | none =>
      { om := om, err := some OrderError.getCancelledOrFilledFailed, calls := [call1] }
    | some cancelOrFilledAmount =>
      let state1 : OrderState := { state0 with CancelledAmountS := cancelOrFilledAmount }
      -- check order finished status
      let finished := om.IsOrderFullFinished state1
      let state2 := state1.SettleFinishedStatus finished
      -- check allowance and balance
      if state2.Status ≠ OrderStatus.ORDER_FINISHED then
        let spender := om.accessor.GetSenderAddress state2.RawOrder.Protocol
        let call2 := ethaccessor.Call.GetSenderAddress state2.RawOrder.Protocol spender
        let req := generateErc20Req state2 spender
        let result3 := om.accessor.BatchErc20BalanceAndAllowance [req]
        let call3 := ethaccessor.Call.BatchErc20BalanceAndAllowance [req] result3
        match result3 with
        | none =>
          { om := om, err := some OrderError.batchErc20BalanceAndAllowanceFailed,
            calls := [call1, call2, call3] }
        | some reqs =>
          let req1 := reqs.headD req
          if req1.AllowanceErr = true ∨ req1.BalanceErr = true then
            { om := om, err := some OrderError.balanceOrAllowanceFailed,
              calls := [call1, call2, call3] }
          else
            let state3 := calculateAmountS state2 req1
            let markBlockNumber : Int :=
              if om.IsFundInsufficient state3 then
                go.int64 (go.int64 state3.UpdatedBlock + go.int64 om.options.AccountPeriod)
              else 0
            om.addGatewayOrder state3 markBlockNumber [call1, call2, call3]
      else
        om.addGatewayOrder state2 0 [call1]

/-- The handler `OrderManagerImpl.handleRingMined`.  The conversion
`dao.RingMinedEvent.ConvertDown` is not among the sources and is the parameter
`ConvertDown`, `none` standing for its error. -/
def OrderManagerImpl.handleRingMined (om : OrderManagerImpl)
    (ConvertDown : RingMinedEvent → Option dao.RingMinedEvent) (event : RingMinedEvent) :
    OrderManagerImpl × Option OrderError :=
  match ConvertDown event with
  | none => (om, some OrderError.convertDownFailed)
  | some model =>
    match om.rds.AddRingMinedEvent model with
    | none => (om, some OrderError.insertFailed)
    | some rds1 => ({ om with rds := rds1 }, none)

/-- What `MinerOrders` leaves behind: the manager, the returned list and the
store calls it made. -/
structure MinerOrdersResult where
  om : OrderManagerImpl
  list : List OrderState
  calls : List dao.Call

/-- One turn of the last loop of `MinerOrders`: a request with a probe error is
skipped, a fund-insufficient order is added to the mark list, any other order
to the result. -/
def OrderManagerImpl.checkAccount (om : OrderManagerImpl)
    (acc : List common.Hash × List OrderState) (item : ethaccessor.BatchErc20Req × OrderState) :
    List common.Hash × List OrderState :=
  let req := item.1
  let v0 := item.2
  if req.BalanceErr = true ∨ req.AllowanceErr = true then acc
  else
    let v := calculateAmountS v0 req
    if om.IsFundInsufficient v then (acc.1 ++ [v.RawOrder.Hash], acc.2)
    else (acc.1, acc.2 ++ [v])

/-- The method `OrderManagerImpl.MinerOrders`. -/
def OrderManagerImpl.MinerOrders (om : OrderManagerImpl) (protocol tokenS tokenB : common.Address)
    (length : Nat) (filterOrderhashs : List common.Hash) : MinerOrdersResult :=
  let filterStatus : List OrderStatus :=
    [OrderStatus.ORDER_FINISHED, OrderStatus.ORDER_CUTOFF, OrderStatus.ORDER_CANCEL]
  let orderhashstrs := filterOrderhashs
  -- the latest block of the store; an empty table means mark 0
  let found := om.rds.FindLatestBlock
  let currentBlock := found.1
  let markBlockNumber : Int := if found.2 = false then currentBlock.BlockNumber else 0
  -- mark the orders the miner turned down
  let rds1 := om.rds.MarkMinerOrders orderhashstrs (go.int64 markBlockNumber)
  let call1 := dao.Call.MarkMinerOrders orderhashstrs (go.int64 markBlockNumber)
  -- get the orders from the store
  let markBlockNumber1 := markBlockNumber - go.int64 om.options.BlockPeriod
  let modelList := rds1.GetOrdersForMiner protocol tokenS tokenB length filterStatus
    (go.int64 markBlockNumber1)
  let call2 := dao.Call.GetOrdersForMiner protocol tokenS tokenB length filterStatus
    (go.int64 markBlockNumber1) modelList
  let listBeforeCheckAccount : List OrderState :=
    (modelList.map (fun v => v.ConvertUp emptyOrderState)).filter
      (fun state => !om.um.InWhiteList state.RawOrder.TokenS)
  -- probe balance and allowance of the owners in one batch
  let erc20ReqList : List ethaccessor.BatchErc20Req :=
    listBeforeCheckAccount.map
      (fun v => generateErc20Req v (om.accessor.GetSenderAddress v.RawOrder.Protocol))
  if erc20ReqList.length = 0 then
    { om := { om with rds := rds1 }, list := [], calls := [call1, call2] }
  else
    match om.accessor.BatchErc20BalanceAndAllowance erc20ReqList with
    | none => { om := { om with rds := rds1 }, list := [], calls := [call1, call2] }
    | some reqs =>
      -- filter the orders by balance and allowance
      let checked := (reqs.zip listBeforeCheckAccount).foldl om.checkAccount ([], [])
      let accountMarkList := checked.1
      let list := checked.2
      -- mark the orders short of balance or allowance
      let accountForbiddenBlockMark :=
        go.int64 (currentBlock.BlockNumber + go.int64 om.options.AccountPeriod)
      let rds2 := rds1.MarkMinerOrders accountMarkList accountForbiddenBlockMark
      let call3 := dao.Call.MarkMinerOrders accountMarkList accountForbiddenBlockMark
      { om := { om with rds := rds2 }, list := list, calls := [call1, call2, call3] }

/-- An event of the two extractor topics that change an order. -/
inductive OrderEvent where
  | filled (event : OrderFilledEvent)
  | cancelled (event : OrderCancelledEvent)
  deriving DecidableEq, Repr

/-- The event router of `Start`: a fill goes to `handleOrderFilled`, a cancel to
`handleOrderCancelled`. -/
def OrderManagerImpl.handleEvent (om : OrderManagerImpl) :
    OrderEvent → OrderManagerImpl × Option OrderError
  | OrderEvent.filled event => om.handleOrderFilled event
  | OrderEvent.cancelled event => om.handleOrderCancelled event

/-- The events of a sequence handled one after the other, with the list of the
errors returned. -/
def OrderManagerImpl.handleEvents (om : OrderManagerImpl) :
    List OrderEvent → OrderManagerImpl × List (Option OrderError)
  | [] => (om, [])
  | e :: rest =>
    let r := om.handleEvent e
    let rs := r.1.handleEvents rest
    (rs.1, r.2 :: rs.2)

/-- The chain head `MinerOrders` works with: the number of the latest stored
block, or 0 when the block query finds none. -/
def OrderManagerImpl.currentHead (om : OrderManagerImpl) : Int :=
  if om.rds.FindLatestBlock.2 = false then om.rds.FindLatestBlock.1.BlockNumber else 0

/-- The candidate rows `MinerOrders` gets from the store, once the hashes the
miner turned down are marked. -/
def OrderManagerImpl.minerCandidates (om : OrderManagerImpl)
    (protocol tokenS tokenB : common.Address) (length : Nat)
    (filterOrderhashs : List common.Hash) : List dao.Order :=
  (om.rds.MarkMinerOrders filterOrderhashs (go.int64 om.currentHead)).GetOrdersForMiner protocol tokenS
    tokenB length
    [OrderStatus.ORDER_FINISHED, OrderStatus.ORDER_CUTOFF, OrderStatus.ORDER_CANCEL]
    (go.int64 (om.currentHead - go.int64 om.options.BlockPeriod))

/-- The candidate states `MinerOrders` probes: the candidate rows loaded into
states, without those whose tokenS the white-list predicate holds of. -/
def OrderManagerImpl.minerStates (om : OrderManagerImpl)
    (protocol tokenS tokenB : common.Address) (length : Nat)
    (filterOrderhashs : List common.Hash) : List OrderState :=
  ((om.minerCandidates protocol tokenS tokenB length filterOrderhashs).map
      (fun v => v.ConvertUp emptyOrderState)).filter
    (fun state => !om.um.InWhiteList state.RawOrder.TokenS)

/-- The requests `MinerOrders` batches, one per candidate state. -/
def OrderManagerImpl.minerRequests (om : OrderManagerImpl)
    (protocol tokenS tokenB : common.Address) (length : Nat)
    (filterOrderhashs : List common.Hash) : List ethaccessor.BatchErc20Req :=
  (om.minerStates protocol tokenS tokenB length filterOrderhashs).map
    (fun v => generateErc20Req v (om.accessor.GetSenderAddress v.RawOrder.Protocol))

/-- The probe the batch of `MinerOrders` reads back for a candidate state. -/
def OrderManagerImpl.probeOf (om : OrderManagerImpl) (v : OrderState) :
    ethaccessor.BatchErc20Req :=
  om.accessor.probe (generateErc20Req v (om.accessor.GetSenderAddress v.RawOrder.Protocol))

/-- Both the balance and the allowance probe of a candidate state succeeded. -/
def OrderManagerImpl.probeSucceeded (om : OrderManagerImpl) (v : OrderState) : Bool :=
  !((om.probeOf v).BalanceErr || (om.probeOf v).AllowanceErr)

/-- A candidate state with the available amount its probe gives it. -/
def OrderManagerImpl.probed (om : OrderManagerImpl) (v : OrderState) : OrderState :=
  calculateAmountS v (om.probeOf v)

/-- The order an event names. -/
def OrderEvent.OrderHash : OrderEvent → common.Hash
  | OrderEvent.filled event => event.OrderHash
  | OrderEvent.cancelled event => event.OrderHash

/-- The `amountS` an event fills: that of a fill, 0 for a cancel. -/
def OrderEvent.filledAmountS : OrderEvent → Int
  | OrderEvent.filled event => event.AmountS
  | OrderEvent.cancelled _ => 0

/-- The amount an event cancels: that of a cancel, 0 for a fill. -/
def OrderEvent.cancelledAmount : OrderEvent → Int
  | OrderEvent.filled _ => 0
  | OrderEvent.cancelled event => event.AmountCancelled

/-- The state `handleOrderFilled` holds once it has loaded the row `model` and
added the dealt amounts of `event`, before it settles the status. -/
def filledState (model : dao.Order) (event : OrderFilledEvent) : OrderState :=
  { (model.ConvertUp emptyOrderState) with
    UpdatedBlock := event.Blocknumber
    DealtAmountS := model.DealtAmountS + event.AmountS
    DealtAmountB := model.DealtAmountB + event.AmountB }

/-- The state `handleOrderCancelled` holds once it has loaded the row `model` and
added the cancelled amount of `event`, before it settles the status. -/
def cancelledState (model : dao.Order) (event : OrderCancelledEvent) : OrderState :=
  if model.RawOrder.BuyNoMoreThanAmountB then
    { (model.ConvertUp emptyOrderState) with
      CancelledAmountB := model.CancelledAmountB + event.AmountCancelled }
  else
    { (model.ConvertUp emptyOrderState) with
      CancelledAmountS := model.CancelledAmountS + event.AmountCancelled }

/-- The state `handleGatewayOrder` holds once it has reset the incoming state and
stored the chain's `cancelledOrFilled` amount, before it settles the status. -/
def gatewayState (input : OrderState) (cancelOrFilledAmount : Int) : OrderState :=
  { input with
    Status := OrderStatus.ORDER_NEW
    DealtAmountS := 0
    DealtAmountB := 0
    CancelledAmountS := cancelOrFilledAmount
    CancelledAmountB := 0 }

/-- The probe `handleGatewayOrder` reads back for an order: the request for its
owner, its tokenS and the delegate of its protocol, as the chain answers it. -/
def OrderManagerImpl.gatewayProbe (om : OrderManagerImpl) (input : OrderState) :
    ethaccessor.BatchErc20Req :=
  om.accessor.probe
    (generateErc20Req input (om.accessor.GetSenderAddress input.RawOrder.Protocol))

/-! ## Concrete inputs -/

/-- An order of 1000 `tokenS` (token 1) for 10 `tokenB` (token 2), hash `0xA`. -/
def sampleOrder : Order where
  Protocol := 7
  TokenS := 1
  TokenB := 2
  AmountS := 1000
  AmountB := 10
  Timestamp := 50
  Ttl := 3600
  Salt := 0
  LrcFee := 0
  BuyNoMoreThanAmountB := false
  MarginSplitPercentage := 0
  V := 0
  R := 0
  S := 0
  Owner := 9
  Hash := 10

/-- An order state with remaining amount 1 on the S side and available amount 1. -/
def dustState : OrderState where
  RawOrder := { sampleOrder with AmountS := 1 }
  UpdatedBlock := 100
  DealtAmountS := 0
  DealtAmountB := 0
  CancelledAmountS := 0
  CancelledAmountB := 0
  AvailableAmountS := 1
  Status := OrderStatus.ORDER_NEW
  BroadcastTime := 0

/-- The empty store. -/
def emptyRds : dao.RdsService where
  orders := []
  fills := []
  cancels := []

/-- A manager over the empty store whose oracle prices every token at 1. -/
def unitPriceManager : OrderManagerImpl where
  options := { BlockPeriod := 2, AccountPeriod := 3 }
  rds := emptyRds
  GetMarketCap := fun _ => 1

/-- The stored row of `sampleOrder` right after ingestion at block 100. -/
def freshRow : dao.Order where
  RawOrder := sampleOrder
  DealtAmountS := 0
  DealtAmountB := 0
  CancelledAmountS := 0
  CancelledAmountB := 0
  Status := OrderStatus.ORDER_NEW
  UpdatedBlock := 100
  BroadcastTime := 0
  MinerBlockMark := 0

/-- A manager whose store holds `freshRow` only and whose oracle prices every token at `p`. -/
def s1Manager (p : ℚ) : OrderManagerImpl where
  options := { BlockPeriod := 2, AccountPeriod := 3 }
  rds := { orders := [freshRow], fills := [], cancels := [] }
  GetMarketCap := fun _ => p

/-- The fill of 400 `tokenS` for 4 `tokenB` of `sampleOrder` at block 101, in ring 1. -/
def fill400 : OrderFilledEvent where
  Ringhash := 1
  PreOrderHash := 11
  OrderHash := 10
  NextOrderHash := 11
  RingIndex := 1
  AmountS := 400
  AmountB := 4
  LrcReward := 0
  LrcFee := 0
  SplitS := 0
  SplitB := 0
  Blocknumber := 101
  TxHash := 21

/-- The manager `s1Manager p` after the fill of 400 left the order PARTIAL. -/
def s1ManagerAfter400 (p : ℚ) : OrderManagerImpl where
  options := { BlockPeriod := 2, AccountPeriod := 3 }
  rds :=
    { orders := [{ freshRow with DealtAmountS := 400, DealtAmountB := 4, UpdatedBlock := 101,
                                 Status := OrderStatus.ORDER_PARTIAL }]
      fills := [fill400]
      cancels := [] }
  GetMarketCap := fun _ => p

/-- The fill of 600 `tokenS` for 6 `tokenB` of `sampleOrder` at block 102, in ring 2. -/
def fill600 : OrderFilledEvent where
  Ringhash := 2
  PreOrderHash := 11
  OrderHash := 10
  NextOrderHash := 11
  RingIndex := 2
  AmountS := 600
  AmountB := 6
  LrcReward := 0
  LrcFee := 0
  SplitS := 0
  SplitB := 0
  Blocknumber := 102
  TxHash := 22

/-- The cancel of 1000 of `sampleOrder` at block 103. -/
def cancel1000 : OrderCancelledEvent where
  OrderHash := 10
  AmountCancelled := 1000
  Blocknumber := 103
  TxHash := 23

/-- The stored row of `sampleOrder` once the cancel of 1000 has finished it. -/
def cancelledRow : dao.Order :=
  { freshRow with CancelledAmountS := 1000, Status := OrderStatus.ORDER_FINISHED }

/-- A manager whose store holds `cancelledRow` and the cancel that produced it. -/
def s1ManagerCancelled (p : ℚ) : OrderManagerImpl where
  options := { BlockPeriod := 2, AccountPeriod := 3 }
  rds := { orders := [cancelledRow], fills := [], cancels := [cancel1000] }
  GetMarketCap := fun _ => p

/-- A stored row of `sampleOrder` whose status is CANCEL. -/
def cancelStatusRow : dao.Order :=
  { freshRow with Status := OrderStatus.ORDER_CANCEL }

/-- A manager whose store holds `cancelStatusRow` only. -/
def cancelStatusManager (p : ℚ) : OrderManagerImpl where
  options := { BlockPeriod := 2, AccountPeriod := 3 }
  rds := { orders := [cancelStatusRow], fills := [], cancels := [] }
  GetMarketCap := fun _ => p

/-- A fill of 2000 `tokenS` of `sampleOrder`, twice the order's `amountS`. -/
def fill2000 : OrderFilledEvent :=
  { fill400 with AmountS := 2000 }

/-- The amounts invariant of section 3 on a stored row:
`dealtAmountS + cancelledAmountS ≤ amountS` and the B-side analog. -/
def OrderInvariant (o : dao.Order) : Prop :=
  o.DealtAmountS + o.CancelledAmountS ≤ o.RawOrder.AmountS
    ∧ o.DealtAmountB + o.CancelledAmountB ≤ o.RawOrder.AmountB

/-- The amounts invariant is decidable, being two comparisons of integers. -/
instance OrderInvariant.instDecidable (o : dao.Order) : Decidable (OrderInvariant o) := by
  unfold OrderInvariant
  infer_instance

/-- A chain where nothing is cancelled or filled, the delegate is address 8 and
every balance and allowance is 1000. -/
def fundedAccessor : ethaccessor.EthNodeAccessor where
  GetCancelledOrFilled := fun _ _ => some 0
  GetSenderAddress := fun _ => 8
  Erc20Balance := fun _ _ => some 1000
  Erc20Allowance := fun _ _ _ => some 1000
  BatchFails := fun _ => false

/-- A manager over the empty store, with unit prices, the funded chain and a
cutoff of 100 recorded for owner 9. -/
def gatewayManager : OrderManagerImpl where
  options := { BlockPeriod := 2, AccountPeriod := 3 }
  rds := emptyRds
  GetMarketCap := fun _ => 1
  accessor := fundedAccessor
  cutoffCache := { cutoff := fun owner => if owner = 9 then some 100 else none }

/-- The order state the gateway hands over for `sampleOrder` at block 100; the
amounts and the status it carries are reset by the handler. -/
def gatewayInput : OrderState where
  RawOrder := sampleOrder
  UpdatedBlock := 100
  DealtAmountS := 7
  DealtAmountB := 7
  CancelledAmountS := 7
  CancelledAmountB := 7
  AvailableAmountS := 0
  Status := OrderStatus.ORDER_FINISHED
  BroadcastTime := 0

/-- The manager `gatewayManager` once `sampleOrder` is stored. -/
def gatewayManagerKnown : OrderManagerImpl :=
  { gatewayManager with rds := { orders := [freshRow], fills := [], cancels := [] } }

/-- The manager `gatewayManager` on a chain whose `cancelledOrFilled` query fails. -/
def gatewayManagerQueryDown : OrderManagerImpl :=
  { gatewayManager with
    accessor := { fundedAccessor with GetCancelledOrFilled := fun _ _ => none } }

/-- The manager `gatewayManager` on a chain where every balance and allowance is 0. -/
def gatewayManagerUnfunded : OrderManagerImpl :=
  { gatewayManager with
    accessor := { fundedAccessor with Erc20Balance := fun _ _ => some 0,
                                      Erc20Allowance := fun _ _ _ => some 0 } }

/-- The gateway's state for `sampleOrder` carrying the stale `updatedBlock` 90. -/
def staleInput : OrderState :=
  { gatewayInput with UpdatedBlock := 90 }

/-- The block 100, created at time 1000. -/
def block100 : dao.Block where
  ID := 1
  BlockNumber := 100
  BlockHash := 100
  ParentHash := 99
  CreateTime := 1000
  Fork := false

/-- A manager whose store holds `freshRow` and the block 100, over the funded
chain with unit prices, whose white-list holds the address 9, the owner of
`sampleOrder`. -/
def minerManagerOwnerListed : OrderManagerImpl where
  options := { BlockPeriod := 2, AccountPeriod := 3 }
  rds := { orders := [freshRow], fills := [], cancels := [], blocks := [block100] }
  GetMarketCap := fun _ => 1
  accessor := fundedAccessor
  um := { InWhiteList := fun a => decide (a = 9) }

/-- The same manager whose white-list holds the address 1, the tokenS of
`sampleOrder`, instead. -/
def minerManagerTokenListed : OrderManagerImpl :=
  { minerManagerOwnerListed with um := { InWhiteList := fun a => decide (a = 1) } }

/-- A ring-mined event of two orders with ring index 1. -/
def ringMined1 : RingMinedEvent where
  RingIndex := 1
  Ringhash := 1
  Miner := 30
  FeeRecipient := 31
  IsRinghashReserved := false
  TotalLrcFee := 0
  TradeAmount := 2

/-- The manager `gatewayManagerUnfunded` whose store holds the block 100 as its
latest block. -/
def gatewayManagerUnfundedAt100 : OrderManagerImpl :=
  { gatewayManagerUnfunded with
    rds := { orders := [], fills := [], cancels := [], blocks := [block100] } }

/-- The block of the greatest `int64` number, `2^63 - 1`, created at time 1000. -/
def blockMax : dao.Block :=
  { block100 with BlockNumber := 9223372036854775807 }

/-- The manager `gatewayManagerUnfunded` whose store holds `blockMax` as its
latest block. -/
def gatewayManagerUnfundedAtMax : OrderManagerImpl :=
  { gatewayManagerUnfunded with
    rds := { orders := [], fills := [], cancels := [], blocks := [blockMax] } }

/-- The gateway's state for `sampleOrder` carrying the number of `blockMax`, the
chain head of `gatewayManagerUnfundedAtMax`, as its `updatedBlock`. -/
def maxBlockInput : OrderState :=
  { gatewayInput with UpdatedBlock := 9223372036854775807 }

/-- The manager `minerManagerOwnerListed` with an empty white-list. -/
def minerManagerUnlisted : OrderManagerImpl :=
  { minerManagerOwnerListed with um := { InWhiteList := fun _ => false } }

/-- A chain on which every balance and every allowance is 0 and no call fails. -/
def unfundedAccessor : ethaccessor.EthNodeAccessor :=
  { fundedAccessor with Erc20Balance := fun _ _ => some 0, Erc20Allowance := fun _ _ _ => some 0 }

/-- A manager whose store holds `freshRow` and `blockMax`, over the unfunded
chain with unit prices and an empty white-list. -/
def minerManagerUnfundedAtMax : OrderManagerImpl where
  options := { BlockPeriod := 2, AccountPeriod := 3 }
  rds := { orders := [freshRow], fills := [], cancels := [], blocks := [blockMax] }
  GetMarketCap := fun _ => 1
  accessor := unfundedAccessor

/-- A manager whose store holds `freshRow` and the block 100, over the unfunded
chain with unit prices, with the block period 0. -/
def minerManagerNoPeriod : OrderManagerImpl where
  options := { BlockPeriod := 0, AccountPeriod := 3 }
  rds := { orders := [freshRow], fills := [], cancels := [], blocks := [block100] }
  GetMarketCap := fun _ => 1
  accessor := unfundedAccessor

/-- The manager `minerManagerUnfundedAtMax` with the block period -1. -/
def minerManagerNegativePeriod : OrderManagerImpl :=
  { minerManagerUnfundedAtMax with options := { BlockPeriod := -1, AccountPeriod := 3 } }

/-! ## Theorems -/

/-- C1, as stated, fails: at price 1 and remaining amount 1 the remaining value
is exactly 1, not below 1, and `IsOrderFullFinished` still returns true. -/
theorem IsOrderFullFinished_true_at_value_one :
    ¬ (unitPriceManager.IsOrderFullFinished dustState = true ↔
        unitPriceManager.GetMarketCap dustState.RawOrder.TokenS *
          ((dustState.RawOrder.AmountS - dustState.DealtAmountS
            - dustState.CancelledAmountS : Int) : ℚ) < 1) := by
  simp [OrderManagerImpl.IsOrderFullFinished, OrderManagerImpl.valueOfRemainAmount,
    unitPriceManager, dustState, sampleOrder]

/-- C1, amended: `IsOrderFullFinished` returns true if and only if the price times
the remaining amount of the valued side is at most 1 (not strictly below 1). -/
theorem IsOrderFullFinished_iff_value_le_one (om : OrderManagerImpl) (state : OrderState) :
    om.IsOrderFullFinished state = true ↔
      (if state.RawOrder.BuyNoMoreThanAmountB then
        om.GetMarketCap state.RawOrder.TokenB *
          ((state.RawOrder.AmountB - state.DealtAmountB - state.CancelledAmountB : Int) : ℚ)
      else
        om.GetMarketCap state.RawOrder.TokenS *
          ((state.RawOrder.AmountS - state.DealtAmountS - state.CancelledAmountS : Int) : ℚ))
        ≤ 1 := by
  unfold OrderManagerImpl.IsOrderFullFinished OrderManagerImpl.valueOfRemainAmount
  cases state.RawOrder.BuyNoMoreThanAmountB <;> simp [sub_sub]

/-- C2, as stated, fails: at price 1 and available amount 1 the available value
is exactly 1, not below 1, and `IsFundInsufficient` still returns true. -/
theorem IsFundInsufficient_true_at_value_one :
    ¬ (unitPriceManager.IsFundInsufficient dustState = true ↔
        unitPriceManager.GetMarketCap dustState.RawOrder.TokenS *
          (dustState.AvailableAmountS : ℚ) < 1) := by
  simp [OrderManagerImpl.IsFundInsufficient, unitPriceManager, dustState, sampleOrder]

/-- C2, amended: `IsFundInsufficient` returns true if and only if the price of
tokenS times `availableAmountS` is at most 1 (not strictly below 1). -/
theorem IsFundInsufficient_iff_value_le_one (om : OrderManagerImpl) (state : OrderState) :
    om.IsFundInsufficient state = true ↔
      om.GetMarketCap state.RawOrder.TokenS * (state.AvailableAmountS : ℚ) ≤ 1 := by
  simp [OrderManagerImpl.IsFundInsufficient]

/-- C3: the value `IsOrderFullFinished` compares is the price of tokenB times
`amountB - dealtAmountB - cancelledAmountB` when `buyNoMoreThanAmountB` is true
and the price of tokenS times `amountS - dealtAmountS - cancelledAmountS` when
it is false, and replacing the three fields of the other side by any values
`a`, `d`, `c` changes neither the value nor the result. -/
theorem IsOrderFullFinished_values_remaining_side (om : OrderManagerImpl) (state : OrderState)
    (a d c : Int) :
    om.valueOfRemainAmount state =
        (if state.RawOrder.BuyNoMoreThanAmountB then
          om.GetMarketCap state.RawOrder.TokenB *
            ((state.RawOrder.AmountB - state.DealtAmountB - state.CancelledAmountB : Int) : ℚ)
        else
          om.GetMarketCap state.RawOrder.TokenS *
            ((state.RawOrder.AmountS - state.DealtAmountS - state.CancelledAmountS : Int) : ℚ))
      ∧ om.IsOrderFullFinished state = decide (om.valueOfRemainAmount state ≤ 1)
      ∧ om.IsOrderFullFinished
          (if state.RawOrder.BuyNoMoreThanAmountB then
            { state with RawOrder := { state.RawOrder with AmountS := a },
                         DealtAmountS := d, CancelledAmountS := c }
          else
            { state with RawOrder := { state.RawOrder with AmountB := a },
                         DealtAmountB := d, CancelledAmountB := c })
        = om.IsOrderFullFinished state := by
  refine ⟨?_, ?_, ?_⟩
  · unfold OrderManagerImpl.valueOfRemainAmount
    cases h : state.RawOrder.BuyNoMoreThanAmountB <;> simp [sub_sub]
  · unfold OrderManagerImpl.IsOrderFullFinished
    rcases lt_or_le 1 (om.valueOfRemainAmount state) with hv | hv
    · simp [hv, not_le.mpr hv]
    · simp [hv, not_lt.mpr hv]
  · unfold OrderManagerImpl.IsOrderFullFinished OrderManagerImpl.valueOfRemainAmount
    cases h : state.RawOrder.BuyNoMoreThanAmountB <;> simp [h]

/-! ### Arithmetic of `int64` -/

/-- An integer that fits in `int64` is its own `int64` value. -/
theorem int64_of_fits (x : Int) (h : go.fitsInt64 x) : go.int64 x = x := by
  unfold go.fitsInt64 at h
  unfold go.int64
  omega

/-- The `int64` value of an integer fits in `int64`. -/
theorem fitsInt64_int64 (x : Int) : go.fitsInt64 (go.int64 x) := by
  unfold go.fitsInt64 go.int64
  omega

/-- Adding two `int64` values in `int64` is adding the integers and wrapping once. -/
theorem int64_add_int64 (a b : Int) : go.int64 (go.int64 a + go.int64 b) = go.int64 (a + b) := by
  unfold go.int64
  omega

/-- Adding an `int64` value to an integer and wrapping is wrapping the sum. -/
theorem int64_add_right (a b : Int) : go.int64 (a + go.int64 b) = go.int64 (a + b) := by
  unfold go.int64
  omega

/-- Subtracting an `int64` value from an integer and wrapping is wrapping the
difference. -/
theorem int64_sub_right (a b : Int) : go.int64 (a - go.int64 b) = go.int64 (a - b) := by
  unfold go.int64
  omega

/-! ### Store lemmas -/

/-- Looking an order up after a per-hash update that keeps hashes. -/
theorem find?_hash_map_update (l : List dao.Order) (h k : common.Hash) (g : dao.Order → dao.Order)
    (hg : ∀ o, (g o).RawOrder.Hash = o.RawOrder.Hash) :
    (l.map (fun o => if o.RawOrder.Hash = h then g o else o)).find?
        (fun o => decide (o.RawOrder.Hash = k))
      = (l.find? (fun o => decide (o.RawOrder.Hash = k))).map
          (fun o => if o.RawOrder.Hash = h then g o else o) := by
  induction l with
  | nil => rfl
  | cons a t ih =>
    have hu : (if a.RawOrder.Hash = h then g a else a).RawOrder.Hash = a.RawOrder.Hash := by
      split
      · exact hg a
      · rfl
    simp only [List.map_cons, List.find?_cons]
    rw [hu, ih]
    cases decide (a.RawOrder.Hash = k) <;> rfl

/-- An order found by hash carries that hash. -/
theorem GetOrderByHash_hash {s : dao.RdsService} {h : common.Hash} {o : dao.Order}
    (hget : s.GetOrderByHash h = some o) : o.RawOrder.Hash = h := by
  have := List.find?_some hget
  simpa using this

/-- Inserting a fill whose key is free appends it to the fill table. -/
theorem AddFillEvent_of_new {s : dao.RdsService} {f : dao.FillEvent}
    (hnew : s.FindFillEventByRinghashAndOrderhash f.Ringhash f.OrderHash = none) :
    s.AddFillEvent f = some { s with fills := s.fills ++ [f] } := by
  simp [dao.RdsService.AddFillEvent, hnew]

/-- Inserting a cancel whose key is free appends it to the cancel table. -/
theorem AddCancelEvent_of_new {s : dao.RdsService} {c : dao.CancelEvent}
    (hnew : s.FindCancelEvent c.OrderHash c.TxHash = none) :
    s.AddCancelEvent c = some { s with cancels := s.cancels ++ [c] } := by
  simp [dao.RdsService.AddCancelEvent, hnew]

/-- Settling the finished status changes the status only. -/
theorem SettleFinishedStatus_eq (ord : OrderState) (b : Bool) :
    ord.SettleFinishedStatus b =
      { ord with Status := if b = true then OrderStatus.ORDER_FINISHED
                           else OrderStatus.ORDER_PARTIAL } := by
  cases b <;> rfl

/-- The finished test reads the oracle only, not the store. -/
theorem IsOrderFullFinished_rds (om : OrderManagerImpl) (r : dao.RdsService) (state : OrderState) :
    OrderManagerImpl.IsOrderFullFinished { om with rds := r } state
      = om.IsOrderFullFinished state := rfl

/-! ### The four outcomes of `handleOrderFilled` -/

/-- A fill whose key is stored is rejected and nothing changes. -/
theorem handleOrderFilled_of_stored {om : OrderManagerImpl} {event : OrderFilledEvent}
    {f : dao.FillEvent}
    (hold : om.rds.FindFillEventByRinghashAndOrderhash event.Ringhash event.OrderHash = some f) :
    om.handleOrderFilled event = (om, some OrderError.fillAlreadyExist) := by
  simp [OrderManagerImpl.handleOrderFilled, hold]

/-- A new fill for an order that is not stored is recorded and then rejected. -/
theorem handleOrderFilled_of_missing {om : OrderManagerImpl} {event : OrderFilledEvent}
    (hnew : om.rds.FindFillEventByRinghashAndOrderhash event.Ringhash event.OrderHash = none)
    (hget : om.rds.GetOrderByHash event.OrderHash = none) :
    om.handleOrderFilled event =
      ({ om with rds := { om.rds with fills := om.rds.fills ++ [event] } },
        some OrderError.orderNotFound) := by
  have hget1 : dao.RdsService.GetOrderByHash
      { om.rds with fills := om.rds.fills ++ [event] } event.OrderHash = none := hget
  simp [OrderManagerImpl.handleOrderFilled, hnew, AddFillEvent_of_new hnew, hget1]

/-- A new fill for an order in a rejecting status is recorded and then rejected. -/
theorem handleOrderFilled_of_illegal {om : OrderManagerImpl} {event : OrderFilledEvent}
    {model : dao.Order}
    (hnew : om.rds.FindFillEventByRinghashAndOrderhash event.Ringhash event.OrderHash = none)
    (hget : om.rds.GetOrderByHash event.OrderHash = some model)
    (hst : model.Status = OrderStatus.ORDER_CUTOFF ∨ model.Status = OrderStatus.ORDER_FINISHED
      ∨ model.Status = OrderStatus.ORDER_UNKNOWN) :
    om.handleOrderFilled event =
      ({ om with rds := { om.rds with fills := om.rds.fills ++ [event] } },
        some (OrderError.illegalStatus model.Status)) := by
  have hget1 : dao.RdsService.GetOrderByHash
      { om.rds with fills := om.rds.fills ++ [event] } event.OrderHash = some model := hget
  simp [OrderManagerImpl.handleOrderFilled, hnew, AddFillEvent_of_new hnew, hget1,
    dao.Order.ConvertUp, hst]

/-- A new fill for an order in a legal status is recorded and the order updated. -/
theorem handleOrderFilled_of_legal {om : OrderManagerImpl} {event : OrderFilledEvent}
    {model : dao.Order}
    (hnew : om.rds.FindFillEventByRinghashAndOrderhash event.Ringhash event.OrderHash = none)
    (hget : om.rds.GetOrderByHash event.OrderHash = some model)
    (hst : ¬ (model.Status = OrderStatus.ORDER_CUTOFF ∨ model.Status = OrderStatus.ORDER_FINISHED
      ∨ model.Status = OrderStatus.ORDER_UNKNOWN)) :
    om.handleOrderFilled event =
      ({ om with rds := (dao.RdsService.UpdateOrderWhileFill
            { om.rds with fills := om.rds.fills ++ [event] } event.OrderHash
            (if om.IsOrderFullFinished (filledState model event) = true
              then OrderStatus.ORDER_FINISHED else OrderStatus.ORDER_PARTIAL)
            (model.DealtAmountS + event.AmountS) (model.DealtAmountB + event.AmountB)
            event.Blocknumber) },
        none) := by
  have hget1 : dao.RdsService.GetOrderByHash
      { om.rds with fills := om.rds.fills ++ [event] } event.OrderHash = some model := hget
  have hh := GetOrderByHash_hash hget
  simp only [OrderManagerImpl.handleOrderFilled, hnew, AddFillEvent_of_new hnew, hget1,
    dao.Order.ConvertUp, hst, if_false, SettleFinishedStatus_eq, IsOrderFullFinished_rds, hh,
    filledState]

/-! ### The four outcomes of `handleOrderCancelled` -/

/-- A cancel whose key is stored is rejected and nothing changes. -/
theorem handleOrderCancelled_of_stored {om : OrderManagerImpl} {event : OrderCancelledEvent}
    {c : dao.CancelEvent}
    (hold : om.rds.FindCancelEvent event.OrderHash event.TxHash = some c) :
    om.handleOrderCancelled event = (om, some OrderError.cancelAlreadyExist) := by
  simp [OrderManagerImpl.handleOrderCancelled, hold]

/-- A new cancel for an order that is not stored is recorded and then rejected. -/
theorem handleOrderCancelled_of_missing {om : OrderManagerImpl} {event : OrderCancelledEvent}
    (hnew : om.rds.FindCancelEvent event.OrderHash event.TxHash = none)
    (hget : om.rds.GetOrderByHash event.OrderHash = none) :
    om.handleOrderCancelled event =
      ({ om with rds := { om.rds with cancels := om.rds.cancels ++ [event] } },
        some OrderError.orderNotFound) := by
  have hget1 : dao.RdsService.GetOrderByHash
      { om.rds with cancels := om.rds.cancels ++ [event] } event.OrderHash = none := hget
  simp [OrderManagerImpl.handleOrderCancelled, hnew, AddCancelEvent_of_new hnew, hget1]

/-- A new cancel for an order in a rejecting status is recorded and then rejected. -/
theorem handleOrderCancelled_of_illegal {om : OrderManagerImpl} {event : OrderCancelledEvent}
    {model : dao.Order}
    (hnew : om.rds.FindCancelEvent event.OrderHash event.TxHash = none)
    (hget : om.rds.GetOrderByHash event.OrderHash = some model)
    (hst : model.Status = OrderStatus.ORDER_CUTOFF ∨ model.Status = OrderStatus.ORDER_FINISHED
      ∨ model.Status = OrderStatus.ORDER_UNKNOWN) :
    om.handleOrderCancelled event =
      ({ om with rds := { om.rds with cancels := om.rds.cancels ++ [event] } },
        some (OrderError.illegalStatus model.Status)) := by
  have hget1 : dao.RdsService.GetOrderByHash
      { om.rds with cancels := om.rds.cancels ++ [event] } event.OrderHash = some model := hget
  simp [OrderManagerImpl.handleOrderCancelled, hnew, AddCancelEvent_of_new hnew, hget1,
    dao.Order.ConvertUp, hst]

/-- A new cancel for an order in a legal status is recorded and the order updated. -/
theorem handleOrderCancelled_of_legal {om : OrderManagerImpl} {event : OrderCancelledEvent}
    {model : dao.Order}
    (hnew : om.rds.FindCancelEvent event.OrderHash event.TxHash = none)
    (hget : om.rds.GetOrderByHash event.OrderHash = some model)
    (hst : ¬ (model.Status = OrderStatus.ORDER_CUTOFF ∨ model.Status = OrderStatus.ORDER_FINISHED
      ∨ model.Status = OrderStatus.ORDER_UNKNOWN)) :
    om.handleOrderCancelled event =
      ({ om with rds := (dao.RdsService.UpdateOrderWhileCancel
            { om.rds with cancels := om.rds.cancels ++ [event] } event.OrderHash
            (if om.IsOrderFullFinished (cancelledState model event) = true
              then OrderStatus.ORDER_FINISHED else OrderStatus.ORDER_PARTIAL)
            (cancelledState model event).CancelledAmountS
            (cancelledState model event).CancelledAmountB
            model.UpdatedBlock) },
        none) := by
  have hget1 : dao.RdsService.GetOrderByHash
      { om.rds with cancels := om.rds.cancels ++ [event] } event.OrderHash = some model := hget
  have hh := GetOrderByHash_hash hget
  cases hb : model.RawOrder.BuyNoMoreThanAmountB <;>
    simp [OrderManagerImpl.handleOrderCancelled, hnew, AddCancelEvent_of_new hnew, hget1,
      dao.Order.ConvertUp, hst, SettleFinishedStatus_eq, IsOrderFullFinished_rds, hh, hb,
      cancelledState]

/-- Looking an order up ignores the fill table. -/
theorem GetOrderByHash_fills (s : dao.RdsService) (l : List dao.FillEvent) (k : common.Hash) :
    dao.RdsService.GetOrderByHash { s with fills := l } k = s.GetOrderByHash k := rfl

/-- Looking an order up ignores the cancel table. -/
theorem GetOrderByHash_cancels (s : dao.RdsService) (l : List dao.CancelEvent) (k : common.Hash) :
    dao.RdsService.GetOrderByHash { s with cancels := l } k = s.GetOrderByHash k := rfl

/-- Looking an order up after the targeted update of a fill. -/
theorem GetOrderByHash_UpdateOrderWhileFill (s : dao.RdsService) (h k : common.Hash)
    (status : OrderStatus) (dS dB b : Int) :
    (s.UpdateOrderWhileFill h status dS dB b).GetOrderByHash k =
      (s.GetOrderByHash k).map (fun o =>
        if o.RawOrder.Hash = h then
          { o with Status := status, DealtAmountS := dS, DealtAmountB := dB, UpdatedBlock := b }
        else o) :=
  find?_hash_map_update s.orders h k
    (fun o => { o with Status := status, DealtAmountS := dS, DealtAmountB := dB,
                       UpdatedBlock := b })
    (fun _ => rfl)

/-- Looking an order up after the targeted update of a cancel. -/
theorem GetOrderByHash_UpdateOrderWhileCancel (s : dao.RdsService) (h k : common.Hash)
    (status : OrderStatus) (cS cB b : Int) :
    (s.UpdateOrderWhileCancel h status cS cB b).GetOrderByHash k =
      (s.GetOrderByHash k).map (fun o =>
        if o.RawOrder.Hash = h then
          { o with Status := status, CancelledAmountS := cS, CancelledAmountB := cB,
                   UpdatedBlock := b }
        else o) :=
  find?_hash_map_update s.orders h k
    (fun o => { o with Status := status, CancelledAmountS := cS, CancelledAmountB := cB,
                       UpdatedBlock := b })
    (fun _ => rfl)

/-- The stored row of the order after an accepted fill. -/
theorem GetOrderByHash_handleOrderFilled {om : OrderManagerImpl} {event : OrderFilledEvent}
    {model : dao.Order}
    (hnew : om.rds.FindFillEventByRinghashAndOrderhash event.Ringhash event.OrderHash = none)
    (hget : om.rds.GetOrderByHash event.OrderHash = some model)
    (hst : ¬ (model.Status = OrderStatus.ORDER_CUTOFF ∨ model.Status = OrderStatus.ORDER_FINISHED
      ∨ model.Status = OrderStatus.ORDER_UNKNOWN)) :
    (om.handleOrderFilled event).1.rds.GetOrderByHash event.OrderHash =
      some { model with
        Status := if om.IsOrderFullFinished (filledState model event) = true
          then OrderStatus.ORDER_FINISHED else OrderStatus.ORDER_PARTIAL
        DealtAmountS := model.DealtAmountS + event.AmountS
        DealtAmountB := model.DealtAmountB + event.AmountB
        UpdatedBlock := event.Blocknumber } := by
  have hh := GetOrderByHash_hash hget
  rw [handleOrderFilled_of_legal hnew hget hst]
  simp only [GetOrderByHash_UpdateOrderWhileFill, GetOrderByHash_fills, hget, hh,
    Option.map_some', if_true]

/-- The stored row of the order after an accepted cancel. -/
theorem GetOrderByHash_handleOrderCancelled {om : OrderManagerImpl}
    {event : OrderCancelledEvent} {model : dao.Order}
    (hnew : om.rds.FindCancelEvent event.OrderHash event.TxHash = none)
    (hget : om.rds.GetOrderByHash event.OrderHash = some model)
    (hst : ¬ (model.Status = OrderStatus.ORDER_CUTOFF ∨ model.Status = OrderStatus.ORDER_FINISHED
      ∨ model.Status = OrderStatus.ORDER_UNKNOWN)) :
    (om.handleOrderCancelled event).1.rds.GetOrderByHash event.OrderHash =
      some { model with
        Status := if om.IsOrderFullFinished (cancelledState model event) = true
          then OrderStatus.ORDER_FINISHED else OrderStatus.ORDER_PARTIAL
        CancelledAmountS := (cancelledState model event).CancelledAmountS
        CancelledAmountB := (cancelledState model event).CancelledAmountB
        UpdatedBlock := model.UpdatedBlock } := by
  have hh := GetOrderByHash_hash hget
  rw [handleOrderCancelled_of_legal hnew hget hst]
  simp only [GetOrderByHash_UpdateOrderWhileCancel, GetOrderByHash_cancels, hget, hh,
    Option.map_some', if_true]

/-- The rows stored under other hashes are untouched by a fill. -/
theorem GetOrderByHash_handleOrderFilled_other (om : OrderManagerImpl)
    (event : OrderFilledEvent) (k : common.Hash) (hk : k ≠ event.OrderHash) :
    (om.handleOrderFilled event).1.rds.GetOrderByHash k = om.rds.GetOrderByHash k := by
  cases hnew : om.rds.FindFillEventByRinghashAndOrderhash event.Ringhash event.OrderHash with
  | some f => rw [handleOrderFilled_of_stored hnew]
  | none =>
    cases hget : om.rds.GetOrderByHash event.OrderHash with
    | none => rw [handleOrderFilled_of_missing hnew hget]; rfl
    | some model =>
      by_cases hst : model.Status = OrderStatus.ORDER_CUTOFF
          ∨ model.Status = OrderStatus.ORDER_FINISHED ∨ model.Status = OrderStatus.ORDER_UNKNOWN
      · rw [handleOrderFilled_of_illegal hnew hget hst]; rfl
      · rw [handleOrderFilled_of_legal hnew hget hst]
        simp only [GetOrderByHash_UpdateOrderWhileFill, GetOrderByHash_fills]
        cases hk' : om.rds.GetOrderByHash k with
        | none => rfl
        | some o =>
          have ho := GetOrderByHash_hash hk'
          simp [ho, hk]

/-- The rows stored under other hashes are untouched by a cancel. -/
theorem GetOrderByHash_handleOrderCancelled_other (om : OrderManagerImpl)
    (event : OrderCancelledEvent) (k : common.Hash) (hk : k ≠ event.OrderHash) :
    (om.handleOrderCancelled event).1.rds.GetOrderByHash k = om.rds.GetOrderByHash k := by
  cases hnew : om.rds.FindCancelEvent event.OrderHash event.TxHash with
  | some f => rw [handleOrderCancelled_of_stored hnew]
  | none =>
    cases hget : om.rds.GetOrderByHash event.OrderHash with
    | none => rw [handleOrderCancelled_of_missing hnew hget]; rfl
    | some model =>
      by_cases hst : model.Status = OrderStatus.ORDER_CUTOFF
          ∨ model.Status = OrderStatus.ORDER_FINISHED ∨ model.Status = OrderStatus.ORDER_UNKNOWN
      · rw [handleOrderCancelled_of_illegal hnew hget hst]; rfl
      · rw [handleOrderCancelled_of_legal hnew hget hst]
        simp only [GetOrderByHash_UpdateOrderWhileCancel, GetOrderByHash_cancels]
        cases hk' : om.rds.GetOrderByHash k with
        | none => rfl
        | some o =>
          have ho := GetOrderByHash_hash hk'
          simp [ho, hk]

/-! ### Fills -/

/-- C4: for a stored order whose status is not CUTOFF, FINISHED or UNKNOWN and a
fill event whose key `(ringhash, orderhash)` is not yet stored, `handleOrderFilled`
returns no error, and the stored row of the order afterwards has
`dealtAmountS = old dealtAmountS + event.amountS`,
`dealtAmountB = old dealtAmountB + event.amountB` and
`updatedBlock = event.blockNumber`, with the cancelled amounts, the raw order,
the broadcast time and the miner block mark unchanged; the row stored under any
other hash is unchanged. -/
theorem handleOrderFilled_adds_dealt_amounts (om : OrderManagerImpl) (event : OrderFilledEvent)
    (model : dao.Order)
    (hget : om.rds.GetOrderByHash event.OrderHash = some model)
    (hst : model.Status ≠ OrderStatus.ORDER_CUTOFF ∧ model.Status ≠ OrderStatus.ORDER_FINISHED
      ∧ model.Status ≠ OrderStatus.ORDER_UNKNOWN)
    (hnew : om.rds.FindFillEventByRinghashAndOrderhash event.Ringhash event.OrderHash = none) :
    (om.handleOrderFilled event).2 = none
      ∧ (∃ updated : dao.Order,
          (om.handleOrderFilled event).1.rds.GetOrderByHash event.OrderHash = some updated
          ∧ updated.DealtAmountS = model.DealtAmountS + event.AmountS
          ∧ updated.DealtAmountB = model.DealtAmountB + event.AmountB
          ∧ updated.UpdatedBlock = event.Blocknumber
          ∧ updated.CancelledAmountS = model.CancelledAmountS
          ∧ updated.CancelledAmountB = model.CancelledAmountB
          ∧ updated.RawOrder = model.RawOrder
          ∧ updated.BroadcastTime = model.BroadcastTime
          ∧ updated.MinerBlockMark = model.MinerBlockMark)
      ∧ (∀ k : common.Hash, k ≠ event.OrderHash →
          (om.handleOrderFilled event).1.rds.GetOrderByHash k = om.rds.GetOrderByHash k) := by
  have hst' : ¬ (model.Status = OrderStatus.ORDER_CUTOFF
      ∨ model.Status = OrderStatus.ORDER_FINISHED
      ∨ model.Status = OrderStatus.ORDER_UNKNOWN) := by
    rintro (h | h | h)
    · exact hst.1 h
    · exact hst.2.1 h
    · exact hst.2.2 h
  refine ⟨?_, ?_, ?_⟩
  · rw [handleOrderFilled_of_legal hnew hget hst']
  · exact ⟨_, GetOrderByHash_handleOrderFilled hnew hget hst', rfl, rfl, rfl, rfl, rfl, rfl, rfl,
      rfl⟩
  · exact fun k hk => GetOrderByHash_handleOrderFilled_other om event k hk

/-- C4 at the fill of 400 on the freshly ingested `sampleOrder`. -/
theorem handleOrderFilled_adds_dealt_amounts_witness :
    (s1Manager 1).rds.GetOrderByHash fill400.OrderHash = some freshRow
      ∧ (freshRow.Status ≠ OrderStatus.ORDER_CUTOFF ∧ freshRow.Status ≠ OrderStatus.ORDER_FINISHED
          ∧ freshRow.Status ≠ OrderStatus.ORDER_UNKNOWN)
      ∧ (s1Manager 1).rds.FindFillEventByRinghashAndOrderhash fill400.Ringhash fill400.OrderHash
          = none
      ∧ ((s1Manager 1).handleOrderFilled fill400).2 = none
      ∧ (∃ updated : dao.Order,
          ((s1Manager 1).handleOrderFilled fill400).1.rds.GetOrderByHash fill400.OrderHash
            = some updated
          ∧ updated.DealtAmountS = freshRow.DealtAmountS + fill400.AmountS
          ∧ updated.DealtAmountB = freshRow.DealtAmountB + fill400.AmountB
          ∧ updated.UpdatedBlock = fill400.Blocknumber
          ∧ updated.CancelledAmountS = freshRow.CancelledAmountS
          ∧ updated.CancelledAmountB = freshRow.CancelledAmountB
          ∧ updated.RawOrder = freshRow.RawOrder
          ∧ updated.BroadcastTime = freshRow.BroadcastTime
          ∧ updated.MinerBlockMark = freshRow.MinerBlockMark)
      ∧ (∀ k : common.Hash, k ≠ fill400.OrderHash →
          ((s1Manager 1).handleOrderFilled fill400).1.rds.GetOrderByHash k
            = (s1Manager 1).rds.GetOrderByHash k) :=
  ⟨by decide, by decide, by decide,
    handleOrderFilled_adds_dealt_amounts (s1Manager 1) fill400 freshRow (by decide) (by decide)
      (by decide)⟩

/-! ### Accepted events -/

/-- An accepted fill was new and met a stored order in a legal status. -/
theorem handleOrderFilled_accepted {om : OrderManagerImpl} {event : OrderFilledEvent}
    (hacc : (om.handleOrderFilled event).2 = none) :
    om.rds.FindFillEventByRinghashAndOrderhash event.Ringhash event.OrderHash = none
      ∧ ∃ model : dao.Order, om.rds.GetOrderByHash event.OrderHash = some model
          ∧ ¬ (model.Status = OrderStatus.ORDER_CUTOFF ∨ model.Status = OrderStatus.ORDER_FINISHED
                ∨ model.Status = OrderStatus.ORDER_UNKNOWN) := by
  cases hnew : om.rds.FindFillEventByRinghashAndOrderhash event.Ringhash event.OrderHash with
  | some f => rw [handleOrderFilled_of_stored hnew] at hacc; cases hacc
  | none =>
    refine ⟨rfl, ?_⟩
    cases hget : om.rds.GetOrderByHash event.OrderHash with
    | none => rw [handleOrderFilled_of_missing hnew hget] at hacc; cases hacc
    | some model =>
      refine ⟨model, rfl, ?_⟩
      intro hst
      rw [handleOrderFilled_of_illegal hnew hget hst] at hacc
      cases hacc

/-- An accepted cancel was new and met a stored order in a legal status. -/
theorem handleOrderCancelled_accepted {om : OrderManagerImpl} {event : OrderCancelledEvent}
    (hacc : (om.handleOrderCancelled event).2 = none) :
    om.rds.FindCancelEvent event.OrderHash event.TxHash = none
      ∧ ∃ model : dao.Order, om.rds.GetOrderByHash event.OrderHash = some model
          ∧ ¬ (model.Status = OrderStatus.ORDER_CUTOFF ∨ model.Status = OrderStatus.ORDER_FINISHED
                ∨ model.Status = OrderStatus.ORDER_UNKNOWN) := by
  cases hnew : om.rds.FindCancelEvent event.OrderHash event.TxHash with
  | some f => rw [handleOrderCancelled_of_stored hnew] at hacc; cases hacc
  | none =>
    refine ⟨rfl, ?_⟩
    cases hget : om.rds.GetOrderByHash event.OrderHash with
    | none => rw [handleOrderCancelled_of_missing hnew hget] at hacc; cases hacc
    | some model =>
      refine ⟨model, rfl, ?_⟩
      intro hst
      rw [handleOrderCancelled_of_illegal hnew hget hst] at hacc
      cases hacc

/-- The finished test reads the raw order and the four cumulative amounts only. -/
theorem IsOrderFullFinished_congr (om : OrderManagerImpl) {s t : OrderState}
    (hr : s.RawOrder = t.RawOrder) (h1 : s.DealtAmountS = t.DealtAmountS)
    (h2 : s.DealtAmountB = t.DealtAmountB) (h3 : s.CancelledAmountS = t.CancelledAmountS)
    (h4 : s.CancelledAmountB = t.CancelledAmountB) :
    om.IsOrderFullFinished s = om.IsOrderFullFinished t := by
  simp only [OrderManagerImpl.IsOrderFullFinished, OrderManagerImpl.valueOfRemainAmount, hr, h1,
    h2, h3, h4]

/-- The finished test on the row stored by a fill is the one the handler made. -/
theorem IsOrderFullFinished_stored_fill (om : OrderManagerImpl) (model : dao.Order)
    (event : OrderFilledEvent) (status : OrderStatus) :
    om.IsOrderFullFinished (dao.Order.ConvertUp
        { model with
          Status := status
          DealtAmountS := model.DealtAmountS + event.AmountS
          DealtAmountB := model.DealtAmountB + event.AmountB
          UpdatedBlock := event.Blocknumber } emptyOrderState)
      = om.IsOrderFullFinished (filledState model event) :=
  IsOrderFullFinished_congr om rfl rfl rfl rfl rfl

/-- The finished test on the row stored by a cancel is the one the handler made. -/
theorem IsOrderFullFinished_stored_cancel (om : OrderManagerImpl) (model : dao.Order)
    (event : OrderCancelledEvent) (status : OrderStatus) :
    om.IsOrderFullFinished (dao.Order.ConvertUp
        { model with
          Status := status
          CancelledAmountS := (cancelledState model event).CancelledAmountS
          CancelledAmountB := (cancelledState model event).CancelledAmountB
          UpdatedBlock := model.UpdatedBlock } emptyOrderState)
      = om.IsOrderFullFinished (cancelledState model event) := by
  apply IsOrderFullFinished_congr om <;>
    cases hb : model.RawOrder.BuyNoMoreThanAmountB <;>
    simp [cancelledState, hb, dao.Order.ConvertUp]

/-- The fill of 400 on the fresh order, at a price valuing the remaining 600 above 1. -/
theorem s1Manager_fill400 (p : ℚ) (hp : 1 < p * 600) :
    (s1Manager p).handleOrderFilled fill400 = (s1ManagerAfter400 p, none) := by
  have hnew : (s1Manager p).rds.FindFillEventByRinghashAndOrderhash fill400.Ringhash
      fill400.OrderHash = none := rfl
  have hget : (s1Manager p).rds.GetOrderByHash fill400.OrderHash = some freshRow := rfl
  have hfin : (s1Manager p).IsOrderFullFinished (filledState freshRow fill400) = false := by
    simp [OrderManagerImpl.IsOrderFullFinished, OrderManagerImpl.valueOfRemainAmount,
      filledState, dao.Order.ConvertUp, freshRow, sampleOrder, fill400, s1Manager]
    exact hp
  rw [handleOrderFilled_of_legal hnew hget (by decide), hfin]
  rfl

/-- C5: after `handleOrderFilled` or `handleOrderCancelled` accepts an event, the
stored status of the order is FINISHED if `IsOrderFullFinished` holds of the
stored (updated) amounts and PARTIAL otherwise; and on the freshly ingested
order of 1000 `tokenS`, at a price `p` that values the remaining 600 above 1, a
fill of 400 leaves the row PARTIAL with 400 dealt and a further fill of 600
leaves it FINISHED with 1000 dealt. -/
theorem handlers_settle_finished_or_partial (om : OrderManagerImpl) (event : OrderFilledEvent)
    (cancel : OrderCancelledEvent) (p : ℚ)
    (hfill : (om.handleOrderFilled event).2 = none)
    (hcancel : (om.handleOrderCancelled cancel).2 = none)
    (hp : 1 < p * 600) :
    (∃ updated : dao.Order,
        (om.handleOrderFilled event).1.rds.GetOrderByHash event.OrderHash = some updated
        ∧ updated.Status =
            if om.IsOrderFullFinished (updated.ConvertUp emptyOrderState) = true
            then OrderStatus.ORDER_FINISHED else OrderStatus.ORDER_PARTIAL)
      ∧ (∃ updated : dao.Order,
        (om.handleOrderCancelled cancel).1.rds.GetOrderByHash cancel.OrderHash = some updated
        ∧ updated.Status =
            if om.IsOrderFullFinished (updated.ConvertUp emptyOrderState) = true
            then OrderStatus.ORDER_FINISHED else OrderStatus.ORDER_PARTIAL)
      ∧ ((s1Manager p).handleOrderFilled fill400).1.rds.GetOrderByHash 10
          = some { freshRow with DealtAmountS := 400, DealtAmountB := 4, UpdatedBlock := 101,
                                 Status := OrderStatus.ORDER_PARTIAL }
      ∧ (((s1Manager p).handleOrderFilled fill400).1.handleOrderFilled fill600).1.rds.GetOrderByHash
            10
          = some { freshRow with DealtAmountS := 1000, DealtAmountB := 10, UpdatedBlock := 102,
                                 Status := OrderStatus.ORDER_FINISHED } := by
  refine ⟨?_, ?_, ?_, ?_⟩
  · obtain ⟨hnew, model, hget, hst⟩ := handleOrderFilled_accepted hfill
    refine ⟨_, GetOrderByHash_handleOrderFilled hnew hget hst, ?_⟩
    rw [IsOrderFullFinished_stored_fill]
  · obtain ⟨hnew, model, hget, hst⟩ := handleOrderCancelled_accepted hcancel
    refine ⟨_, GetOrderByHash_handleOrderCancelled hnew hget hst, ?_⟩
    rw [IsOrderFullFinished_stored_cancel]
  · rw [s1Manager_fill400 p hp]
    rfl
  · rw [s1Manager_fill400 p hp]
    have hnew : (s1ManagerAfter400 p).rds.FindFillEventByRinghashAndOrderhash fill600.Ringhash
        fill600.OrderHash = none := rfl
    have hget : (s1ManagerAfter400 p).rds.GetOrderByHash fill600.OrderHash
        = some { freshRow with DealtAmountS := 400, DealtAmountB := 4, UpdatedBlock := 101,
                               Status := OrderStatus.ORDER_PARTIAL } := rfl
    have hfin : (s1ManagerAfter400 p).IsOrderFullFinished
        (filledState { freshRow with DealtAmountS := 400, DealtAmountB := 4, UpdatedBlock := 101,
                                     Status := OrderStatus.ORDER_PARTIAL } fill600) = true := by
      simp [OrderManagerImpl.IsOrderFullFinished, OrderManagerImpl.valueOfRemainAmount,
        filledState, dao.Order.ConvertUp, freshRow, sampleOrder, fill600]
    have h := GetOrderByHash_handleOrderFilled hnew hget (by decide)
    rw [hfin] at h
    exact h

/-- C5 at the fresh order with unit prices: both the fill of 400 and the cancel
of 1000 are accepted, and the price 1 values the remaining 600 above 1. -/
theorem handlers_settle_finished_or_partial_witness :
    ((s1Manager 1).handleOrderFilled fill400).2 = none
      ∧ ((s1Manager 1).handleOrderCancelled cancel1000).2 = none
      ∧ (1 : ℚ) < 1 * 600
      ∧ ((∃ updated : dao.Order,
          ((s1Manager 1).handleOrderFilled fill400).1.rds.GetOrderByHash fill400.OrderHash
            = some updated
          ∧ updated.Status =
              if (s1Manager 1).IsOrderFullFinished (updated.ConvertUp emptyOrderState) = true
              then OrderStatus.ORDER_FINISHED else OrderStatus.ORDER_PARTIAL)
        ∧ (∃ updated : dao.Order,
          ((s1Manager 1).handleOrderCancelled cancel1000).1.rds.GetOrderByHash
              cancel1000.OrderHash = some updated
          ∧ updated.Status =
              if (s1Manager 1).IsOrderFullFinished (updated.ConvertUp emptyOrderState) = true
              then OrderStatus.ORDER_FINISHED else OrderStatus.ORDER_PARTIAL)
        ∧ ((s1Manager 1).handleOrderFilled fill400).1.rds.GetOrderByHash 10
            = some { freshRow with DealtAmountS := 400, DealtAmountB := 4, UpdatedBlock := 101,
                                   Status := OrderStatus.ORDER_PARTIAL }
        ∧ (((s1Manager 1).handleOrderFilled fill400).1.handleOrderFilled
              fill600).1.rds.GetOrderByHash 10
            = some { freshRow with DealtAmountS := 1000, DealtAmountB := 10, UpdatedBlock := 102,
                                   Status := OrderStatus.ORDER_FINISHED }) :=
  ⟨by decide, by decide, by norm_num,
    handlers_settle_finished_or_partial (s1Manager 1) fill400 cancel1000 1 (by decide)
      (by decide) (by norm_num)⟩

/-! ### Rejected events -/

/-- A fill never changes the order table when it is rejected. -/
theorem handleOrderFilled_rejected_orders {om : OrderManagerImpl} {event : OrderFilledEvent}
    (hrej : (om.handleOrderFilled event).2 ≠ none) :
    (om.handleOrderFilled event).1.rds.orders = om.rds.orders := by
  cases hnew : om.rds.FindFillEventByRinghashAndOrderhash event.Ringhash event.OrderHash with
  | some f => rw [handleOrderFilled_of_stored hnew]
  | none =>
    cases hget : om.rds.GetOrderByHash event.OrderHash with
    | none => rw [handleOrderFilled_of_missing hnew hget]
    | some model =>
      by_cases hst : model.Status = OrderStatus.ORDER_CUTOFF
          ∨ model.Status = OrderStatus.ORDER_FINISHED ∨ model.Status = OrderStatus.ORDER_UNKNOWN
      · rw [handleOrderFilled_of_illegal hnew hget hst]
      · rw [handleOrderFilled_of_legal hnew hget hst] at hrej
        exact absurd rfl hrej

/-- A cancel never changes the order table when it is rejected. -/
theorem handleOrderCancelled_rejected_orders {om : OrderManagerImpl}
    {event : OrderCancelledEvent} (hrej : (om.handleOrderCancelled event).2 ≠ none) :
    (om.handleOrderCancelled event).1.rds.orders = om.rds.orders := by
  cases hnew : om.rds.FindCancelEvent event.OrderHash event.TxHash with
  | some f => rw [handleOrderCancelled_of_stored hnew]
  | none =>
    cases hget : om.rds.GetOrderByHash event.OrderHash with
    | none => rw [handleOrderCancelled_of_missing hnew hget]
    | some model =>
      by_cases hst : model.Status = OrderStatus.ORDER_CUTOFF
          ∨ model.Status = OrderStatus.ORDER_FINISHED ∨ model.Status = OrderStatus.ORDER_UNKNOWN
      · rw [handleOrderCancelled_of_illegal hnew hget hst]
      · rw [handleOrderCancelled_of_legal hnew hget hst] at hrej
        exact absurd rfl hrej

/-- A fill for a stored order in a rejecting status returns an error. -/
theorem handleOrderFilled_error_of_status {om : OrderManagerImpl} {event : OrderFilledEvent}
    {model : dao.Order} (hget : om.rds.GetOrderByHash event.OrderHash = some model)
    (hst : model.Status = OrderStatus.ORDER_CUTOFF ∨ model.Status = OrderStatus.ORDER_FINISHED
      ∨ model.Status = OrderStatus.ORDER_UNKNOWN) :
    (om.handleOrderFilled event).2 ≠ none := by
  cases hnew : om.rds.FindFillEventByRinghashAndOrderhash event.Ringhash event.OrderHash with
  | some f => rw [handleOrderFilled_of_stored hnew]; simp
  | none => rw [handleOrderFilled_of_illegal hnew hget hst]; simp

/-- A cancel for a stored order in a rejecting status returns an error. -/
theorem handleOrderCancelled_error_of_status {om : OrderManagerImpl}
    {event : OrderCancelledEvent} {model : dao.Order}
    (hget : om.rds.GetOrderByHash event.OrderHash = some model)
    (hst : model.Status = OrderStatus.ORDER_CUTOFF ∨ model.Status = OrderStatus.ORDER_FINISHED
      ∨ model.Status = OrderStatus.ORDER_UNKNOWN) :
    (om.handleOrderCancelled event).2 ≠ none := by
  cases hnew : om.rds.FindCancelEvent event.OrderHash event.TxHash with
  | some f => rw [handleOrderCancelled_of_stored hnew]; simp
  | none => rw [handleOrderCancelled_of_illegal hnew hget hst]; simp

/-- A cancel leaves the fill table unchanged. -/
theorem handleOrderCancelled_fills (om : OrderManagerImpl) (event : OrderCancelledEvent) :
    (om.handleOrderCancelled event).1.rds.fills = om.rds.fills := by
  cases hnew : om.rds.FindCancelEvent event.OrderHash event.TxHash with
  | some f => rw [handleOrderCancelled_of_stored hnew]
  | none =>
    cases hget : om.rds.GetOrderByHash event.OrderHash with
    | none => rw [handleOrderCancelled_of_missing hnew hget]
    | some model =>
      by_cases hst : model.Status = OrderStatus.ORDER_CUTOFF
          ∨ model.Status = OrderStatus.ORDER_FINISHED ∨ model.Status = OrderStatus.ORDER_UNKNOWN
      · rw [handleOrderCancelled_of_illegal hnew hget hst]
      · rw [handleOrderCancelled_of_legal hnew hget hst]
        rfl

/-- C6: for a stored order whose status is CUTOFF, FINISHED or UNKNOWN,
`handleOrderFilled` and `handleOrderCancelled` return an error and leave the
order table (every row: amounts, status, updated block) unchanged; and when a
cancel is accepted and finishes the order (`IsOrderFullFinished` holds of the
amounts it leaves), a later fill for that order, not yet stored, is rejected
with the illegal-status error, the order table again unchanged. -/
theorem handlers_reject_cutoff_finished_unknown (om : OrderManagerImpl)
    (event : OrderFilledEvent) (cancel : OrderCancelledEvent) (model cmodel : dao.Order)
    (om0 : OrderManagerImpl) (cancel0 : OrderCancelledEvent) (fill0 : OrderFilledEvent)
    (model0 : dao.Order)
    (hget : om.rds.GetOrderByHash event.OrderHash = some model)
    (hst : model.Status = OrderStatus.ORDER_CUTOFF ∨ model.Status = OrderStatus.ORDER_FINISHED
      ∨ model.Status = OrderStatus.ORDER_UNKNOWN)
    (hcget : om.rds.GetOrderByHash cancel.OrderHash = some cmodel)
    (hcst : cmodel.Status = OrderStatus.ORDER_CUTOFF ∨ cmodel.Status = OrderStatus.ORDER_FINISHED
      ∨ cmodel.Status = OrderStatus.ORDER_UNKNOWN)
    (hget0 : om0.rds.GetOrderByHash cancel0.OrderHash = some model0)
    (hacc0 : (om0.handleOrderCancelled cancel0).2 = none)
    (hfin0 : om0.IsOrderFullFinished (cancelledState model0 cancel0) = true)
    (hsame0 : fill0.OrderHash = cancel0.OrderHash)
    (hnew0 : om0.rds.FindFillEventByRinghashAndOrderhash fill0.Ringhash fill0.OrderHash = none) :
    ((om.handleOrderFilled event).2 ≠ none
        ∧ (om.handleOrderFilled event).1.rds.orders = om.rds.orders)
      ∧ ((om.handleOrderCancelled cancel).2 ≠ none
        ∧ (om.handleOrderCancelled cancel).1.rds.orders = om.rds.orders)
      ∧ (((om0.handleOrderCancelled cancel0).1.handleOrderFilled fill0).2
            = some (OrderError.illegalStatus OrderStatus.ORDER_FINISHED)
        ∧ ((om0.handleOrderCancelled cancel0).1.handleOrderFilled fill0).1.rds.orders
            = (om0.handleOrderCancelled cancel0).1.rds.orders) := by
  refine ⟨⟨handleOrderFilled_error_of_status hget hst, ?_⟩,
    ⟨handleOrderCancelled_error_of_status hcget hcst, ?_⟩, ?_⟩
  · exact handleOrderFilled_rejected_orders (handleOrderFilled_error_of_status hget hst)
  · exact handleOrderCancelled_rejected_orders (handleOrderCancelled_error_of_status hcget hcst)
  · obtain ⟨hnewc, m, hgetm, hstm⟩ := handleOrderCancelled_accepted hacc0
    have hm : m = model0 := Option.some.inj (hgetm.symm.trans hget0)
    subst hm
    have hrow := GetOrderByHash_handleOrderCancelled hnewc hgetm hstm
    rw [hfin0, if_pos rfl, ← hsame0] at hrow
    have hnew1 : (om0.handleOrderCancelled cancel0).1.rds.FindFillEventByRinghashAndOrderhash
        fill0.Ringhash fill0.OrderHash = none := by
      unfold dao.RdsService.FindFillEventByRinghashAndOrderhash
      rw [handleOrderCancelled_fills]
      exact hnew0
    rw [handleOrderFilled_of_illegal hnew1 hrow (Or.inr (Or.inl rfl))]
    exact ⟨rfl, rfl⟩

/-- C6 at the S3 scenario: the store that holds `sampleOrder` already FINISHED
rejects a fill and a cancel, and on the fresh store the cancel of 1000 finishes
the order so that the fill of 400 delivered next is rejected. -/
theorem handlers_reject_cutoff_finished_unknown_witness :
    (s1ManagerCancelled 1).rds.GetOrderByHash fill400.OrderHash = some cancelledRow
      ∧ (cancelledRow.Status = OrderStatus.ORDER_CUTOFF
          ∨ cancelledRow.Status = OrderStatus.ORDER_FINISHED
          ∨ cancelledRow.Status = OrderStatus.ORDER_UNKNOWN)
      ∧ (s1ManagerCancelled 1).rds.GetOrderByHash cancel1000.OrderHash = some cancelledRow
      ∧ (s1Manager 1).rds.GetOrderByHash cancel1000.OrderHash = some freshRow
      ∧ ((s1Manager 1).handleOrderCancelled cancel1000).2 = none
      ∧ (s1Manager 1).IsOrderFullFinished (cancelledState freshRow cancel1000) = true
      ∧ fill400.OrderHash = cancel1000.OrderHash
      ∧ (s1Manager 1).rds.FindFillEventByRinghashAndOrderhash fill400.Ringhash fill400.OrderHash
          = none
      ∧ ((((s1ManagerCancelled 1).handleOrderFilled fill400).2 ≠ none
          ∧ ((s1ManagerCancelled 1).handleOrderFilled fill400).1.rds.orders
              = (s1ManagerCancelled 1).rds.orders)
        ∧ (((s1ManagerCancelled 1).handleOrderCancelled cancel1000).2 ≠ none
          ∧ ((s1ManagerCancelled 1).handleOrderCancelled cancel1000).1.rds.orders
              = (s1ManagerCancelled 1).rds.orders)
        ∧ ((((s1Manager 1).handleOrderCancelled cancel1000).1.handleOrderFilled fill400).2
              = some (OrderError.illegalStatus OrderStatus.ORDER_FINISHED)
          ∧ (((s1Manager 1).handleOrderCancelled cancel1000).1.handleOrderFilled
                fill400).1.rds.orders
              = ((s1Manager 1).handleOrderCancelled cancel1000).1.rds.orders)) :=
  have hfin : (s1Manager 1).IsOrderFullFinished (cancelledState freshRow cancel1000) = true := by
    simp [OrderManagerImpl.IsOrderFullFinished, OrderManagerImpl.valueOfRemainAmount,
      cancelledState, dao.Order.ConvertUp, freshRow, sampleOrder, cancel1000, s1Manager]
  ⟨by decide, by decide, by decide, by decide, by decide, hfin, by decide, by decide,
    handlers_reject_cutoff_finished_unknown (s1ManagerCancelled 1) fill400 cancel1000
      cancelledRow cancelledRow (s1Manager 1) cancel1000 fill400 freshRow (by decide) (by decide)
      (by decide) (by decide) (by decide) (by decide) hfin (by decide) (by decide)⟩

/-! ### Idempotence of fills -/

/-- Whatever `handleOrderFilled` returns, the key of the event is stored afterwards. -/
theorem handleOrderFilled_stores_key (om : OrderManagerImpl) (event : OrderFilledEvent) :
    ∃ f : dao.FillEvent,
      (om.handleOrderFilled event).1.rds.FindFillEventByRinghashAndOrderhash event.Ringhash
        event.OrderHash = some f := by
  have happ : ∀ l : List dao.FillEvent,
      l.find? (fun f => decide (f.Ringhash = event.Ringhash ∧ f.OrderHash = event.OrderHash))
        = none →
      (l ++ [event]).find?
          (fun f => decide (f.Ringhash = event.Ringhash ∧ f.OrderHash = event.OrderHash))
        = some event := by
    intro l hl
    rw [List.find?_append, hl]
    simp
  cases hnew : om.rds.FindFillEventByRinghashAndOrderhash event.Ringhash event.OrderHash with
  | some f => exact ⟨f, by rw [handleOrderFilled_of_stored hnew]; exact hnew⟩
  | none =>
    refine ⟨event, ?_⟩
    cases hget : om.rds.GetOrderByHash event.OrderHash with
    | none => rw [handleOrderFilled_of_missing hnew hget]; exact happ _ hnew
    | some model =>
      by_cases hst : model.Status = OrderStatus.ORDER_CUTOFF
          ∨ model.Status = OrderStatus.ORDER_FINISHED ∨ model.Status = OrderStatus.ORDER_UNKNOWN
      · rw [handleOrderFilled_of_illegal hnew hget hst]; exact happ _ hnew
      · rw [handleOrderFilled_of_legal hnew hget hst]; exact happ _ hnew

/-- C7: fill idempotence.  For every manager state and every fill event, handling
the same event a second time leaves the whole state (fill rows, order rows,
cancel rows) as the first handling left it, and the second handling is rejected
with the error that the fill `(ringhash, orderhash)` is already stored. -/
theorem handleOrderFilled_twice (om : OrderManagerImpl) (event : OrderFilledEvent) :
    ((om.handleOrderFilled event).1.handleOrderFilled event).1.rds
        = (om.handleOrderFilled event).1.rds
      ∧ ((om.handleOrderFilled event).1.handleOrderFilled event).2
        = some OrderError.fillAlreadyExist := by
  obtain ⟨f, hf⟩ := handleOrderFilled_stores_key om event
  rw [handleOrderFilled_of_stored hf]
  exact ⟨rfl, rfl⟩

/-! ### Cancels -/

/-- C8: for every accepted cancel event, the stored row of the order afterwards
has `event.amountCancelled` added to `cancelledAmountB` with `cancelledAmountS`
unchanged when the order's `buyNoMoreThanAmountB` is true, and added to
`cancelledAmountS` with `cancelledAmountB` unchanged otherwise; `dealtAmountS`,
`dealtAmountB` and the raw order are unchanged in both cases. -/
theorem handleOrderCancelled_adds_cancelled_amount (om : OrderManagerImpl)
    (event : OrderCancelledEvent) (model : dao.Order)
    (hget : om.rds.GetOrderByHash event.OrderHash = some model)
    (hacc : (om.handleOrderCancelled event).2 = none) :
    ∃ updated : dao.Order,
      (om.handleOrderCancelled event).1.rds.GetOrderByHash event.OrderHash = some updated
      ∧ (if model.RawOrder.BuyNoMoreThanAmountB = true then
          updated.CancelledAmountB = model.CancelledAmountB + event.AmountCancelled
            ∧ updated.CancelledAmountS = model.CancelledAmountS
        else
          updated.CancelledAmountS = model.CancelledAmountS + event.AmountCancelled
            ∧ updated.CancelledAmountB = model.CancelledAmountB)
      ∧ updated.DealtAmountS = model.DealtAmountS
      ∧ updated.DealtAmountB = model.DealtAmountB
      ∧ updated.RawOrder = model.RawOrder := by
  obtain ⟨hnew, m, hgetm, hst⟩ := handleOrderCancelled_accepted hacc
  have hm : m = model := Option.some.inj (hgetm.symm.trans hget)
  subst hm
  refine ⟨_, GetOrderByHash_handleOrderCancelled hnew hgetm hst, ?_, rfl, rfl, rfl⟩
  cases hb : m.RawOrder.BuyNoMoreThanAmountB <;>
    simp [cancelledState, hb, dao.Order.ConvertUp]

/-- C8 at the cancel of 1000 on the freshly ingested `sampleOrder`. -/
theorem handleOrderCancelled_adds_cancelled_amount_witness :
    (s1Manager 1).rds.GetOrderByHash cancel1000.OrderHash = some freshRow
      ∧ ((s1Manager 1).handleOrderCancelled cancel1000).2 = none
      ∧ ∃ updated : dao.Order,
        ((s1Manager 1).handleOrderCancelled cancel1000).1.rds.GetOrderByHash cancel1000.OrderHash
          = some updated
        ∧ (if freshRow.RawOrder.BuyNoMoreThanAmountB = true then
            updated.CancelledAmountB = freshRow.CancelledAmountB + cancel1000.AmountCancelled
              ∧ updated.CancelledAmountS = freshRow.CancelledAmountS
          else
            updated.CancelledAmountS = freshRow.CancelledAmountS + cancel1000.AmountCancelled
              ∧ updated.CancelledAmountB = freshRow.CancelledAmountB)
        ∧ updated.DealtAmountS = freshRow.DealtAmountS
        ∧ updated.DealtAmountB = freshRow.DealtAmountB
        ∧ updated.RawOrder = freshRow.RawOrder :=
  ⟨by decide, by decide,
    handleOrderCancelled_adds_cancelled_amount (s1Manager 1) cancel1000 freshRow (by decide)
      (by decide)⟩

/-! ### Absorbing statuses -/

/-- C9, as stated, fails: a stored order whose status is CANCEL is not rejected by
the guard of `handleOrderFilled`; the fill of 400 changes its dealt amounts and
turns its status into PARTIAL. -/
theorem handleOrderFilled_changes_cancel_status_order :
    (cancelStatusManager 1).rds.GetOrderByHash 10 = some cancelStatusRow
      ∧ cancelStatusRow.Status = OrderStatus.ORDER_CANCEL
      ∧ cancelStatusRow.DealtAmountS = 0
      ∧ ((cancelStatusManager 1).handleOrderFilled fill400).2 = none
      ∧ ((cancelStatusManager 1).handleOrderFilled fill400).1.rds.GetOrderByHash 10
          = some { cancelStatusRow with DealtAmountS := 400, DealtAmountB := 4,
                                        UpdatedBlock := 101,
                                        Status := OrderStatus.ORDER_PARTIAL }
      ∧ ((cancelStatusManager 1).handleOrderFilled fill400).1.rds.GetOrderByHash 10
          ≠ (cancelStatusManager 1).rds.GetOrderByHash 10 := by
  have hnew : (cancelStatusManager 1).rds.FindFillEventByRinghashAndOrderhash fill400.Ringhash
      fill400.OrderHash = none := rfl
  have hget : (cancelStatusManager 1).rds.GetOrderByHash fill400.OrderHash
      = some cancelStatusRow := rfl
  have hfin : (cancelStatusManager 1).IsOrderFullFinished (filledState cancelStatusRow fill400)
      = false := by
    simp [OrderManagerImpl.IsOrderFullFinished, OrderManagerImpl.valueOfRemainAmount,
      filledState, dao.Order.ConvertUp, cancelStatusRow, freshRow, sampleOrder, fill400,
      cancelStatusManager]
  have hrow := GetOrderByHash_handleOrderFilled hnew hget (by decide)
  rw [hfin] at hrow
  refine ⟨rfl, rfl, rfl, by decide, hrow, ?_⟩
  have hrow' : ((cancelStatusManager 1).handleOrderFilled fill400).1.rds.GetOrderByHash 10
      = some { cancelStatusRow with DealtAmountS := 400, DealtAmountB := 4,
                                    UpdatedBlock := 101,
                                    Status := OrderStatus.ORDER_PARTIAL } := hrow
  rw [hrow']
  decide

/-- C9, amended: for every stored order whose status is FINISHED or CUTOFF, no
fill or cancel event, whichever order it names, changes the stored row of that
order (status, amounts and every other column). -/
theorem finished_cutoff_absorbing (om : OrderManagerImpl) (event : OrderFilledEvent)
    (cancel : OrderCancelledEvent) (h : common.Hash) (model : dao.Order)
    (hget : om.rds.GetOrderByHash h = some model)
    (hst : model.Status = OrderStatus.ORDER_FINISHED ∨ model.Status = OrderStatus.ORDER_CUTOFF) :
    (om.handleOrderFilled event).1.rds.GetOrderByHash h = some model
      ∧ (om.handleOrderCancelled cancel).1.rds.GetOrderByHash h = some model := by
  have hst' : model.Status = OrderStatus.ORDER_CUTOFF ∨ model.Status = OrderStatus.ORDER_FINISHED
      ∨ model.Status = OrderStatus.ORDER_UNKNOWN := by
    rcases hst with h1 | h1
    · exact Or.inr (Or.inl h1)
    · exact Or.inl h1
  constructor
  · by_cases hk : h = event.OrderHash
    · subst hk
      unfold dao.RdsService.GetOrderByHash
      rw [handleOrderFilled_rejected_orders (handleOrderFilled_error_of_status hget hst')]
      exact hget
    · rw [GetOrderByHash_handleOrderFilled_other om event h hk]
      exact hget
  · by_cases hk : h = cancel.OrderHash
    · subst hk
      unfold dao.RdsService.GetOrderByHash
      rw [handleOrderCancelled_rejected_orders (handleOrderCancelled_error_of_status hget hst')]
      exact hget
    · rw [GetOrderByHash_handleOrderCancelled_other om cancel h hk]
      exact hget

/-- C9, amended, at the store that holds `sampleOrder` FINISHED. -/
theorem finished_cutoff_absorbing_witness :
    (s1ManagerCancelled 1).rds.GetOrderByHash 10 = some cancelledRow
      ∧ (cancelledRow.Status = OrderStatus.ORDER_FINISHED
          ∨ cancelledRow.Status = OrderStatus.ORDER_CUTOFF)
      ∧ ((s1ManagerCancelled 1).handleOrderFilled fill400).1.rds.GetOrderByHash 10
          = some cancelledRow
      ∧ ((s1ManagerCancelled 1).handleOrderCancelled cancel1000).1.rds.GetOrderByHash 10
          = some cancelledRow :=
  ⟨by decide, by decide,
    finished_cutoff_absorbing (s1ManagerCancelled 1) fill400 cancel1000 10 cancelledRow
      (by decide) (by decide)⟩

/-! ### The amounts invariant -/

/-- C10, as stated, fails: the fresh order of 1000 `tokenS` satisfies the
invariant, the fill event has non-negative amounts, and after
`handleOrderFilled` accepts it the stored row has `dealtAmountS = 2000`, above
`amountS = 1000`. -/
theorem handleOrderFilled_breaks_invariant :
    (s1Manager 1).rds.GetOrderByHash 10 = some freshRow
      ∧ OrderInvariant freshRow
      ∧ 0 ≤ fill2000.AmountS ∧ 0 ≤ fill2000.AmountB
      ∧ ((s1Manager 1).handleOrderFilled fill2000).1.rds.GetOrderByHash 10
          = some { freshRow with DealtAmountS := 2000, DealtAmountB := 4, UpdatedBlock := 101,
                                 Status := OrderStatus.ORDER_FINISHED }
      ∧ ¬ OrderInvariant { freshRow with DealtAmountS := 2000, DealtAmountB := 4,
                                         UpdatedBlock := 101,
                                         Status := OrderStatus.ORDER_FINISHED } := by
  have hnew : (s1Manager 1).rds.FindFillEventByRinghashAndOrderhash fill2000.Ringhash
      fill2000.OrderHash = none := rfl
  have hget : (s1Manager 1).rds.GetOrderByHash fill2000.OrderHash = some freshRow := rfl
  have hfin : (s1Manager 1).IsOrderFullFinished (filledState freshRow fill2000) = true := by
    simp [OrderManagerImpl.IsOrderFullFinished, OrderManagerImpl.valueOfRemainAmount,
      filledState, dao.Order.ConvertUp, freshRow, sampleOrder, fill2000, fill400, s1Manager]
    norm_num
  have hrow := GetOrderByHash_handleOrderFilled hnew hget (by decide)
  rw [hfin] at hrow
  exact ⟨rfl, by decide, by decide, by decide, hrow, by decide⟩

/-- C10, amended: the invariant `dealtAmountS + cancelledAmountS ≤ amountS` and
`dealtAmountB + cancelledAmountB ≤ amountB` of a stored order is preserved by
`handleOrderFilled` when a fill naming the order fits into what remains on both
sides, and by `handleOrderCancelled` when a cancel naming the order fits into
what remains on the side it is added to (B when `buyNoMoreThanAmountB`, else
S); events naming another order preserve it without condition. -/
theorem handlers_preserve_invariant_of_fit (om : OrderManagerImpl) (event : OrderFilledEvent)
    (cancel : OrderCancelledEvent) (h : common.Hash) (model : dao.Order)
    (hget : om.rds.GetOrderByHash h = some model)
    (hinv : OrderInvariant model)
    (hfill : event.OrderHash = h →
      model.DealtAmountS + model.CancelledAmountS + event.AmountS ≤ model.RawOrder.AmountS
        ∧ model.DealtAmountB + model.CancelledAmountB + event.AmountB ≤ model.RawOrder.AmountB)
    (hcancel : cancel.OrderHash = h →
      if model.RawOrder.BuyNoMoreThanAmountB = true then
        model.DealtAmountB + model.CancelledAmountB + cancel.AmountCancelled
          ≤ model.RawOrder.AmountB
      else
        model.DealtAmountS + model.CancelledAmountS + cancel.AmountCancelled
          ≤ model.RawOrder.AmountS) :
    (∃ updated : dao.Order,
        (om.handleOrderFilled event).1.rds.GetOrderByHash h = some updated
          ∧ OrderInvariant updated)
      ∧ (∃ updated : dao.Order,
        (om.handleOrderCancelled cancel).1.rds.GetOrderByHash h = some updated
          ∧ OrderInvariant updated) := by
  constructor
  · by_cases hk : h = event.OrderHash
    · subst hk
      by_cases hacc : (om.handleOrderFilled event).2 = none
      · obtain ⟨hnew, m, hgetm, hst⟩ := handleOrderFilled_accepted hacc
        have hm : m = model := Option.some.inj (hgetm.symm.trans hget)
        subst hm
        refine ⟨_, GetOrderByHash_handleOrderFilled hnew hgetm hst, ?_⟩
        have hfit := hfill rfl
        unfold OrderInvariant
        dsimp only
        constructor
        · linarith [hfit.1]
        · linarith [hfit.2]
      · refine ⟨model, ?_, hinv⟩
        unfold dao.RdsService.GetOrderByHash
        rw [handleOrderFilled_rejected_orders hacc]
        exact hget
    · exact ⟨model, by rw [GetOrderByHash_handleOrderFilled_other om event h hk]; exact hget,
        hinv⟩
  · by_cases hk : h = cancel.OrderHash
    · subst hk
      by_cases hacc : (om.handleOrderCancelled cancel).2 = none
      · obtain ⟨hnew, m, hgetm, hst⟩ := handleOrderCancelled_accepted hacc
        have hm : m = model := Option.some.inj (hgetm.symm.trans hget)
        subst hm
        refine ⟨_, GetOrderByHash_handleOrderCancelled hnew hgetm hst, ?_⟩
        have hfit := hcancel rfl
        unfold OrderInvariant at hinv ⊢
        cases hb : m.RawOrder.BuyNoMoreThanAmountB
        · simp only [hb, Bool.false_eq_true, if_false] at hfit
          simp only [cancelledState, hb, Bool.false_eq_true, if_false, dao.Order.ConvertUp]
          exact ⟨by linarith, hinv.2⟩
        · simp only [hb, if_true] at hfit
          simp only [cancelledState, hb, if_true, dao.Order.ConvertUp]
          exact ⟨hinv.1, by linarith⟩
      · refine ⟨model, ?_, hinv⟩
        unfold dao.RdsService.GetOrderByHash
        rw [handleOrderCancelled_rejected_orders hacc]
        exact hget
    · exact ⟨model, by rw [GetOrderByHash_handleOrderCancelled_other om cancel h hk]; exact hget,
        hinv⟩

/-- C10, amended, at the fresh order with the fill of 400 and the cancel of 1000. -/
theorem handlers_preserve_invariant_of_fit_witness :
    (s1Manager 1).rds.GetOrderByHash 10 = some freshRow
      ∧ OrderInvariant freshRow
      ∧ (fill400.OrderHash = 10 →
          freshRow.DealtAmountS + freshRow.CancelledAmountS + fill400.AmountS
              ≤ freshRow.RawOrder.AmountS
            ∧ freshRow.DealtAmountB + freshRow.CancelledAmountB + fill400.AmountB
              ≤ freshRow.RawOrder.AmountB)
      ∧ (cancel1000.OrderHash = 10 →
          if freshRow.RawOrder.BuyNoMoreThanAmountB = true then
            freshRow.DealtAmountB + freshRow.CancelledAmountB + cancel1000.AmountCancelled
              ≤ freshRow.RawOrder.AmountB
          else
            freshRow.DealtAmountS + freshRow.CancelledAmountS + cancel1000.AmountCancelled
              ≤ freshRow.RawOrder.AmountS)
      ∧ ((∃ updated : dao.Order,
          ((s1Manager 1).handleOrderFilled fill400).1.rds.GetOrderByHash 10 = some updated
            ∧ OrderInvariant updated)
        ∧ (∃ updated : dao.Order,
          ((s1Manager 1).handleOrderCancelled cancel1000).1.rds.GetOrderByHash 10 = some updated
            ∧ OrderInvariant updated)) :=
  ⟨by decide, by decide, by decide, by decide,
    handlers_preserve_invariant_of_fit (s1Manager 1) fill400 cancel1000 10 freshRow (by decide)
      (by decide) (by decide) (by decide)⟩

/-! ### The outcomes of `handleGatewayOrder` -/

/-- Inserting an order whose hash is free appends its row. -/
theorem AddOrder_of_new {s : dao.RdsService} {o : dao.Order}
    (hnew : s.GetOrderByHash o.RawOrder.Hash = none) :
    s.AddOrder o = some { s with orders := s.orders ++ [o] } := by
  simp [dao.RdsService.AddOrder, hnew]

/-- The tail of `handleGatewayOrder` on an order whose hash is free. -/
theorem addGatewayOrder_of_new {om : OrderManagerImpl} {state : OrderState}
    (mark : Int) (calls : List ethaccessor.Call)
    (hnew : om.rds.GetOrderByHash state.RawOrder.Hash = none) :
    om.addGatewayOrder state mark calls =
      { om := { om with rds := { om.rds with orders := om.rds.orders
                  ++ [dao.Order.ConvertDown { emptyOrderModel with MinerBlockMark := mark } state] } }
        err := none
        calls := calls } := by
  have h : om.rds.GetOrderByHash
      (dao.Order.ConvertDown { emptyOrderModel with MinerBlockMark := mark } state).RawOrder.Hash
        = none := hnew
  simp [OrderManagerImpl.addGatewayOrder, AddOrder_of_new h]

/-- A gateway order whose hash is stored: nothing happens. -/
theorem handleGatewayOrder_of_known {om : OrderManagerImpl} {input : OrderState} {o : dao.Order}
    (hold : om.rds.GetOrderByHash input.RawOrder.Hash = some o) :
    om.handleGatewayOrder input = { om := om, err := none, calls := [] } := by
  simp [OrderManagerImpl.handleGatewayOrder, hold]

/-- A new gateway order whose `cancelledOrFilled` query fails. -/
theorem handleGatewayOrder_of_query_failed {om : OrderManagerImpl} {input : OrderState}
    (hnew : om.rds.GetOrderByHash input.RawOrder.Hash = none)
    (hq : om.accessor.GetCancelledOrFilled input.RawOrder.Protocol input.RawOrder.Hash = none) :
    om.handleGatewayOrder input =
      { om := om
        err := some OrderError.getCancelledOrFilledFailed
        calls := [ethaccessor.Call.GetCancelledOrFilled input.RawOrder.Protocol
          input.RawOrder.Hash none] } := by
  simp [OrderManagerImpl.handleGatewayOrder, hnew, hq]

/-- A new gateway order that the chain's amount already finishes. -/
theorem handleGatewayOrder_of_finished {om : OrderManagerImpl} {input : OrderState} {c : Int}
    (hnew : om.rds.GetOrderByHash input.RawOrder.Hash = none)
    (hq : om.accessor.GetCancelledOrFilled input.RawOrder.Protocol input.RawOrder.Hash = some c)
    (hfin : om.IsOrderFullFinished (gatewayState input c) = true) :
    om.handleGatewayOrder input =
      om.addGatewayOrder { gatewayState input c with Status := OrderStatus.ORDER_FINISHED } 0
        [ethaccessor.Call.GetCancelledOrFilled input.RawOrder.Protocol input.RawOrder.Hash
          (some c)] := by
  have hfin' : om.IsOrderFullFinished
      { input with Status := OrderStatus.ORDER_NEW, DealtAmountS := 0, DealtAmountB := 0,
                   CancelledAmountS := c, CancelledAmountB := 0 } = true := hfin
  simp [OrderManagerImpl.handleGatewayOrder, hnew, hq, hfin', SettleFinishedStatus_eq,
    gatewayState]

/-- The request generated for a state depends on its raw order only. -/
theorem generateErc20Req_rawOrder {s t : OrderState} (h : s.RawOrder = t.RawOrder)
    (spender : common.Address) : generateErc20Req s spender = generateErc20Req t spender := by
  simp [generateErc20Req, h]

/-- A batch of one request that goes through answers that request. -/
theorem Batch_singleton {a : ethaccessor.EthNodeAccessor} {req : ethaccessor.BatchErc20Req}
    (hb : a.BatchFails [req] = false) :
    a.BatchErc20BalanceAndAllowance [req] = some [a.probe req] := by
  simp [ethaccessor.EthNodeAccessor.BatchErc20BalanceAndAllowance, hb]

/-- A batch that fails as a whole answers nothing. -/
theorem Batch_failed {a : ethaccessor.EthNodeAccessor} {reqs : List ethaccessor.BatchErc20Req}
    (hb : a.BatchFails reqs = true) :
    a.BatchErc20BalanceAndAllowance reqs = none := by
  simp [ethaccessor.EthNodeAccessor.BatchErc20BalanceAndAllowance, hb]

/-- A new, unfinished gateway order whose batch fails as a whole. -/
theorem handleGatewayOrder_of_batch_failed {om : OrderManagerImpl} {input : OrderState} {c : Int}
    (hnew : om.rds.GetOrderByHash input.RawOrder.Hash = none)
    (hq : om.accessor.GetCancelledOrFilled input.RawOrder.Protocol input.RawOrder.Hash = some c)
    (hfin : om.IsOrderFullFinished (gatewayState input c) = false)
    (hb : om.accessor.BatchFails
      [generateErc20Req input (om.accessor.GetSenderAddress input.RawOrder.Protocol)] = true) :
    om.handleGatewayOrder input =
      { om := om
        err := some OrderError.batchErc20BalanceAndAllowanceFailed
        calls :=
          [ethaccessor.Call.GetCancelledOrFilled input.RawOrder.Protocol input.RawOrder.Hash
              (some c),
            ethaccessor.Call.GetSenderAddress input.RawOrder.Protocol
              (om.accessor.GetSenderAddress input.RawOrder.Protocol),
            ethaccessor.Call.BatchErc20BalanceAndAllowance
              [generateErc20Req input (om.accessor.GetSenderAddress input.RawOrder.Protocol)]
              none] } := by
  have hfin' : om.IsOrderFullFinished
      { input with Status := OrderStatus.ORDER_NEW, DealtAmountS := 0, DealtAmountB := 0,
                   CancelledAmountS := c, CancelledAmountB := 0 } = false := hfin
  have hreq : ∀ st : OrderStatus, generateErc20Req
      { input with Status := st, DealtAmountS := 0, DealtAmountB := 0,
                   CancelledAmountS := c, CancelledAmountB := 0 }
      (om.accessor.GetSenderAddress input.RawOrder.Protocol)
      = generateErc20Req input (om.accessor.GetSenderAddress input.RawOrder.Protocol) :=
    fun _ => rfl
  simp [OrderManagerImpl.handleGatewayOrder, hnew, hq, hfin', SettleFinishedStatus_eq, hreq,
    Batch_failed hb]

/-- A new, unfinished gateway order whose balance or allowance probe errs. -/
theorem handleGatewayOrder_of_probe_failed {om : OrderManagerImpl} {input : OrderState} {c : Int}
    (hnew : om.rds.GetOrderByHash input.RawOrder.Hash = none)
    (hq : om.accessor.GetCancelledOrFilled input.RawOrder.Protocol input.RawOrder.Hash = some c)
    (hfin : om.IsOrderFullFinished (gatewayState input c) = false)
    (hb : om.accessor.BatchFails
      [generateErc20Req input (om.accessor.GetSenderAddress input.RawOrder.Protocol)] = false)
    (hp : (om.gatewayProbe input).AllowanceErr = true ∨ (om.gatewayProbe input).BalanceErr = true) :
    om.handleGatewayOrder input =
      { om := om
        err := some OrderError.balanceOrAllowanceFailed
        calls :=
          [ethaccessor.Call.GetCancelledOrFilled input.RawOrder.Protocol input.RawOrder.Hash
              (some c),
            ethaccessor.Call.GetSenderAddress input.RawOrder.Protocol
              (om.accessor.GetSenderAddress input.RawOrder.Protocol),
            ethaccessor.Call.BatchErc20BalanceAndAllowance
              [generateErc20Req input (om.accessor.GetSenderAddress input.RawOrder.Protocol)]
              (some [om.gatewayProbe input])] } := by
  have hfin' : om.IsOrderFullFinished
      { input with Status := OrderStatus.ORDER_NEW, DealtAmountS := 0, DealtAmountB := 0,
                   CancelledAmountS := c, CancelledAmountB := 0 } = false := hfin
  have hreq : ∀ st : OrderStatus, generateErc20Req
      { input with Status := st, DealtAmountS := 0, DealtAmountB := 0,
                   CancelledAmountS := c, CancelledAmountB := 0 }
      (om.accessor.GetSenderAddress input.RawOrder.Protocol)
      = generateErc20Req input (om.accessor.GetSenderAddress input.RawOrder.Protocol) :=
    fun _ => rfl
  have hp' : (om.accessor.probe (generateErc20Req input
      (om.accessor.GetSenderAddress input.RawOrder.Protocol))).AllowanceErr = true
      ∨ (om.accessor.probe (generateErc20Req input
      (om.accessor.GetSenderAddress input.RawOrder.Protocol))).BalanceErr = true := hp
  simp [OrderManagerImpl.handleGatewayOrder, hnew, hq, hfin', SettleFinishedStatus_eq, hreq,
    Batch_singleton hb, hp', OrderManagerImpl.gatewayProbe]

/-- A new, unfinished gateway order whose probes both succeed. -/
theorem handleGatewayOrder_of_probed {om : OrderManagerImpl} {input : OrderState} {c : Int}
    (hnew : om.rds.GetOrderByHash input.RawOrder.Hash = none)
    (hq : om.accessor.GetCancelledOrFilled input.RawOrder.Protocol input.RawOrder.Hash = some c)
    (hfin : om.IsOrderFullFinished (gatewayState input c) = false)
    (hb : om.accessor.BatchFails
      [generateErc20Req input (om.accessor.GetSenderAddress input.RawOrder.Protocol)] = false)
    (hp : ¬ ((om.gatewayProbe input).AllowanceErr = true
      ∨ (om.gatewayProbe input).BalanceErr = true)) :
    om.handleGatewayOrder input =
      om.addGatewayOrder
        (calculateAmountS { gatewayState input c with Status := OrderStatus.ORDER_PARTIAL }
          (om.gatewayProbe input))
        (if om.IsFundInsufficient
            (calculateAmountS { gatewayState input c with Status := OrderStatus.ORDER_PARTIAL }
              (om.gatewayProbe input)) = true
          then go.int64 (go.int64 input.UpdatedBlock + go.int64 om.options.AccountPeriod) else 0)
        [ethaccessor.Call.GetCancelledOrFilled input.RawOrder.Protocol input.RawOrder.Hash
            (some c),
          ethaccessor.Call.GetSenderAddress input.RawOrder.Protocol
            (om.accessor.GetSenderAddress input.RawOrder.Protocol),
          ethaccessor.Call.BatchErc20BalanceAndAllowance
            [generateErc20Req input (om.accessor.GetSenderAddress input.RawOrder.Protocol)]
            (some [om.gatewayProbe input])] := by
  have hfin' : om.IsOrderFullFinished
      { input with Status := OrderStatus.ORDER_NEW, DealtAmountS := 0, DealtAmountB := 0,
                   CancelledAmountS := c, CancelledAmountB := 0 } = false := hfin
  have hreq : ∀ st : OrderStatus, generateErc20Req
      { input with Status := st, DealtAmountS := 0, DealtAmountB := 0,
                   CancelledAmountS := c, CancelledAmountB := 0 }
      (om.accessor.GetSenderAddress input.RawOrder.Protocol)
      = generateErc20Req input (om.accessor.GetSenderAddress input.RawOrder.Protocol) :=
    fun _ => rfl
  have hp' : ¬ ((om.accessor.probe (generateErc20Req input
      (om.accessor.GetSenderAddress input.RawOrder.Protocol))).AllowanceErr = true
      ∨ (om.accessor.probe (generateErc20Req input
      (om.accessor.GetSenderAddress input.RawOrder.Protocol))).BalanceErr = true) := hp
  simp only [OrderManagerImpl.handleGatewayOrder, hnew, hq, hfin', SettleFinishedStatus_eq, hreq,
    Batch_singleton hb, hp', OrderManagerImpl.gatewayProbe, gatewayState, List.headD_cons,
    if_false, if_true, ne_eq, reduceCtorEq, not_false_eq_true, Bool.false_eq_true,
    calculateAmountS]

/-! ### Gateway orders -/

/-- C12: for a gateway order whose hash is already in the store,
`handleGatewayOrder` returns no error, makes no chain call and leaves the
manager, hence the store, unchanged. -/
theorem handleGatewayOrder_known_hash (om : OrderManagerImpl) (input : OrderState)
    (o : dao.Order) (hold : om.rds.GetOrderByHash input.RawOrder.Hash = some o) :
    (om.handleGatewayOrder input).err = none
      ∧ (om.handleGatewayOrder input).calls = []
      ∧ (om.handleGatewayOrder input).om.rds = om.rds := by
  rw [handleGatewayOrder_of_known hold]
  exact ⟨rfl, rfl, rfl⟩

/-- C12 at the re-broadcast of `sampleOrder` to the store that holds it. -/
theorem handleGatewayOrder_known_hash_witness :
    gatewayManagerKnown.rds.GetOrderByHash gatewayInput.RawOrder.Hash = some freshRow
      ∧ (gatewayManagerKnown.handleGatewayOrder gatewayInput).err = none
      ∧ (gatewayManagerKnown.handleGatewayOrder gatewayInput).calls = []
      ∧ (gatewayManagerKnown.handleGatewayOrder gatewayInput).om.rds = gatewayManagerKnown.rds :=
  ⟨by decide,
    handleGatewayOrder_known_hash gatewayManagerKnown gatewayInput freshRow (by decide)⟩

/-- The new order `gatewayInput` is not finished at unit prices. -/
theorem gatewayInput_not_finished :
    gatewayManager.IsOrderFullFinished (gatewayState gatewayInput 0) = false := by
  simp [OrderManagerImpl.IsOrderFullFinished, OrderManagerImpl.valueOfRemainAmount,
    gatewayState, gatewayInput, sampleOrder, gatewayManager]

/-- The new order `gatewayInput` is funded on the funded chain. -/
theorem gatewayInput_funded :
    gatewayManager.IsFundInsufficient
      (calculateAmountS { gatewayState gatewayInput 0 with Status := OrderStatus.ORDER_PARTIAL }
        (gatewayManager.gatewayProbe gatewayInput)) = false := by
  simp [OrderManagerImpl.IsFundInsufficient, calculateAmountS, OrderManagerImpl.gatewayProbe,
    ethaccessor.EthNodeAccessor.probe, generateErc20Req, gatewayState, gatewayInput,
    sampleOrder, gatewayManager, fundedAccessor]

/-- The whole run of `handleGatewayOrder` on `gatewayInput` over the empty store. -/
theorem gatewayManager_handleGatewayOrder :
    (gatewayManager.handleGatewayOrder gatewayInput).err = none
      ∧ (gatewayManager.handleGatewayOrder gatewayInput).om.rds.GetOrderByHash 10
          = some { freshRow with Status := OrderStatus.ORDER_PARTIAL } := by
  have hnew : gatewayManager.rds.GetOrderByHash gatewayInput.RawOrder.Hash = none := rfl
  have hq : gatewayManager.accessor.GetCancelledOrFilled gatewayInput.RawOrder.Protocol
      gatewayInput.RawOrder.Hash = some 0 := rfl
  have hb : gatewayManager.accessor.BatchFails
      [generateErc20Req gatewayInput
        (gatewayManager.accessor.GetSenderAddress gatewayInput.RawOrder.Protocol)] = false := rfl
  have hp : ¬ ((gatewayManager.gatewayProbe gatewayInput).AllowanceErr = true
      ∨ (gatewayManager.gatewayProbe gatewayInput).BalanceErr = true) := by decide
  rw [handleGatewayOrder_of_probed hnew hq gatewayInput_not_finished hb hp, gatewayInput_funded]
  exact ⟨rfl, rfl⟩

/-- C14, the code at the S1 input: the new order of 1000 `tokenS`, with nothing
cancelled or filled on chain, balance and allowance 1000 and unit prices, is
stored with `dealtAmountS = dealtAmountB = 0`, `cancelledAmountS = 0`,
`cancelledAmountB = 0` and miner block mark 0, but with status PARTIAL, not
NEW: the status the handler first sets to NEW is overwritten when the finished
status is settled. -/
theorem handleGatewayOrder_stores_partial_not_new :
    gatewayManager.rds.GetOrderByHash gatewayInput.RawOrder.Hash = none
      ∧ (gatewayManager.handleGatewayOrder gatewayInput).err = none
      ∧ (gatewayManager.handleGatewayOrder gatewayInput).om.rds.GetOrderByHash 10
          = some { RawOrder := sampleOrder, DealtAmountS := 0, DealtAmountB := 0,
                   CancelledAmountS := 0, CancelledAmountB := 0,
                   Status := OrderStatus.ORDER_PARTIAL, UpdatedBlock := 100,
                   BroadcastTime := 0, MinerBlockMark := 0 }
      ∧ OrderStatus.ORDER_PARTIAL ≠ OrderStatus.ORDER_NEW :=
  ⟨rfl, gatewayManager_handleGatewayOrder.1, gatewayManager_handleGatewayOrder.2, by decide⟩

/-- C15: `handleGatewayOrder` fails fast.  Whenever one of the chain calls it made
failed (the `cancelledOrFilled` query returned an error, the batched
balance/allowance call returned an error, or the order's balance or allowance
probe reports an error), the handler returns an error and leaves the manager,
hence the store, unchanged: the order is not persisted. -/
theorem handleGatewayOrder_fails_fast (om : OrderManagerImpl) (input : OrderState)
    (hfail : ∃ call ∈ (om.handleGatewayOrder input).calls, call.failed = true) :
    (om.handleGatewayOrder input).err ≠ none
      ∧ (om.handleGatewayOrder input).om.rds = om.rds
      ∧ (om.handleGatewayOrder input).om.rds.GetOrderByHash input.RawOrder.Hash
          = om.rds.GetOrderByHash input.RawOrder.Hash := by
  cases hget : om.rds.GetOrderByHash input.RawOrder.Hash with
  | some o =>
    rw [handleGatewayOrder_of_known hget] at hfail
    simp at hfail
  | none =>
    cases hq : om.accessor.GetCancelledOrFilled input.RawOrder.Protocol input.RawOrder.Hash with
    | none =>
      rw [handleGatewayOrder_of_query_failed hget hq]
      exact ⟨by simp, rfl, hget⟩
    | some c =>
      cases hfin : om.IsOrderFullFinished (gatewayState input c) with
      | true =>
        have hnew : om.rds.GetOrderByHash
            ({ gatewayState input c with
                Status := OrderStatus.ORDER_FINISHED } : OrderState).RawOrder.Hash = none := hget
        rw [handleGatewayOrder_of_finished hget hq hfin, addGatewayOrder_of_new _ _ hnew] at hfail
        simp [ethaccessor.Call.failed] at hfail
      | false =>
        cases hb : om.accessor.BatchFails [generateErc20Req input
            (om.accessor.GetSenderAddress input.RawOrder.Protocol)] with
        | true =>
          rw [handleGatewayOrder_of_batch_failed hget hq hfin hb]
          exact ⟨by simp, rfl, hget⟩
        | false =>
          by_cases hp : (om.gatewayProbe input).AllowanceErr = true
              ∨ (om.gatewayProbe input).BalanceErr = true
          · rw [handleGatewayOrder_of_probe_failed hget hq hfin hb hp]
            exact ⟨by simp, rfl, hget⟩
          · have hnew : om.rds.GetOrderByHash
                (calculateAmountS { gatewayState input c with
                    Status := OrderStatus.ORDER_PARTIAL }
                  (om.gatewayProbe input)).RawOrder.Hash = none := hget
            rw [handleGatewayOrder_of_probed hget hq hfin hb hp,
              addGatewayOrder_of_new _ _ hnew] at hfail
            simp only [not_or, Bool.not_eq_true] at hp
            simp [ethaccessor.Call.failed, hp.1, hp.2] at hfail

/-- C15 on the chain whose `cancelledOrFilled` query fails. -/
theorem handleGatewayOrder_fails_fast_witness :
    (∃ call ∈ (gatewayManagerQueryDown.handleGatewayOrder gatewayInput).calls,
        call.failed = true)
      ∧ (gatewayManagerQueryDown.handleGatewayOrder gatewayInput).err ≠ none
      ∧ (gatewayManagerQueryDown.handleGatewayOrder gatewayInput).om.rds
          = gatewayManagerQueryDown.rds
      ∧ (gatewayManagerQueryDown.handleGatewayOrder gatewayInput).om.rds.GetOrderByHash
            gatewayInput.RawOrder.Hash
          = gatewayManagerQueryDown.rds.GetOrderByHash gatewayInput.RawOrder.Hash :=
  ⟨by decide, handleGatewayOrder_fails_fast gatewayManagerQueryDown gatewayInput (by decide)⟩

/-- The fund test reads the tokenS of the raw order and the available amount only. -/
theorem IsFundInsufficient_congr (om : OrderManagerImpl) {s t : OrderState}
    (hr : s.RawOrder = t.RawOrder) (ha : s.AvailableAmountS = t.AvailableAmountS) :
    om.IsFundInsufficient s = om.IsFundInsufficient t := by
  simp only [OrderManagerImpl.IsFundInsufficient, hr, ha]

/-- C13, as stated, fails: owner 9 has the cutoff 100 recorded, the order of owner
9 was created at time 50, so `IsOrderCutoff` is true, the hash is not in the
store, and `handleGatewayOrder` still persists the order without error. -/
theorem handleGatewayOrder_persists_cutoff_order :
    gatewayManager.IsOrderCutoff gatewayInput.RawOrder.Owner gatewayInput.RawOrder.Timestamp
        = true
      ∧ gatewayManager.rds.GetOrderByHash gatewayInput.RawOrder.Hash = none
      ∧ (gatewayManager.handleGatewayOrder gatewayInput).err = none
      ∧ (gatewayManager.handleGatewayOrder gatewayInput).om.rds.GetOrderByHash
            gatewayInput.RawOrder.Hash
          = some { freshRow with Status := OrderStatus.ORDER_PARTIAL }
      ∧ (gatewayManager.handleGatewayOrder gatewayInput).om.rds.GetOrderByHash
            gatewayInput.RawOrder.Hash ≠ none := by
  refine ⟨by decide, rfl, gatewayManager_handleGatewayOrder.1,
    gatewayManager_handleGatewayOrder.2, ?_⟩
  have h : (gatewayManager.handleGatewayOrder gatewayInput).om.rds.GetOrderByHash
      gatewayInput.RawOrder.Hash = some { freshRow with Status := OrderStatus.ORDER_PARTIAL } :=
    gatewayManager_handleGatewayOrder.2
  rw [h]
  simp

/-- The row a new gateway order leaves in the store when no error is returned. -/
theorem handleGatewayOrder_accepted {om : OrderManagerImpl} {input : OrderState} {c : Int}
    (hnew : om.rds.GetOrderByHash input.RawOrder.Hash = none)
    (hq : om.accessor.GetCancelledOrFilled input.RawOrder.Protocol input.RawOrder.Hash = some c)
    (hacc : (om.handleGatewayOrder input).err = none) :
    (om.IsOrderFullFinished (gatewayState input c) = true
        ∧ (om.handleGatewayOrder input).calls
            = [ethaccessor.Call.GetCancelledOrFilled input.RawOrder.Protocol
                input.RawOrder.Hash (some c)]
        ∧ (om.handleGatewayOrder input).om.rds.GetOrderByHash input.RawOrder.Hash
            = some (dao.Order.ConvertDown emptyOrderModel
                { gatewayState input c with Status := OrderStatus.ORDER_FINISHED }))
      ∨ (om.IsOrderFullFinished (gatewayState input c) = false
        ∧ om.accessor.BatchFails [generateErc20Req input
            (om.accessor.GetSenderAddress input.RawOrder.Protocol)] = false
        ∧ (om.gatewayProbe input).AllowanceErr = false
        ∧ (om.gatewayProbe input).BalanceErr = false
        ∧ (om.handleGatewayOrder input).om.rds.GetOrderByHash input.RawOrder.Hash
            = some (dao.Order.ConvertDown
                { emptyOrderModel with
                  MinerBlockMark :=
                    if om.IsFundInsufficient
                        (calculateAmountS (gatewayState input c) (om.gatewayProbe input)) = true
                    then go.int64 (go.int64 input.UpdatedBlock + go.int64 om.options.AccountPeriod) else 0 }
                (calculateAmountS
                  { gatewayState input c with Status := OrderStatus.ORDER_PARTIAL }
                  (om.gatewayProbe input)))) := by
  have hfind : ∀ o : dao.Order, o.RawOrder.Hash = input.RawOrder.Hash →
      dao.RdsService.GetOrderByHash { om.rds with orders := om.rds.orders ++ [o] }
        input.RawOrder.Hash = some o := by
    intro o ho
    have hn : om.rds.orders.find? (fun r => decide (r.RawOrder.Hash = input.RawOrder.Hash))
        = none := hnew
    unfold dao.RdsService.GetOrderByHash
    simp only [List.find?_append, hn]
    simp [ho]
  cases hfin : om.IsOrderFullFinished (gatewayState input c) with
  | true =>
    left
    have hnew' : om.rds.GetOrderByHash
        ({ gatewayState input c with
            Status := OrderStatus.ORDER_FINISHED } : OrderState).RawOrder.Hash = none := hnew
    rw [handleGatewayOrder_of_finished hnew hq hfin, addGatewayOrder_of_new _ _ hnew']
    exact ⟨rfl, rfl, hfind _ rfl⟩
  | false =>
    right
    cases hb : om.accessor.BatchFails [generateErc20Req input
        (om.accessor.GetSenderAddress input.RawOrder.Protocol)] with
    | true =>
      rw [handleGatewayOrder_of_batch_failed hnew hq hfin hb] at hacc
      cases hacc
    | false =>
      by_cases hp : (om.gatewayProbe input).AllowanceErr = true
          ∨ (om.gatewayProbe input).BalanceErr = true
      · rw [handleGatewayOrder_of_probe_failed hnew hq hfin hb hp] at hacc
        cases hacc
      · have hnew' : om.rds.GetOrderByHash
            (calculateAmountS { gatewayState input c with
                Status := OrderStatus.ORDER_PARTIAL }
              (om.gatewayProbe input)).RawOrder.Hash = none := hnew
        rw [handleGatewayOrder_of_probed hnew hq hfin hb hp, addGatewayOrder_of_new _ _ hnew']
        have hcongr : om.IsFundInsufficient
            (calculateAmountS { gatewayState input c with Status := OrderStatus.ORDER_PARTIAL }
              (om.gatewayProbe input))
            = om.IsFundInsufficient
                (calculateAmountS (gatewayState input c) (om.gatewayProbe input)) :=
          IsFundInsufficient_congr om rfl rfl
        rw [hcongr]
        simp only [not_or, Bool.not_eq_true] at hp
        exact ⟨rfl, rfl, hp.1, hp.2, hfind _ rfl⟩

/-- The cutoff cache plays no part in `handleGatewayOrder`. -/
theorem handleGatewayOrder_cutoffCache (om : OrderManagerImpl) (cc : CutoffCache)
    (input : OrderState) :
    OrderManagerImpl.handleGatewayOrder { om with cutoffCache := cc } input =
      { om := { (om.handleGatewayOrder input).om with cutoffCache := cc }
        err := (om.handleGatewayOrder input).err
        calls := (om.handleGatewayOrder input).calls } := by
  unfold OrderManagerImpl.handleGatewayOrder OrderManagerImpl.addGatewayOrder
  simp only [OrderManagerImpl.IsOrderFullFinished, OrderManagerImpl.valueOfRemainAmount,
    OrderManagerImpl.IsFundInsufficient]
  repeat' split
  all_goals rfl

/-- C13, amended: for a gateway order not yet in the store for which
`IsOrderCutoff(owner, order.timestamp)` is true, `handleGatewayOrder` does not
consult the cutoff.  It treats the order as any other new order: when the
`cancelledOrFilled` query succeeds and the order is finished or passes the
batched balance/allowance probe, it returns no error and persists the order;
and with any other cutoff cache `cc` the returned error, the chain calls and
the store are the same. -/
theorem handleGatewayOrder_ignores_cutoff (om : OrderManagerImpl) (input : OrderState)
    (c : Int) (cc : CutoffCache)
    (hcut : om.IsOrderCutoff input.RawOrder.Owner input.RawOrder.Timestamp = true)
    (hnew : om.rds.GetOrderByHash input.RawOrder.Hash = none)
    (hq : om.accessor.GetCancelledOrFilled input.RawOrder.Protocol input.RawOrder.Hash = some c)
    (hchain : om.IsOrderFullFinished (gatewayState input c) = true
      ∨ (om.accessor.BatchFails [generateErc20Req input
            (om.accessor.GetSenderAddress input.RawOrder.Protocol)] = false
          ∧ (om.gatewayProbe input).AllowanceErr = false
          ∧ (om.gatewayProbe input).BalanceErr = false)) :
    om.IsOrderCutoff input.RawOrder.Owner input.RawOrder.Timestamp = true
      ∧ (om.handleGatewayOrder input).err = none
      ∧ (∃ row : dao.Order,
          (om.handleGatewayOrder input).om.rds.GetOrderByHash input.RawOrder.Hash = some row
            ∧ row.RawOrder = input.RawOrder)
      ∧ (OrderManagerImpl.handleGatewayOrder { om with cutoffCache := cc } input).err
          = (om.handleGatewayOrder input).err
      ∧ (OrderManagerImpl.handleGatewayOrder { om with cutoffCache := cc } input).calls
          = (om.handleGatewayOrder input).calls
      ∧ (OrderManagerImpl.handleGatewayOrder { om with cutoffCache := cc } input).om.rds
          = (om.handleGatewayOrder input).om.rds := by
  have herr : (om.handleGatewayOrder input).err = none := by
    cases hfin : om.IsOrderFullFinished (gatewayState input c) with
    | true =>
      have hnew' : om.rds.GetOrderByHash
          ({ gatewayState input c with
              Status := OrderStatus.ORDER_FINISHED } : OrderState).RawOrder.Hash = none := hnew
      rw [handleGatewayOrder_of_finished hnew hq hfin, addGatewayOrder_of_new _ _ hnew']
    | false =>
      rcases hchain with h | ⟨hb, ha, hbal⟩
      · rw [hfin] at h
        cases h
      · have hp : ¬ ((om.gatewayProbe input).AllowanceErr = true
            ∨ (om.gatewayProbe input).BalanceErr = true) := by
          simp [ha, hbal]
        have hnew' : om.rds.GetOrderByHash
            (calculateAmountS { gatewayState input c with
                Status := OrderStatus.ORDER_PARTIAL }
              (om.gatewayProbe input)).RawOrder.Hash = none := hnew
        rw [handleGatewayOrder_of_probed hnew hq hfin hb hp, addGatewayOrder_of_new _ _ hnew']
  refine ⟨hcut, herr, ?_, ?_, ?_, ?_⟩
  · rcases handleGatewayOrder_accepted hnew hq herr with ⟨_, _, hrow⟩ | ⟨_, _, _, _, hrow⟩
    · exact ⟨_, hrow, rfl⟩
    · exact ⟨_, hrow, rfl⟩
  · rw [handleGatewayOrder_cutoffCache]
  · rw [handleGatewayOrder_cutoffCache]
  · rw [handleGatewayOrder_cutoffCache]

/-- C13, amended, at the order of owner 9, created at 50 under the cutoff 100. -/
theorem handleGatewayOrder_ignores_cutoff_witness :
    gatewayManager.IsOrderCutoff gatewayInput.RawOrder.Owner gatewayInput.RawOrder.Timestamp
        = true
      ∧ gatewayManager.rds.GetOrderByHash gatewayInput.RawOrder.Hash = none
      ∧ gatewayManager.accessor.GetCancelledOrFilled gatewayInput.RawOrder.Protocol
          gatewayInput.RawOrder.Hash = some 0
      ∧ (gatewayManager.accessor.BatchFails [generateErc20Req gatewayInput
            (gatewayManager.accessor.GetSenderAddress gatewayInput.RawOrder.Protocol)] = false
          ∧ (gatewayManager.gatewayProbe gatewayInput).AllowanceErr = false
          ∧ (gatewayManager.gatewayProbe gatewayInput).BalanceErr = false)
      ∧ (gatewayManager.handleGatewayOrder gatewayInput).err = none
      ∧ (∃ row : dao.Order,
          (gatewayManager.handleGatewayOrder gatewayInput).om.rds.GetOrderByHash
              gatewayInput.RawOrder.Hash = some row
            ∧ row.RawOrder = gatewayInput.RawOrder) :=
  ⟨by decide, by decide, by decide, by decide,
    (handleGatewayOrder_ignores_cutoff gatewayManager gatewayInput 0 { cutoff := fun _ => none }
      (by decide) (by decide) (by decide) (Or.inr (by decide))).2.1,
    (handleGatewayOrder_ignores_cutoff gatewayManager gatewayInput 0 { cutoff := fun _ => none }
      (by decide) (by decide) (by decide) (Or.inr (by decide))).2.2.1⟩

/-- C16, amended: for a new gateway order that `handleGatewayOrder` persists, the
stored `updatedBlock` is the one the incoming state carries, and the stored
`minerBlockMark` is the `int64` sum of that `updatedBlock`, truncated to
`int64`, and `AccountPeriod` if the order is not finished and
`IsFundInsufficient` holds of the probed available amount, and 0 otherwise; the
`int64` sum is `updatedBlock + AccountPeriod` whenever that sum fits in `int64`;
a finished order is stored with status FINISHED and mark 0, the only chain call
being the `cancelledOrFilled` query (no fund probe). -/
theorem handleGatewayOrder_miner_block_mark (om : OrderManagerImpl) (input : OrderState)
    (c : Int)
    (hnew : om.rds.GetOrderByHash input.RawOrder.Hash = none)
    (hq : om.accessor.GetCancelledOrFilled input.RawOrder.Protocol input.RawOrder.Hash = some c)
    (hacc : (om.handleGatewayOrder input).err = none) :
    ∃ row : dao.Order,
      (om.handleGatewayOrder input).om.rds.GetOrderByHash input.RawOrder.Hash = some row
        ∧ row.UpdatedBlock = input.UpdatedBlock
        ∧ row.MinerBlockMark =
            (if om.IsOrderFullFinished (gatewayState input c) = false
                ∧ om.IsFundInsufficient
                    (calculateAmountS (gatewayState input c) (om.gatewayProbe input)) = true
              then go.int64 (go.int64 row.UpdatedBlock + go.int64 om.options.AccountPeriod)
              else 0)
        ∧ (go.fitsInt64 (row.UpdatedBlock + om.options.AccountPeriod) →
            row.MinerBlockMark =
              (if om.IsOrderFullFinished (gatewayState input c) = false
                  ∧ om.IsFundInsufficient
                      (calculateAmountS (gatewayState input c) (om.gatewayProbe input)) = true
                then row.UpdatedBlock + om.options.AccountPeriod else 0))
        ∧ (om.IsOrderFullFinished (gatewayState input c) = true →
            row.Status = OrderStatus.ORDER_FINISHED
              ∧ row.MinerBlockMark = 0
              ∧ (om.handleGatewayOrder input).calls
                  = [ethaccessor.Call.GetCancelledOrFilled input.RawOrder.Protocol
                      input.RawOrder.Hash (some c)]) := by
  have hmark : ∀ row : dao.Order,
      row.MinerBlockMark =
          (if om.IsOrderFullFinished (gatewayState input c) = false
              ∧ om.IsFundInsufficient
                  (calculateAmountS (gatewayState input c) (om.gatewayProbe input)) = true
            then go.int64 (go.int64 row.UpdatedBlock + go.int64 om.options.AccountPeriod)
            else 0) →
      go.fitsInt64 (row.UpdatedBlock + om.options.AccountPeriod) →
      row.MinerBlockMark =
          (if om.IsOrderFullFinished (gatewayState input c) = false
              ∧ om.IsFundInsufficient
                  (calculateAmountS (gatewayState input c) (om.gatewayProbe input)) = true
            then row.UpdatedBlock + om.options.AccountPeriod else 0) := by
    intro row hrow hfits
    rw [hrow, int64_add_int64, int64_of_fits _ hfits]
  rcases handleGatewayOrder_accepted hnew hq hacc with
    ⟨hfin, hcalls, hrow⟩ | ⟨hfin, _, _, _, hrow⟩
  · have h3 : (dao.Order.ConvertDown emptyOrderModel
        { gatewayState input c with Status := OrderStatus.ORDER_FINISHED }).MinerBlockMark =
          (if om.IsOrderFullFinished (gatewayState input c) = false
              ∧ om.IsFundInsufficient
                  (calculateAmountS (gatewayState input c) (om.gatewayProbe input)) = true
            then go.int64 (go.int64 (dao.Order.ConvertDown emptyOrderModel
                { gatewayState input c with
                  Status := OrderStatus.ORDER_FINISHED }).UpdatedBlock
              + go.int64 om.options.AccountPeriod)
            else 0) := by
      simp [hfin, dao.Order.ConvertDown, emptyOrderModel]
    exact ⟨_, hrow, rfl, h3, hmark _ h3, fun _ => ⟨rfl, rfl, hcalls⟩⟩
  · have h3 : (dao.Order.ConvertDown
        { emptyOrderModel with
          MinerBlockMark :=
            if om.IsFundInsufficient
                (calculateAmountS (gatewayState input c) (om.gatewayProbe input)) = true
            then go.int64 (go.int64 input.UpdatedBlock + go.int64 om.options.AccountPeriod)
            else 0 }
        (calculateAmountS
          { gatewayState input c with Status := OrderStatus.ORDER_PARTIAL }
          (om.gatewayProbe input))).MinerBlockMark =
          (if om.IsOrderFullFinished (gatewayState input c) = false
              ∧ om.IsFundInsufficient
                  (calculateAmountS (gatewayState input c) (om.gatewayProbe input)) = true
            then go.int64 (go.int64 (dao.Order.ConvertDown
                { emptyOrderModel with
                  MinerBlockMark :=
                    if om.IsFundInsufficient
                        (calculateAmountS (gatewayState input c) (om.gatewayProbe input)) = true
                    then go.int64 (go.int64 input.UpdatedBlock
                      + go.int64 om.options.AccountPeriod)
                    else 0 }
                (calculateAmountS
                  { gatewayState input c with Status := OrderStatus.ORDER_PARTIAL }
                  (om.gatewayProbe input))).UpdatedBlock
              + go.int64 om.options.AccountPeriod)
            else 0) := by
      rw [hfin]
      simp only [dao.Order.ConvertDown, true_and]
      rfl
    refine ⟨_, hrow, rfl, h3, hmark _ h3, ?_⟩
    intro h
    rw [hfin] at h
    cases h

/-- The new order `gatewayInput` is not finished at unit prices on the unfunded chain. -/
theorem gatewayInput_unfunded_not_finished :
    gatewayManagerUnfunded.IsOrderFullFinished (gatewayState gatewayInput 0) = false := by
  simp [OrderManagerImpl.IsOrderFullFinished, OrderManagerImpl.valueOfRemainAmount,
    gatewayState, gatewayInput, sampleOrder, gatewayManager, gatewayManagerUnfunded]

/-- C16, amended, at the S6 input: the new order with balance 0 and allowance 0
is persisted. -/
theorem handleGatewayOrder_miner_block_mark_witness :
    gatewayManagerUnfunded.rds.GetOrderByHash gatewayInput.RawOrder.Hash = none
      ∧ gatewayManagerUnfunded.accessor.GetCancelledOrFilled gatewayInput.RawOrder.Protocol
          gatewayInput.RawOrder.Hash = some 0
      ∧ (gatewayManagerUnfunded.handleGatewayOrder gatewayInput).err = none
      ∧ ∃ row : dao.Order,
        (gatewayManagerUnfunded.handleGatewayOrder gatewayInput).om.rds.GetOrderByHash
            gatewayInput.RawOrder.Hash = some row
          ∧ row.UpdatedBlock = gatewayInput.UpdatedBlock
          ∧ row.MinerBlockMark =
              (if gatewayManagerUnfunded.IsOrderFullFinished (gatewayState gatewayInput 0) = false
                  ∧ gatewayManagerUnfunded.IsFundInsufficient
                      (calculateAmountS (gatewayState gatewayInput 0)
                        (gatewayManagerUnfunded.gatewayProbe gatewayInput)) = true
                then go.int64 (go.int64 row.UpdatedBlock
                  + go.int64 gatewayManagerUnfunded.options.AccountPeriod)
                else 0)
          ∧ (go.fitsInt64 (row.UpdatedBlock + gatewayManagerUnfunded.options.AccountPeriod) →
              row.MinerBlockMark =
                (if gatewayManagerUnfunded.IsOrderFullFinished (gatewayState gatewayInput 0)
                      = false
                    ∧ gatewayManagerUnfunded.IsFundInsufficient
                        (calculateAmountS (gatewayState gatewayInput 0)
                          (gatewayManagerUnfunded.gatewayProbe gatewayInput)) = true
                  then row.UpdatedBlock + gatewayManagerUnfunded.options.AccountPeriod else 0))
          ∧ (gatewayManagerUnfunded.IsOrderFullFinished (gatewayState gatewayInput 0) = true →
              row.Status = OrderStatus.ORDER_FINISHED
                ∧ row.MinerBlockMark = 0
                ∧ (gatewayManagerUnfunded.handleGatewayOrder gatewayInput).calls
                    = [ethaccessor.Call.GetCancelledOrFilled gatewayInput.RawOrder.Protocol
                        gatewayInput.RawOrder.Hash (some 0)]) :=
  have hacc : (gatewayManagerUnfunded.handleGatewayOrder gatewayInput).err = none := by
    have hnew' : gatewayManagerUnfunded.rds.GetOrderByHash
        (calculateAmountS { gatewayState gatewayInput 0 with
            Status := OrderStatus.ORDER_PARTIAL }
          (gatewayManagerUnfunded.gatewayProbe gatewayInput)).RawOrder.Hash = none := rfl
    rw [@handleGatewayOrder_of_probed gatewayManagerUnfunded gatewayInput 0 rfl rfl
        gatewayInput_unfunded_not_finished rfl (by decide),
      addGatewayOrder_of_new _ _ hnew']
  ⟨by decide, by decide, hacc,
    handleGatewayOrder_miner_block_mark gatewayManagerUnfunded gatewayInput 0 (by decide)
      (by decide) hacc⟩

/-! ### Sequences of fills and cancels -/

/-- C11, as stated, fails: on the fresh order of 1000 `tokenS`, at the price
1/500, the fill of 600 leaves a remaining value of 0.8, so the order is settled
FINISHED; the distinct fill of 400 delivered next is rejected, and the stored
`dealtAmountS` is 600, not the sum 1000 of the two fills. -/
theorem handleEvents_drops_fill_after_finished :
    (s1Manager (1 / 500)).rds.GetOrderByHash 10 = some freshRow
      ∧ freshRow.RawOrder.BuyNoMoreThanAmountB = false
      ∧ ((s1Manager (1 / 500)).handleEvents
            [OrderEvent.filled fill600, OrderEvent.filled fill400]).2
          = [none, some (OrderError.illegalStatus OrderStatus.ORDER_FINISHED)]
      ∧ ((s1Manager (1 / 500)).handleEvents
            [OrderEvent.filled fill600, OrderEvent.filled fill400]).1.rds.GetOrderByHash 10
          = some { freshRow with DealtAmountS := 600, DealtAmountB := 6, UpdatedBlock := 102,
                                 Status := OrderStatus.ORDER_FINISHED }
      ∧ (600 : Int) ≠ fill600.AmountS + fill400.AmountS := by
  have hnew : (s1Manager (1 / 500)).rds.FindFillEventByRinghashAndOrderhash fill600.Ringhash
      fill600.OrderHash = none := rfl
  have hget : (s1Manager (1 / 500)).rds.GetOrderByHash fill600.OrderHash = some freshRow := rfl
  have hfin : (s1Manager (1 / 500)).IsOrderFullFinished (filledState freshRow fill600) = true := by
    simp [OrderManagerImpl.IsOrderFullFinished, OrderManagerImpl.valueOfRemainAmount,
      filledState, dao.Order.ConvertUp, freshRow, sampleOrder, fill600, s1Manager]
    norm_num
  have h1 := handleOrderFilled_of_legal hnew hget (by decide)
  rw [hfin] at h1
  refine ⟨rfl, rfl, ?_, ?_, by decide⟩
  · simp only [OrderManagerImpl.handleEvents, OrderManagerImpl.handleEvent, h1]
    rfl
  · simp only [OrderManagerImpl.handleEvents, OrderManagerImpl.handleEvent, h1]
    rfl

/-- C11, amended: for a stored order O with `buyNoMoreThanAmountB = false` and a
sequence of fill and cancel events for O, in any interleaving, every one of
which its handler accepts (none is rejected as a duplicate or because O has
meanwhile been settled FINISHED), the stored `dealtAmountS` of O afterwards is
the one stored before plus the sum of the fills' `amountS`, and the stored
`cancelledAmountS` is the one stored before plus the sum of the cancels'
`amountCancelled`. -/
theorem handleEvents_accumulates (om : OrderManagerImpl) (h : common.Hash) (row : dao.Order)
    (events : List OrderEvent)
    (hget : om.rds.GetOrderByHash h = some row)
    (hflag : row.RawOrder.BuyNoMoreThanAmountB = false)
    (hfor : ∀ e ∈ events, e.OrderHash = h)
    (hacc : ∀ r ∈ (om.handleEvents events).2, r = none) :
    ∃ updated : dao.Order,
      (om.handleEvents events).1.rds.GetOrderByHash h = some updated
        ∧ updated.DealtAmountS
            = row.DealtAmountS + (events.map OrderEvent.filledAmountS).sum
        ∧ updated.CancelledAmountS
            = row.CancelledAmountS + (events.map OrderEvent.cancelledAmount).sum := by
  induction events generalizing om row with
  | nil => exact ⟨row, hget, by simp, by simp⟩
  | cons e rest ih =>
    have he : e.OrderHash = h := hfor e (List.mem_cons_self e rest)
    have hrest : ∀ e' ∈ rest, e'.OrderHash = h :=
      fun e' hm => hfor e' (List.mem_cons_of_mem e hm)
    have hacc1 : (om.handleEvent e).2 = none :=
      hacc _ (by simp [OrderManagerImpl.handleEvents])
    have hacc2 : ∀ r ∈ ((om.handleEvent e).1.handleEvents rest).2, r = none :=
      fun r hr => hacc r (by simp [OrderManagerImpl.handleEvents, hr])
    cases e with
    | filled event =>
      have hev : event.OrderHash = h := he
      subst hev
      obtain ⟨hnew, m, hgetm, hst⟩ := handleOrderFilled_accepted hacc1
      have hm : m = row := Option.some.inj (hgetm.symm.trans hget)
      subst hm
      obtain ⟨updated, hu, hd, hc⟩ := ih (om.handleOrderFilled event).1 _
        (GetOrderByHash_handleOrderFilled hnew hgetm hst) hflag hrest hacc2
      refine ⟨updated, hu, ?_, ?_⟩
      · rw [hd]
        simp [OrderEvent.filledAmountS, add_assoc]
      · rw [hc]
        simp [OrderEvent.cancelledAmount]
    | cancelled event =>
      have hev : event.OrderHash = h := he
      subst hev
      obtain ⟨hnew, m, hgetm, hst⟩ := handleOrderCancelled_accepted hacc1
      have hm : m = row := Option.some.inj (hgetm.symm.trans hget)
      subst hm
      obtain ⟨updated, hu, hd, hc⟩ := ih (om.handleOrderCancelled event).1 _
        (GetOrderByHash_handleOrderCancelled hnew hgetm hst) hflag hrest hacc2
      refine ⟨updated, hu, ?_, ?_⟩
      · rw [hd]
        simp [OrderEvent.filledAmountS]
      · rw [hc]
        simp [OrderEvent.cancelledAmount, cancelledState, hflag, dao.Order.ConvertUp, add_assoc]

/-- C11, amended, at the fill of 400 followed by the cancel of 1000 on the fresh
order with unit prices. -/
theorem handleEvents_accumulates_witness :
    (s1Manager 1).rds.GetOrderByHash 10 = some freshRow
      ∧ freshRow.RawOrder.BuyNoMoreThanAmountB = false
      ∧ (∀ e ∈ [OrderEvent.filled fill400, OrderEvent.cancelled cancel1000],
          e.OrderHash = 10)
      ∧ (∀ r ∈ ((s1Manager 1).handleEvents
            [OrderEvent.filled fill400, OrderEvent.cancelled cancel1000]).2, r = none)
      ∧ ∃ updated : dao.Order,
        ((s1Manager 1).handleEvents
            [OrderEvent.filled fill400, OrderEvent.cancelled cancel1000]).1.rds.GetOrderByHash 10
          = some updated
        ∧ updated.DealtAmountS = freshRow.DealtAmountS
            + ([OrderEvent.filled fill400, OrderEvent.cancelled cancel1000].map
                OrderEvent.filledAmountS).sum
        ∧ updated.CancelledAmountS = freshRow.CancelledAmountS
            + ([OrderEvent.filled fill400, OrderEvent.cancelled cancel1000].map
                OrderEvent.cancelledAmount).sum :=
  have hacc : ∀ r ∈ ((s1Manager 1).handleEvents
      [OrderEvent.filled fill400, OrderEvent.cancelled cancel1000]).2, r = none := by
    simp only [OrderManagerImpl.handleEvents, OrderManagerImpl.handleEvent,
      s1Manager_fill400 1 (by norm_num)]
    decide
  ⟨by decide, by decide, by decide, hacc,
    handleEvents_accumulates (s1Manager 1) 10 freshRow
      [OrderEvent.filled fill400, OrderEvent.cancelled cancel1000] (by decide) (by decide)
      (by decide) hacc⟩

/-! ### The miner feed -/

/-- Setting the available amount leaves the raw order alone. -/
theorem calculateAmountS_RawOrder (v : OrderState) (req : ethaccessor.BatchErc20Req) :
    (calculateAmountS v req).RawOrder = v.RawOrder := rfl

/-- The last loop of `MinerOrders` over the answered requests of a list of
candidate states: the mark list takes the hashes of the probed fund-insufficient
states, the result the other probed states, in order. -/
theorem foldl_checkAccount (om : OrderManagerImpl) (l : List OrderState)
    (acc : List common.Hash × List OrderState) :
    ((l.map om.probeOf).zip l).foldl om.checkAccount acc =
      (acc.1 ++ (l.filter (fun v => om.probeSucceeded v
            && om.IsFundInsufficient (om.probed v))).map (fun v => v.RawOrder.Hash),
        acc.2 ++ (l.filter (fun v => om.probeSucceeded v
            && !om.IsFundInsufficient (om.probed v))).map om.probed) := by
  induction l generalizing acc with
  | nil => simp
  | cons v rest ih =>
    simp only [List.map_cons, List.zip_cons_cons, List.foldl_cons]
    rw [ih]
    cases hb : (om.probeOf v).BalanceErr <;> cases ha : (om.probeOf v).AllowanceErr <;>
      cases hf : om.IsFundInsufficient (calculateAmountS v (om.probeOf v)) <;>
      simp [OrderManagerImpl.checkAccount, OrderManagerImpl.probeSucceeded,
        OrderManagerImpl.probed, hb, ha, hf, List.filter_cons, calculateAmountS_RawOrder]

/-- The block beside the error of `FindLatestBlock` carries the current head. -/
theorem FindLatestBlock_BlockNumber (om : OrderManagerImpl) :
    om.rds.FindLatestBlock.1.BlockNumber = om.currentHead := by
  unfold OrderManagerImpl.currentHead dao.RdsService.FindLatestBlock
  cases om.rds.blocks with
  | nil => rfl
  | cons b rest => rfl

/-- The run of `MinerOrders` when there is no candidate state to probe. -/
theorem MinerOrders_of_no_state (om : OrderManagerImpl) (protocol tokenS tokenB : common.Address)
    (length : Nat) (filterOrderhashs : List common.Hash)
    (hl : om.minerStates protocol tokenS tokenB length filterOrderhashs = []) :
    om.MinerOrders protocol tokenS tokenB length filterOrderhashs =
      { om := { om with rds := om.rds.MarkMinerOrders filterOrderhashs (go.int64 om.currentHead) }
        list := []
        calls := [dao.Call.MarkMinerOrders filterOrderhashs (go.int64 om.currentHead),
          dao.Call.GetOrdersForMiner protocol tokenS tokenB length
            [OrderStatus.ORDER_FINISHED, OrderStatus.ORDER_CUTOFF, OrderStatus.ORDER_CANCEL]
            (go.int64 (om.currentHead - go.int64 om.options.BlockPeriod))
            (om.minerCandidates protocol tokenS tokenB length filterOrderhashs)] } := by
  have hl' := hl
  unfold OrderManagerImpl.minerStates OrderManagerImpl.minerCandidates
    OrderManagerImpl.currentHead at hl'
  unfold OrderManagerImpl.MinerOrders
  simp only [hl', List.map_nil, List.length_nil, if_true]
  rfl

/-- The method `MinerOrders` in terms of its candidate states and requests. -/
theorem MinerOrders_eq (om : OrderManagerImpl) (protocol tokenS tokenB : common.Address)
    (length : Nat) (filterOrderhashs : List common.Hash) :
    om.MinerOrders protocol tokenS tokenB length filterOrderhashs =
      if (om.minerRequests protocol tokenS tokenB length filterOrderhashs).length = 0 then
        { om := { om with rds := om.rds.MarkMinerOrders filterOrderhashs (go.int64 om.currentHead) }
          list := []
          calls := [dao.Call.MarkMinerOrders filterOrderhashs (go.int64 om.currentHead),
            dao.Call.GetOrdersForMiner protocol tokenS tokenB length
              [OrderStatus.ORDER_FINISHED, OrderStatus.ORDER_CUTOFF, OrderStatus.ORDER_CANCEL]
              (go.int64 (om.currentHead - go.int64 om.options.BlockPeriod))
              (om.minerCandidates protocol tokenS tokenB length filterOrderhashs)] }
      else
        match om.accessor.BatchErc20BalanceAndAllowance
            (om.minerRequests protocol tokenS tokenB length filterOrderhashs) with
        | none =>
          { om := { om with rds := om.rds.MarkMinerOrders filterOrderhashs (go.int64 om.currentHead) }
            list := []
            calls := [dao.Call.MarkMinerOrders filterOrderhashs (go.int64 om.currentHead),
              dao.Call.GetOrdersForMiner protocol tokenS tokenB length
                [OrderStatus.ORDER_FINISHED, OrderStatus.ORDER_CUTOFF, OrderStatus.ORDER_CANCEL]
                (go.int64 (om.currentHead - go.int64 om.options.BlockPeriod))
                (om.minerCandidates protocol tokenS tokenB length filterOrderhashs)] }
        | some reqs =>
          { om := { om with rds :=
              ((om.rds.MarkMinerOrders filterOrderhashs (go.int64 om.currentHead)).MarkMinerOrders
                ((reqs.zip (om.minerStates protocol tokenS tokenB length filterOrderhashs)).foldl
                  om.checkAccount ([], [])).1
                (go.int64 (om.rds.FindLatestBlock.1.BlockNumber + go.int64 om.options.AccountPeriod))) }
            list :=
              ((reqs.zip (om.minerStates protocol tokenS tokenB length filterOrderhashs)).foldl
                om.checkAccount ([], [])).2
            calls := [dao.Call.MarkMinerOrders filterOrderhashs (go.int64 om.currentHead),
              dao.Call.GetOrdersForMiner protocol tokenS tokenB length
                [OrderStatus.ORDER_FINISHED, OrderStatus.ORDER_CUTOFF, OrderStatus.ORDER_CANCEL]
                (go.int64 (om.currentHead - go.int64 om.options.BlockPeriod))
                (om.minerCandidates protocol tokenS tokenB length filterOrderhashs),
              dao.Call.MarkMinerOrders
                ((reqs.zip (om.minerStates protocol tokenS tokenB length filterOrderhashs)).foldl
                  om.checkAccount ([], [])).1
                (go.int64 (om.rds.FindLatestBlock.1.BlockNumber + go.int64 om.options.AccountPeriod))] } :=
  rfl

/-- The run of `MinerOrders` when the batch fails as a whole. -/
theorem MinerOrders_of_batch_failed (om : OrderManagerImpl)
    (protocol tokenS tokenB : common.Address) (length : Nat)
    (filterOrderhashs : List common.Hash)
    (hb : om.accessor.BatchFails
      (om.minerRequests protocol tokenS tokenB length filterOrderhashs) = true) :
    om.MinerOrders protocol tokenS tokenB length filterOrderhashs =
      { om := { om with rds := om.rds.MarkMinerOrders filterOrderhashs (go.int64 om.currentHead) }
        list := []
        calls := [dao.Call.MarkMinerOrders filterOrderhashs (go.int64 om.currentHead),
          dao.Call.GetOrdersForMiner protocol tokenS tokenB length
            [OrderStatus.ORDER_FINISHED, OrderStatus.ORDER_CUTOFF, OrderStatus.ORDER_CANCEL]
            (go.int64 (om.currentHead - go.int64 om.options.BlockPeriod))
            (om.minerCandidates protocol tokenS tokenB length filterOrderhashs)] } := by
  rw [MinerOrders_eq, Batch_failed hb]
  split <;> rfl

/-- The run of `MinerOrders` when there are candidate states and the batch goes
through. -/
theorem MinerOrders_of_batch_ok (om : OrderManagerImpl)
    (protocol tokenS tokenB : common.Address) (length : Nat)
    (filterOrderhashs : List common.Hash)
    (hl : om.minerStates protocol tokenS tokenB length filterOrderhashs ≠ [])
    (hb : om.accessor.BatchFails
      (om.minerRequests protocol tokenS tokenB length filterOrderhashs) = false) :
    om.MinerOrders protocol tokenS tokenB length filterOrderhashs =
      { om := { om with rds :=
          ((om.rds.MarkMinerOrders filterOrderhashs (go.int64 om.currentHead)).MarkMinerOrders
            (((om.minerStates protocol tokenS tokenB length filterOrderhashs).filter
              (fun v => om.probeSucceeded v && om.IsFundInsufficient (om.probed v))).map
              (fun v => v.RawOrder.Hash))
            (go.int64 (om.currentHead + go.int64 om.options.AccountPeriod))) }
        list := ((om.minerStates protocol tokenS tokenB length filterOrderhashs).filter
          (fun v => om.probeSucceeded v && !om.IsFundInsufficient (om.probed v))).map om.probed
        calls := [dao.Call.MarkMinerOrders filterOrderhashs (go.int64 om.currentHead),
          dao.Call.GetOrdersForMiner protocol tokenS tokenB length
            [OrderStatus.ORDER_FINISHED, OrderStatus.ORDER_CUTOFF, OrderStatus.ORDER_CANCEL]
            (go.int64 (om.currentHead - go.int64 om.options.BlockPeriod))
            (om.minerCandidates protocol tokenS tokenB length filterOrderhashs),
          dao.Call.MarkMinerOrders
            (((om.minerStates protocol tokenS tokenB length filterOrderhashs).filter
              (fun v => om.probeSucceeded v && om.IsFundInsufficient (om.probed v))).map
              (fun v => v.RawOrder.Hash))
            (go.int64 (om.currentHead + go.int64 om.options.AccountPeriod))] } := by
  have hreq : om.accessor.BatchErc20BalanceAndAllowance
      (om.minerRequests protocol tokenS tokenB length filterOrderhashs)
      = some ((om.minerStates protocol tokenS tokenB length filterOrderhashs).map om.probeOf) := by
    unfold ethaccessor.EthNodeAccessor.BatchErc20BalanceAndAllowance
    rw [hb]
    simp [OrderManagerImpl.minerRequests, OrderManagerImpl.probeOf, Function.comp_def]
  have hlen : ¬ (om.minerRequests protocol tokenS tokenB length filterOrderhashs).length = 0 := by
    simp [OrderManagerImpl.minerRequests, hl]
  rw [MinerOrders_eq, if_neg hlen, hreq]
  simp only [foldl_checkAccount, FindLatestBlock_BlockNumber, List.nil_append]

/-- Marking no hash changes nothing. -/
theorem MarkMinerOrders_nil (s : dao.RdsService) (blockNumber : Int) :
    s.MarkMinerOrders [] blockNumber = s := by
  simp [dao.RdsService.MarkMinerOrders]

/-- The probe of a state depends on its raw order only. -/
theorem probeOf_RawOrder (om : OrderManagerImpl) {v w : OrderState}
    (h : v.RawOrder = w.RawOrder) : om.probeOf v = om.probeOf w := by
  simp [OrderManagerImpl.probeOf, generateErc20Req, h]

/-- The whole effect of `MinerOrders` when the batch goes through, candidate
states or not. -/
theorem MinerOrders_of_batch_through (om : OrderManagerImpl)
    (protocol tokenS tokenB : common.Address) (length : Nat)
    (filterOrderhashs : List common.Hash)
    (hb : om.accessor.BatchFails
      (om.minerRequests protocol tokenS tokenB length filterOrderhashs) = false) :
    (om.MinerOrders protocol tokenS tokenB length filterOrderhashs).list
        = ((om.minerStates protocol tokenS tokenB length filterOrderhashs).filter
            (fun v => om.probeSucceeded v && !om.IsFundInsufficient (om.probed v))).map om.probed
      ∧ (om.MinerOrders protocol tokenS tokenB length filterOrderhashs).om.rds
        = (om.rds.MarkMinerOrders filterOrderhashs (go.int64 om.currentHead)).MarkMinerOrders
            (((om.minerStates protocol tokenS tokenB length filterOrderhashs).filter
              (fun v => om.probeSucceeded v && om.IsFundInsufficient (om.probed v))).map
              (fun v => v.RawOrder.Hash))
            (go.int64 (om.currentHead + go.int64 om.options.AccountPeriod)) := by
  by_cases hl : om.minerStates protocol tokenS tokenB length filterOrderhashs = []
  · rw [MinerOrders_of_no_state om protocol tokenS tokenB length filterOrderhashs hl, hl]
    simp [MarkMinerOrders_nil]
  · rw [MinerOrders_of_batch_ok om protocol tokenS tokenB length filterOrderhashs hl hb]
    exact ⟨rfl, rfl⟩

/-- C17, amended: for the candidate rows the store returns to `MinerOrders`, on
which the white-list predicate answers the same for a row's owner and for its
tokenS, and a batch probe that goes through, the result is exactly the
sub-list, in the store's order, of the candidates whose owner is not
white-listed, whose balance and allowance probes both succeeded and that are
not fund-insufficient (each with its probed available amount); the store
afterwards is the one where exactly the hashes of the probed fund-insufficient
candidates among them are marked with the `int64` sum of `currentHead` and
`AccountPeriod`, which is `currentHead + AccountPeriod` whenever that fits in
`int64`; and every returned state and every marked hash comes from a candidate
whose probes both succeeded, so a candidate whose probe errored is neither
returned nor marked. -/
theorem MinerOrders_returns_probed_funded (om : OrderManagerImpl)
    (protocol tokenS tokenB : common.Address) (length : Nat)
    (filterOrderhashs : List common.Hash) (candidates : List dao.Order)
    (hcand : candidates = (om.rds.MarkMinerOrders filterOrderhashs
        (go.int64 om.currentHead)).GetOrdersForMiner protocol tokenS tokenB length
        [OrderStatus.ORDER_FINISHED, OrderStatus.ORDER_CUTOFF, OrderStatus.ORDER_CANCEL]
        (go.int64 (om.currentHead - go.int64 om.options.BlockPeriod)))
    (hagree : ∀ row ∈ candidates,
      om.um.InWhiteList row.RawOrder.Owner = om.um.InWhiteList row.RawOrder.TokenS)
    (hb : om.accessor.BatchFails
      (((candidates.map (fun v => v.ConvertUp emptyOrderState)).filter
          (fun state => !om.um.InWhiteList state.RawOrder.Owner)).map
        (fun v => generateErc20Req v (om.accessor.GetSenderAddress v.RawOrder.Protocol)))
      = false) :
    (om.MinerOrders protocol tokenS tokenB length filterOrderhashs).list
        = ((((candidates.map (fun v => v.ConvertUp emptyOrderState)).filter
              (fun state => !om.um.InWhiteList state.RawOrder.Owner)).filter
            (fun v => om.probeSucceeded v && !om.IsFundInsufficient (om.probed v))).map
            om.probed)
      ∧ (om.MinerOrders protocol tokenS tokenB length filterOrderhashs).om.rds
        = (om.rds.MarkMinerOrders filterOrderhashs (go.int64 om.currentHead)).MarkMinerOrders
            ((((candidates.map (fun v => v.ConvertUp emptyOrderState)).filter
                (fun state => !om.um.InWhiteList state.RawOrder.Owner)).filter
              (fun v => om.probeSucceeded v && om.IsFundInsufficient (om.probed v))).map
              (fun v => v.RawOrder.Hash))
            (go.int64 (om.currentHead + go.int64 om.options.AccountPeriod))
      ∧ (go.fitsInt64 (om.currentHead + om.options.AccountPeriod) →
          go.int64 (om.currentHead + go.int64 om.options.AccountPeriod)
            = om.currentHead + om.options.AccountPeriod)
      ∧ (∀ st ∈ (om.MinerOrders protocol tokenS tokenB length filterOrderhashs).list,
          ∃ row ∈ candidates, st = om.probed (row.ConvertUp emptyOrderState)
            ∧ om.um.InWhiteList row.RawOrder.Owner = false
            ∧ om.probeSucceeded (row.ConvertUp emptyOrderState) = true
            ∧ om.IsFundInsufficient st = false)
      ∧ (∀ h ∈ (((candidates.map (fun v => v.ConvertUp emptyOrderState)).filter
                (fun state => !om.um.InWhiteList state.RawOrder.Owner)).filter
              (fun v => om.probeSucceeded v && om.IsFundInsufficient (om.probed v))).map
              (fun v => v.RawOrder.Hash),
          ∃ row ∈ candidates, row.RawOrder.Hash = h
            ∧ om.um.InWhiteList row.RawOrder.Owner = false
            ∧ om.probeSucceeded (row.ConvertUp emptyOrderState) = true
            ∧ om.IsFundInsufficient (om.probed (row.ConvertUp emptyOrderState)) = true)
      ∧ (∀ row ∈ candidates, om.probeSucceeded (row.ConvertUp emptyOrderState) = false →
          om.probed (row.ConvertUp emptyOrderState)
            ∉ (om.MinerOrders protocol tokenS tokenB length filterOrderhashs).list) := by
  have hfilter : (candidates.map (fun v => v.ConvertUp emptyOrderState)).filter
        (fun state => !om.um.InWhiteList state.RawOrder.TokenS)
      = (candidates.map (fun v => v.ConvertUp emptyOrderState)).filter
        (fun state => !om.um.InWhiteList state.RawOrder.Owner) := by
    apply List.filter_congr
    intro state hstate
    obtain ⟨row, hrow, rfl⟩ := List.mem_map.mp hstate
    have := hagree row hrow
    show (!om.um.InWhiteList row.RawOrder.TokenS) = !om.um.InWhiteList row.RawOrder.Owner
    rw [this]
  have hstates : om.minerStates protocol tokenS tokenB length filterOrderhashs
      = (candidates.map (fun v => v.ConvertUp emptyOrderState)).filter
          (fun state => !om.um.InWhiteList state.RawOrder.Owner) := by
    rw [← hfilter, hcand]
    rfl
  have hb' : om.accessor.BatchFails
      (om.minerRequests protocol tokenS tokenB length filterOrderhashs) = false := by
    unfold OrderManagerImpl.minerRequests
    rw [hstates]
    exact hb
  obtain ⟨hlist, hrds⟩ :=
    MinerOrders_of_batch_through om protocol tokenS tokenB length filterOrderhashs hb'
  rw [hstates] at hlist hrds
  refine ⟨hlist, hrds, ?_, ?_, ?_, ?_⟩
  · intro hfits
    rw [int64_add_right, int64_of_fits _ hfits]
  · intro st hst
    rw [hlist] at hst
    simp only [List.mem_map, List.mem_filter, Bool.and_eq_true, Bool.not_eq_true'] at hst
    obtain ⟨v, ⟨⟨⟨row, hrow, hv⟩, hown⟩, hok, hfund⟩, hst⟩ := hst
    subst hv
    subst hst
    exact ⟨row, hrow, rfl, hown, hok, hfund⟩
  · intro h hh
    simp only [List.mem_map, List.mem_filter, Bool.and_eq_true, Bool.not_eq_true'] at hh
    obtain ⟨v, ⟨⟨⟨row, hrow, hv⟩, hown⟩, hok, hfund⟩, hst⟩ := hh
    subst hv
    exact ⟨row, hrow, hst, hown, hok, hfund⟩
  · intro row _ herr hmem
    rw [hlist] at hmem
    simp only [List.mem_map, List.mem_filter, Bool.and_eq_true] at hmem
    obtain ⟨v, ⟨_, hok, _⟩, hst⟩ := hmem
    have hraw : v.RawOrder = (row.ConvertUp emptyOrderState).RawOrder := by
      have := congrArg OrderState.RawOrder hst
      simpa [OrderManagerImpl.probed, calculateAmountS_RawOrder] using this
    have hsame : om.probeSucceeded v = om.probeSucceeded (row.ConvertUp emptyOrderState) := by
      unfold OrderManagerImpl.probeSucceeded
      rw [probeOf_RawOrder om hraw]
    rw [hsame, herr] at hok
    cases hok

/-- The candidate states of the miner query on the store that holds `freshRow`
and the block 100, with the owner of the order on the white-list. -/
theorem minerManagerOwnerListed_minerStates :
    minerManagerOwnerListed.minerStates 7 1 2 10 [] = [freshRow.ConvertUp emptyOrderState] := by
  decide

/-- The same candidate states vanish when the tokenS of the order is on the
white-list. -/
theorem minerManagerTokenListed_minerStates :
    minerManagerTokenListed.minerStates 7 1 2 10 [] = [] := by
  decide

/-- C17, amended, at the store that holds `freshRow` and the block 100, on the
funded chain with an empty white-list: the order is returned with its probed
amount and nothing is marked. -/
theorem MinerOrders_returns_probed_funded_witness :
    [freshRow] = (minerManagerUnlisted.rds.MarkMinerOrders []
        (go.int64 minerManagerUnlisted.currentHead)).GetOrdersForMiner 7 1 2 10
        [OrderStatus.ORDER_FINISHED, OrderStatus.ORDER_CUTOFF, OrderStatus.ORDER_CANCEL]
        (go.int64 (minerManagerUnlisted.currentHead
          - go.int64 minerManagerUnlisted.options.BlockPeriod))
      ∧ (∀ row ∈ [freshRow], minerManagerUnlisted.um.InWhiteList row.RawOrder.Owner
          = minerManagerUnlisted.um.InWhiteList row.RawOrder.TokenS)
      ∧ minerManagerUnlisted.accessor.BatchFails
          ((([freshRow].map (fun v => v.ConvertUp emptyOrderState)).filter
              (fun state => !minerManagerUnlisted.um.InWhiteList state.RawOrder.Owner)).map
            (fun v => generateErc20Req v
              (minerManagerUnlisted.accessor.GetSenderAddress v.RawOrder.Protocol)))
          = false
      ∧ (minerManagerUnlisted.MinerOrders 7 1 2 10 []).list
          = (((([freshRow].map (fun v => v.ConvertUp emptyOrderState)).filter
                (fun state => !minerManagerUnlisted.um.InWhiteList
                  state.RawOrder.Owner)).filter
              (fun v => minerManagerUnlisted.probeSucceeded v
                && !minerManagerUnlisted.IsFundInsufficient
                    (minerManagerUnlisted.probed v))).map
              minerManagerUnlisted.probed) :=
  ⟨by decide, by decide, by decide,
    (MinerOrders_returns_probed_funded minerManagerUnlisted 7 1 2 10 [] [freshRow]
      (by decide) (by decide) (by decide)).1⟩

/-- The candidate states of the miner query on the store that holds `freshRow`
and the block `2^63 - 1`, on the unfunded chain. -/
theorem minerManagerUnfundedAtMax_minerStates :
    minerManagerUnfundedAtMax.minerStates 7 1 2 10 []
      = [freshRow.ConvertUp emptyOrderState] := by
  decide

/-- C17, as stated, fails at two inputs.  First, on the store that holds
`freshRow` and the block 100, with the owner 9 of the order on the white-list,
the only candidate has a white-listed owner, so the sub-list of the
non-whitelisted candidates is empty, and yet the result holds the order.
Second, on the store that holds `freshRow` and the block `2^63 - 1`, on the
unfunded chain with an empty white-list, the only candidate is probed
fund-insufficient and is marked with `-9223372036854775806`, not with
`currentHead + AccountPeriod = 2^63 + 2`: the sum is taken in `int64` and
wraps. -/
theorem MinerOrders_returns_listed_owner_and_wraps_mark :
    minerManagerOwnerListed.minerCandidates 7 1 2 10 [] = [freshRow]
      ∧ minerManagerOwnerListed.um.InWhiteList freshRow.RawOrder.Owner = true
      ∧ (minerManagerOwnerListed.MinerOrders 7 1 2 10 []).list
          = [{ (freshRow.ConvertUp emptyOrderState) with AvailableAmountS := 1000 }]
      ∧ minerManagerUnfundedAtMax.minerCandidates 7 1 2 10 [] = [freshRow]
      ∧ minerManagerUnfundedAtMax.um.InWhiteList freshRow.RawOrder.Owner = false
      ∧ minerManagerUnfundedAtMax.probeSucceeded (freshRow.ConvertUp emptyOrderState) = true
      ∧ minerManagerUnfundedAtMax.IsFundInsufficient
          (minerManagerUnfundedAtMax.probed (freshRow.ConvertUp emptyOrderState)) = true
      ∧ minerManagerUnfundedAtMax.currentHead = 9223372036854775807
      ∧ minerManagerUnfundedAtMax.options.AccountPeriod = 3
      ∧ (minerManagerUnfundedAtMax.MinerOrders 7 1 2 10 []).list = []
      ∧ (minerManagerUnfundedAtMax.MinerOrders 7 1 2 10 []).om.rds.GetOrderByHash 10
          = some { freshRow with MinerBlockMark := -9223372036854775806 }
      ∧ (-9223372036854775806 : Int) ≠ minerManagerUnfundedAtMax.currentHead
          + minerManagerUnfundedAtMax.options.AccountPeriod := by
  have hfund : minerManagerOwnerListed.IsFundInsufficient
      (minerManagerOwnerListed.probed (freshRow.ConvertUp emptyOrderState)) = false := by
    simp [OrderManagerImpl.IsFundInsufficient, OrderManagerImpl.probed, calculateAmountS,
      OrderManagerImpl.probeOf, ethaccessor.EthNodeAccessor.probe, generateErc20Req,
      dao.Order.ConvertUp, freshRow, sampleOrder, minerManagerOwnerListed, fundedAccessor]
  have hok : minerManagerOwnerListed.probeSucceeded (freshRow.ConvertUp emptyOrderState)
      = true := by decide
  have h1 := (MinerOrders_of_batch_through minerManagerOwnerListed 7 1 2 10 [] rfl).1
  rw [minerManagerOwnerListed_minerStates] at h1
  have hfundMax : minerManagerUnfundedAtMax.IsFundInsufficient
      (minerManagerUnfundedAtMax.probed (freshRow.ConvertUp emptyOrderState)) = true := by
    simp [OrderManagerImpl.IsFundInsufficient, OrderManagerImpl.probed, calculateAmountS,
      OrderManagerImpl.probeOf, ethaccessor.EthNodeAccessor.probe, generateErc20Req,
      dao.Order.ConvertUp, freshRow, sampleOrder, minerManagerUnfundedAtMax, unfundedAccessor,
      fundedAccessor]
  have hokMax : minerManagerUnfundedAtMax.probeSucceeded (freshRow.ConvertUp emptyOrderState)
      = true := by decide
  obtain ⟨h2, h3⟩ := MinerOrders_of_batch_through minerManagerUnfundedAtMax 7 1 2 10 [] rfl
  rw [minerManagerUnfundedAtMax_minerStates] at h2 h3
  simp only [List.filter_cons, hokMax, hfundMax, Bool.not_true, Bool.and_false, Bool.and_self,
    if_true, List.filter_nil, List.map_cons, List.map_nil] at h2 h3
  refine ⟨by decide, by decide, ?_, by decide, by decide, hokMax, hfundMax, by decide, rfl,
    ?_, ?_, by decide⟩
  · rw [h1]
    simp only [List.filter_cons, hok, hfund, Bool.not_false, Bool.and_self, if_true,
      List.filter_nil, List.map_cons, List.map_nil]
    decide
  · rw [h2]
    rfl
  · rw [h3]
    decide

/-- C18, the code at two inputs.  With the owner 9 of `sampleOrder` on the
white-list the order is still returned to the miner, and with its tokenS 1 on
the white-list instead (the owner not on it) the order is filtered out: the
filter tests the white-list predicate on the order's tokenS, not on its owner. -/
theorem MinerOrders_filters_on_tokenS_not_owner :
    minerManagerOwnerListed.um.InWhiteList sampleOrder.Owner = true
      ∧ (minerManagerOwnerListed.MinerOrders 7 1 2 10 []).list
          = [{ (freshRow.ConvertUp emptyOrderState) with AvailableAmountS := 1000 }]
      ∧ minerManagerTokenListed.um.InWhiteList sampleOrder.Owner = false
      ∧ minerManagerTokenListed.um.InWhiteList sampleOrder.TokenS = true
      ∧ (minerManagerTokenListed.MinerOrders 7 1 2 10 []).list = [] := by
  have hfund : minerManagerOwnerListed.IsFundInsufficient
      (minerManagerOwnerListed.probed (freshRow.ConvertUp emptyOrderState)) = false := by
    simp [OrderManagerImpl.IsFundInsufficient, OrderManagerImpl.probed, calculateAmountS,
      OrderManagerImpl.probeOf, ethaccessor.EthNodeAccessor.probe, generateErc20Req,
      dao.Order.ConvertUp, freshRow, sampleOrder, minerManagerOwnerListed, fundedAccessor]
  have hok : minerManagerOwnerListed.probeSucceeded (freshRow.ConvertUp emptyOrderState)
      = true := by decide
  have h1 := (MinerOrders_of_batch_through minerManagerOwnerListed 7 1 2 10 [] rfl).1
  rw [minerManagerOwnerListed_minerStates] at h1
  have h2 := (MinerOrders_of_batch_through minerManagerTokenListed 7 1 2 10 [] rfl).1
  rw [minerManagerTokenListed_minerStates] at h2
  refine ⟨by decide, ?_, by decide, by decide, ?_⟩
  · rw [h1]
    simp only [List.filter_cons, hok, hfund, Bool.not_false, Bool.and_self, if_true,
      List.filter_nil, List.map_cons, List.map_nil]
    decide
  · rw [h2]
    rfl

/-- Looking an order up after marking: a row whose hash is listed carries the mark. -/
theorem GetOrderByHash_MarkMinerOrders (s : dao.RdsService) (hashes : List common.Hash)
    (blockNumber : Int) (k : common.Hash) :
    (s.MarkMinerOrders hashes blockNumber).GetOrderByHash k =
      (s.GetOrderByHash k).map (fun o =>
        if o.RawOrder.Hash ∈ hashes then { o with MinerBlockMark := blockNumber } else o) := by
  unfold dao.RdsService.MarkMinerOrders dao.RdsService.GetOrderByHash
  induction s.orders with
  | nil => rfl
  | cons a t ih =>
    have hu : (if a.RawOrder.Hash ∈ hashes then { a with MinerBlockMark := blockNumber }
        else a).RawOrder.Hash = a.RawOrder.Hash := by
      split <;> rfl
    simp only [List.map_cons, List.find?_cons]
    rw [hu, ih]
    cases decide (a.RawOrder.Hash = k) <;> rfl

/-- The fold of `FindLatestBlock` ends on a block of the table whose create time
is maximal. -/
theorem foldl_latest (rest : List dao.Block) (b : dao.Block) :
    rest.foldl (fun best c => if best.CreateTime < c.CreateTime then c else best) b
        ∈ b :: rest
      ∧ ∀ c ∈ b :: rest, c.CreateTime
          ≤ (rest.foldl (fun best c => if best.CreateTime < c.CreateTime then c else best)
              b).CreateTime := by
  induction rest generalizing b with
  | nil => simp
  | cons d rest ih =>
    simp only [List.foldl_cons]
    obtain ⟨hmem, hmax⟩ := ih (if b.CreateTime < d.CreateTime then d else b)
    constructor
    · rcases List.mem_cons.mp hmem with h | h
      · rw [h]
        split
        · exact List.mem_cons_of_mem _ (List.mem_cons_self _ _)
        · exact List.mem_cons_self _ _
      · exact List.mem_cons_of_mem _ (List.mem_cons_of_mem _ h)
    · intro c hc
      have hfirst := hmax _ (List.mem_cons_self _ _)
      rcases List.mem_cons.mp hc with h | h
      · subst h
        refine le_trans ?_ hfirst
        split
        · exact le_of_lt (by assumption)
        · exact le_refl _
      · rcases List.mem_cons.mp h with h | h
        · subst h
          refine le_trans ?_ hfirst
          split
          · exact le_refl _
          · exact not_lt.mp (by assumption)
        · exact hmax c (List.mem_cons_of_mem _ h)

/-- A row the miner query returns is a row of the store whose mark is at most
the threshold. -/
theorem mem_GetOrdersForMiner {s : dao.RdsService} {protocol tokenS tokenB : common.Address}
    {length : Nat} {filterStatus : List OrderStatus} {markBlockNumber : Int} {o : dao.Order}
    (h : o ∈ s.GetOrdersForMiner protocol tokenS tokenB length filterStatus markBlockNumber) :
    o ∈ s.orders ∧ o.MinerBlockMark ≤ markBlockNumber := by
  unfold dao.RdsService.GetOrdersForMiner at h
  have h1 := List.mem_of_mem_take h
  rw [List.mem_insertionSort] at h1
  simp only [List.mem_filter, decide_eq_true_eq] at h1
  exact ⟨h1.1, h1.2.2.2.2.2⟩

/-- A row of a marked store whose hash is listed carries the mark. -/
theorem mem_MarkMinerOrders {s : dao.RdsService} {hashes : List common.Hash}
    {blockNumber : Int} {o : dao.Order}
    (h : o ∈ (s.MarkMinerOrders hashes blockNumber).orders)
    (hh : o.RawOrder.Hash ∈ hashes) : o.MinerBlockMark = blockNumber := by
  unfold dao.RdsService.MarkMinerOrders at h
  simp only [List.mem_map] at h
  obtain ⟨a, _, ha⟩ := h
  by_cases hmem : a.RawOrder.Hash ∈ hashes
  · rw [if_pos hmem] at ha
    rw [← ha]
  · rw [if_neg hmem] at ha
    rw [← ha] at hh
    exact absurd hh hmem

/-- The store `MinerOrders` leaves: the input store with the hashes the miner
turned down marked with the head, then the hashes of some candidate rows marked
with the account mark. -/
theorem MinerOrders_rds (om : OrderManagerImpl) (protocol tokenS tokenB : common.Address)
    (length : Nat) (filterOrderhashs : List common.Hash) :
    ∃ accountMarkList : List common.Hash,
      (om.MinerOrders protocol tokenS tokenB length filterOrderhashs).om.rds
          = (om.rds.MarkMinerOrders filterOrderhashs (go.int64 om.currentHead)).MarkMinerOrders
              accountMarkList (go.int64 (om.currentHead + go.int64 om.options.AccountPeriod))
        ∧ ∀ h ∈ accountMarkList,
            ∃ row ∈ om.minerCandidates protocol tokenS tokenB length filterOrderhashs,
              row.RawOrder.Hash = h := by
  cases hb : om.accessor.BatchFails
      (om.minerRequests protocol tokenS tokenB length filterOrderhashs) with
  | true =>
    rw [MinerOrders_of_batch_failed om protocol tokenS tokenB length filterOrderhashs hb]
    exact ⟨[], by simp [MarkMinerOrders_nil], by simp⟩
  | false =>
    obtain ⟨_, hrds⟩ :=
      MinerOrders_of_batch_through om protocol tokenS tokenB length filterOrderhashs hb
    refine ⟨_, hrds, ?_⟩
    intro h hh
    simp only [OrderManagerImpl.minerStates, List.mem_map, List.mem_filter] at hh
    obtain ⟨v, ⟨⟨⟨row, hrow, hv⟩, _⟩, _⟩, hhash⟩ := hh
    subst hv
    exact ⟨row, hrow, hhash⟩

/-- With a threshold below the head mark, no candidate row of `MinerOrders` has a
hash the miner turned down. -/
theorem minerCandidates_not_excluded (om : OrderManagerImpl)
    (protocol tokenS tokenB : common.Address) (length : Nat)
    (filterOrderhashs : List common.Hash)
    (hlt : go.int64 (om.currentHead - go.int64 om.options.BlockPeriod)
      < go.int64 om.currentHead) :
    ∀ row ∈ om.minerCandidates protocol tokenS tokenB length filterOrderhashs,
      row.RawOrder.Hash ∉ filterOrderhashs := by
  intro row hrow hmem
  obtain ⟨hin, hle⟩ := mem_GetOrdersForMiner hrow
  have hmark := mem_MarkMinerOrders hin hmem
  omega

/-- C19, amended: for every call of `MinerOrders`, the first store call marks
the hashes of `excludeHashes` with `currentHead` as an `int64`, and the
candidate query that follows uses the threshold `currentHead - BlockPeriod` as
an `int64` with the status filter {FINISHED, CUTOFF, CANCEL} on the store so
marked.  In the store the call leaves, every stored order whose hash is
excluded carries that head mark, unless the query returned it as a candidate
again and it was probed fund-insufficient, in which case it carries the
account mark, the `int64` sum of `currentHead` and `AccountPeriod`; with a
threshold below the head mark no candidate has an excluded hash and every
excluded stored order carries the head mark.  When `currentHead` and
`currentHead - BlockPeriod` fit in `int64` and `BlockPeriod` is positive, the
threshold is `currentHead - BlockPeriod` and every excluded stored order is
left with `minerBlockMark = currentHead`.  `currentHead` is 0 when no block
is stored and otherwise the number of a stored block of maximal create time. -/
theorem MinerOrders_marks_excluded_then_queries (om : OrderManagerImpl)
    (protocol tokenS tokenB : common.Address) (length : Nat)
    (excludeHashes : List common.Hash) :
    (om.MinerOrders protocol tokenS tokenB length excludeHashes).calls.take 2
        = [dao.Call.MarkMinerOrders excludeHashes (go.int64 om.currentHead),
            dao.Call.GetOrdersForMiner protocol tokenS tokenB length
              [OrderStatus.ORDER_FINISHED, OrderStatus.ORDER_CUTOFF, OrderStatus.ORDER_CANCEL]
              (go.int64 (om.currentHead - go.int64 om.options.BlockPeriod))
              ((om.rds.MarkMinerOrders excludeHashes
                  (go.int64 om.currentHead)).GetOrdersForMiner protocol tokenS tokenB length
                [OrderStatus.ORDER_FINISHED, OrderStatus.ORDER_CUTOFF, OrderStatus.ORDER_CANCEL]
                (go.int64 (om.currentHead - go.int64 om.options.BlockPeriod)))]
      ∧ (∀ h ∈ excludeHashes, ∀ o : dao.Order, om.rds.GetOrderByHash h = some o →
          (om.MinerOrders protocol tokenS tokenB length excludeHashes).om.rds.GetOrderByHash h
              = some { o with MinerBlockMark := go.int64 om.currentHead }
            ∨ ((om.MinerOrders protocol tokenS tokenB length excludeHashes).om.rds.GetOrderByHash h
                = some { o with
                    MinerBlockMark :=
                      go.int64 (om.currentHead + go.int64 om.options.AccountPeriod) }
              ∧ ∃ row ∈ (om.rds.MarkMinerOrders excludeHashes
                    (go.int64 om.currentHead)).GetOrdersForMiner protocol tokenS tokenB length
                  [OrderStatus.ORDER_FINISHED, OrderStatus.ORDER_CUTOFF,
                    OrderStatus.ORDER_CANCEL]
                  (go.int64 (om.currentHead - go.int64 om.options.BlockPeriod)),
                  row.RawOrder.Hash = h))
      ∧ (go.int64 (om.currentHead - go.int64 om.options.BlockPeriod) < go.int64 om.currentHead →
          (∀ row ∈ (om.rds.MarkMinerOrders excludeHashes
                (go.int64 om.currentHead)).GetOrdersForMiner protocol tokenS tokenB length
              [OrderStatus.ORDER_FINISHED, OrderStatus.ORDER_CUTOFF, OrderStatus.ORDER_CANCEL]
              (go.int64 (om.currentHead - go.int64 om.options.BlockPeriod)),
              row.RawOrder.Hash ∉ excludeHashes)
          ∧ ∀ h ∈ excludeHashes, ∀ o : dao.Order, om.rds.GetOrderByHash h = some o →
            (om.MinerOrders protocol tokenS tokenB length excludeHashes).om.rds.GetOrderByHash h
              = some { o with MinerBlockMark := go.int64 om.currentHead })
      ∧ (go.fitsInt64 om.currentHead →
          go.fitsInt64 (om.currentHead - om.options.BlockPeriod) →
          0 < om.options.BlockPeriod →
          go.int64 om.currentHead = om.currentHead
            ∧ go.int64 (om.currentHead - go.int64 om.options.BlockPeriod)
                = om.currentHead - om.options.BlockPeriod
            ∧ ∀ h ∈ excludeHashes, ∀ o : dao.Order, om.rds.GetOrderByHash h = some o →
              (om.MinerOrders protocol tokenS tokenB length excludeHashes).om.rds.GetOrderByHash h
                = some { o with MinerBlockMark := om.currentHead })
      ∧ (om.rds.blocks = [] → om.currentHead = 0)
      ∧ (om.rds.blocks ≠ [] →
          ∃ latest ∈ om.rds.blocks, om.currentHead = latest.BlockNumber
            ∧ ∀ c ∈ om.rds.blocks, c.CreateTime ≤ latest.CreateTime) := by
  obtain ⟨accountMarkList, hrds, hlist⟩ :=
    MinerOrders_rds om protocol tokenS tokenB length excludeHashes
  have hget : ∀ h ∈ excludeHashes, ∀ o : dao.Order, om.rds.GetOrderByHash h = some o →
      (om.MinerOrders protocol tokenS tokenB length excludeHashes).om.rds.GetOrderByHash h
        = some (if h ∈ accountMarkList then
            { o with
              MinerBlockMark :=
                go.int64 (om.currentHead + go.int64 om.options.AccountPeriod) }
          else { o with MinerBlockMark := go.int64 om.currentHead }) := by
    intro h hh o ho
    have hr := GetOrderByHash_hash ho
    rw [hrds, GetOrderByHash_MarkMinerOrders, GetOrderByHash_MarkMinerOrders, ho]
    simp only [Option.map_some', hr, hh, if_true]
  have hkeep : go.int64 (om.currentHead - go.int64 om.options.BlockPeriod)
        < go.int64 om.currentHead →
      ∀ h ∈ excludeHashes, ∀ o : dao.Order, om.rds.GetOrderByHash h = some o →
        (om.MinerOrders protocol tokenS tokenB length excludeHashes).om.rds.GetOrderByHash h
          = some { o with MinerBlockMark := go.int64 om.currentHead } := by
    intro hlt h hh o ho
    have hnot : h ∉ accountMarkList := by
      intro hmem
      obtain ⟨row, hrow, hhash⟩ := hlist h hmem
      have := minerCandidates_not_excluded om protocol tokenS tokenB length excludeHashes hlt
        row hrow
      rw [hhash] at this
      exact this hh
    rw [hget h hh o ho, if_neg hnot]
  refine ⟨?_, ?_, ?_, ?_, ?_, ?_⟩
  · rw [MinerOrders_eq]
    split
    · rfl
    · split <;> rfl
  · intro h hh o ho
    by_cases hmem : h ∈ accountMarkList
    · right
      exact ⟨by rw [hget h hh o ho, if_pos hmem], hlist h hmem⟩
    · left
      rw [hget h hh o ho, if_neg hmem]
  · intro hlt
    exact ⟨minerCandidates_not_excluded om protocol tokenS tokenB length excludeHashes hlt,
      hkeep hlt⟩
  · intro hfit hfitSub hpos
    have h1 : go.int64 om.currentHead = om.currentHead := int64_of_fits _ hfit
    have h2 : go.int64 (om.currentHead - go.int64 om.options.BlockPeriod)
        = om.currentHead - om.options.BlockPeriod := by
      rw [int64_sub_right, int64_of_fits _ hfitSub]
    refine ⟨h1, h2, ?_⟩
    have hlt : go.int64 (om.currentHead - go.int64 om.options.BlockPeriod)
        < go.int64 om.currentHead := by
      rw [h1, h2]
      omega
    intro h hh o ho
    have := hkeep hlt h hh o ho
    rw [h1] at this
    exact this
  · intro hb
    simp [OrderManagerImpl.currentHead, dao.RdsService.FindLatestBlock, hb]
  · intro hb
    cases hbl : om.rds.blocks with
    | nil => exact absurd hbl hb
    | cons b rest =>
      obtain ⟨hmem, hmax⟩ := foldl_latest rest b
      refine ⟨_, hmem, ?_, hmax⟩
      simp [OrderManagerImpl.currentHead, dao.RdsService.FindLatestBlock, hbl]

/-- The candidate states of the miner query with the block period 0, once the
hash 10 of `freshRow` is turned down: the row is a candidate again. -/
theorem minerManagerNoPeriod_minerStates :
    minerManagerNoPeriod.minerStates 7 1 2 10 [10]
      = [freshRow.ConvertUp emptyOrderState] := by
  decide

/-- C19, as stated, fails at two inputs.  First, on the store that holds
`freshRow` and the block 100, on the unfunded chain with the block period 0,
the call with `excludeHashes = [10]` marks the order with the head 100, gets it
back as a candidate at the threshold 100, probes it fund-insufficient and marks
it again: the order is left with `minerBlockMark = 103`, not with
`currentHead = 100`.  Second, with the head `2^63 - 1` and the block period -1
the candidate query is made with the threshold `-9223372036854775808`, not with
`currentHead - BlockPeriod = 2^63`, and returns no row: the threshold is
truncated to `int64`. -/
theorem MinerOrders_remarks_excluded_and_wraps_threshold :
    minerManagerNoPeriod.currentHead = 100
      ∧ minerManagerNoPeriod.options.BlockPeriod = 0
      ∧ minerManagerNoPeriod.rds.GetOrderByHash 10 = some freshRow
      ∧ (minerManagerNoPeriod.MinerOrders 7 1 2 10 [10]).list = []
      ∧ (minerManagerNoPeriod.MinerOrders 7 1 2 10 [10]).om.rds.GetOrderByHash 10
          = some { freshRow with MinerBlockMark := 103 }
      ∧ (103 : Int) ≠ minerManagerNoPeriod.currentHead
      ∧ minerManagerNegativePeriod.currentHead = 9223372036854775807
      ∧ minerManagerNegativePeriod.options.BlockPeriod = -1
      ∧ minerManagerNegativePeriod.rds.orders = [freshRow]
      ∧ (minerManagerNegativePeriod.MinerOrders 7 1 2 10 []).calls
          = [dao.Call.MarkMinerOrders [] 9223372036854775807,
              dao.Call.GetOrdersForMiner 7 1 2 10
                [OrderStatus.ORDER_FINISHED, OrderStatus.ORDER_CUTOFF, OrderStatus.ORDER_CANCEL]
                (-9223372036854775808) []]
      ∧ (-9223372036854775808 : Int) ≠ minerManagerNegativePeriod.currentHead
          - minerManagerNegativePeriod.options.BlockPeriod := by
  have hfund : minerManagerNoPeriod.IsFundInsufficient
      (minerManagerNoPeriod.probed (freshRow.ConvertUp emptyOrderState)) = true := by
    simp [OrderManagerImpl.IsFundInsufficient, OrderManagerImpl.probed, calculateAmountS,
      OrderManagerImpl.probeOf, ethaccessor.EthNodeAccessor.probe, generateErc20Req,
      dao.Order.ConvertUp, freshRow, sampleOrder, minerManagerNoPeriod, unfundedAccessor,
      fundedAccessor]
  have hok : minerManagerNoPeriod.probeSucceeded (freshRow.ConvertUp emptyOrderState)
      = true := by decide
  obtain ⟨h2, h3⟩ := MinerOrders_of_batch_through minerManagerNoPeriod 7 1 2 10 [10] rfl
  rw [minerManagerNoPeriod_minerStates] at h2 h3
  simp only [List.filter_cons, hok, hfund, Bool.not_true, Bool.and_false, Bool.and_self,
    if_true, List.filter_nil, List.map_cons, List.map_nil] at h2 h3
  have hnone : minerManagerNegativePeriod.minerStates 7 1 2 10 [] = [] := by decide
  refine ⟨by decide, rfl, by decide, ?_, ?_, by decide, by decide, rfl, rfl, ?_, by decide⟩
  · rw [h2]
    rfl
  · rw [h3]
    decide
  · rw [MinerOrders_of_no_state minerManagerNegativePeriod 7 1 2 10 [] hnone]
    decide

/-! ### Ring-mined events -/

/-- C20: for every ring-mined event, `handleRingMined` changes no order row (nor
any fill, cancel or block row): the only change it can make is to append the
converted record to the ring-mined table; and it returns an error exactly when
the conversion fails or the insertion is rejected, in which case the store is
unchanged. -/
theorem handleRingMined_archives_only (om : OrderManagerImpl)
    (ConvertDown : RingMinedEvent → Option dao.RingMinedEvent) (event : RingMinedEvent) :
    (om.handleRingMined ConvertDown event).1.rds.orders = om.rds.orders
      ∧ (om.handleRingMined ConvertDown event).1.rds.fills = om.rds.fills
      ∧ (om.handleRingMined ConvertDown event).1.rds.cancels = om.rds.cancels
      ∧ (om.handleRingMined ConvertDown event).1.rds.blocks = om.rds.blocks
      ∧ ((om.handleRingMined ConvertDown event).2 ≠ none ↔
          (ConvertDown event = none
            ∨ ∃ model, ConvertDown event = some model ∧ om.rds.AddRingMinedEvent model = none))
      ∧ ((om.handleRingMined ConvertDown event).2 ≠ none →
          (om.handleRingMined ConvertDown event).1.rds = om.rds)
      ∧ ((om.handleRingMined ConvertDown event).2 = none →
          ∃ model, ConvertDown event = some model
            ∧ (om.handleRingMined ConvertDown event).1.rds.ringMineds
                = om.rds.ringMineds ++ [model]) := by
  unfold OrderManagerImpl.handleRingMined
  cases hc : ConvertDown event with
  | none => simp
  | some model =>
    cases ha : om.rds.AddRingMinedEvent model with
    | none => simp [ha]
    | some rds1 =>
      have hadd := ha
      unfold dao.RdsService.AddRingMinedEvent at hadd
      split at hadd
      · cases hadd
      · have h1 := Option.some.inj hadd
        subst h1
        simp [ha]

/-! ### The block a new order is marked from -/

/-- C16, as stated, fails at two inputs.  First, the chain head of the store is
the block 100, the new order arrives with `updatedBlock = 90`, it is not
finished and its funds are insufficient (balance 0, allowance 0), and the
stored `minerBlockMark` is `90 + AccountPeriod = 93`, not
`100 + AccountPeriod = 103`: the handler takes `updatedBlock` from the incoming
state and never reads the chain head.  Second, the chain head and the incoming
`updatedBlock` are both `2^63 - 1`, the greatest `int64`, and the stored
`minerBlockMark` is `-9223372036854775806`, not
`updatedBlock + AccountPeriod = 2^63 + 2`: the sum is taken in `int64` and
wraps. -/
theorem handleGatewayOrder_marks_from_incoming_block :
    gatewayManagerUnfundedAt100.currentHead = 100
      ∧ gatewayManagerUnfundedAt100.options.AccountPeriod = 3
      ∧ gatewayManagerUnfundedAt100.rds.GetOrderByHash staleInput.RawOrder.Hash = none
      ∧ gatewayManagerUnfundedAt100.IsOrderFullFinished (gatewayState staleInput 0) = false
      ∧ gatewayManagerUnfundedAt100.IsFundInsufficient
          (calculateAmountS (gatewayState staleInput 0)
            (gatewayManagerUnfundedAt100.gatewayProbe staleInput)) = true
      ∧ (gatewayManagerUnfundedAt100.handleGatewayOrder staleInput).err = none
      ∧ (gatewayManagerUnfundedAt100.handleGatewayOrder staleInput).om.rds.GetOrderByHash 10
          = some { freshRow with Status := OrderStatus.ORDER_PARTIAL, UpdatedBlock := 90,
                                 MinerBlockMark := 93 }
      ∧ (93 : Int) ≠ gatewayManagerUnfundedAt100.currentHead
          + gatewayManagerUnfundedAt100.options.AccountPeriod
      ∧ gatewayManagerUnfundedAtMax.currentHead = 9223372036854775807
      ∧ maxBlockInput.UpdatedBlock = gatewayManagerUnfundedAtMax.currentHead
      ∧ gatewayManagerUnfundedAtMax.options.AccountPeriod = 3
      ∧ gatewayManagerUnfundedAtMax.rds.GetOrderByHash maxBlockInput.RawOrder.Hash = none
      ∧ gatewayManagerUnfundedAtMax.IsOrderFullFinished (gatewayState maxBlockInput 0) = false
      ∧ gatewayManagerUnfundedAtMax.IsFundInsufficient
          (calculateAmountS (gatewayState maxBlockInput 0)
            (gatewayManagerUnfundedAtMax.gatewayProbe maxBlockInput)) = true
      ∧ (gatewayManagerUnfundedAtMax.handleGatewayOrder maxBlockInput).err = none
      ∧ (gatewayManagerUnfundedAtMax.handleGatewayOrder maxBlockInput).om.rds.GetOrderByHash 10
          = some { freshRow with Status := OrderStatus.ORDER_PARTIAL,
                                 UpdatedBlock := 9223372036854775807,
                                 MinerBlockMark := -9223372036854775806 }
      ∧ (-9223372036854775806 : Int) ≠ maxBlockInput.UpdatedBlock
          + gatewayManagerUnfundedAtMax.options.AccountPeriod := by
  have hfin : gatewayManagerUnfundedAt100.IsOrderFullFinished (gatewayState staleInput 0)
      = false := by
    simp [OrderManagerImpl.IsOrderFullFinished, OrderManagerImpl.valueOfRemainAmount,
      gatewayState, staleInput, gatewayInput, sampleOrder, gatewayManager,
      gatewayManagerUnfunded, gatewayManagerUnfundedAt100]
  have hfund : gatewayManagerUnfundedAt100.IsFundInsufficient
      (calculateAmountS (gatewayState staleInput 0)
        (gatewayManagerUnfundedAt100.gatewayProbe staleInput)) = true := by
    simp [OrderManagerImpl.IsFundInsufficient, calculateAmountS, OrderManagerImpl.gatewayProbe,
      ethaccessor.EthNodeAccessor.probe, generateErc20Req, gatewayState, staleInput,
      gatewayInput, sampleOrder, gatewayManager, gatewayManagerUnfunded,
      gatewayManagerUnfundedAt100, fundedAccessor]
  have hfund' : gatewayManagerUnfundedAt100.IsFundInsufficient
      (calculateAmountS { gatewayState staleInput 0 with Status := OrderStatus.ORDER_PARTIAL }
        (gatewayManagerUnfundedAt100.gatewayProbe staleInput)) = true := by
    exact (IsFundInsufficient_congr gatewayManagerUnfundedAt100 rfl rfl).trans hfund
  have hrun := @handleGatewayOrder_of_probed gatewayManagerUnfundedAt100 staleInput 0 rfl rfl
    hfin rfl (by decide)
  rw [hfund'] at hrun
  have hfinMax : gatewayManagerUnfundedAtMax.IsOrderFullFinished (gatewayState maxBlockInput 0)
      = false := by
    simp [OrderManagerImpl.IsOrderFullFinished, OrderManagerImpl.valueOfRemainAmount,
      gatewayState, maxBlockInput, gatewayInput, sampleOrder, gatewayManager,
      gatewayManagerUnfunded, gatewayManagerUnfundedAtMax]
  have hfundMax : gatewayManagerUnfundedAtMax.IsFundInsufficient
      (calculateAmountS (gatewayState maxBlockInput 0)
        (gatewayManagerUnfundedAtMax.gatewayProbe maxBlockInput)) = true := by
    simp [OrderManagerImpl.IsFundInsufficient, calculateAmountS, OrderManagerImpl.gatewayProbe,
      ethaccessor.EthNodeAccessor.probe, generateErc20Req, gatewayState, maxBlockInput,
      gatewayInput, sampleOrder, gatewayManager, gatewayManagerUnfunded,
      gatewayManagerUnfundedAtMax, fundedAccessor]
  have hfundMax' : gatewayManagerUnfundedAtMax.IsFundInsufficient
      (calculateAmountS { gatewayState maxBlockInput 0 with Status := OrderStatus.ORDER_PARTIAL }
        (gatewayManagerUnfundedAtMax.gatewayProbe maxBlockInput)) = true := by
    exact (IsFundInsufficient_congr gatewayManagerUnfundedAtMax rfl rfl).trans hfundMax
  have hrunMax := @handleGatewayOrder_of_probed gatewayManagerUnfundedAtMax maxBlockInput 0
    rfl rfl hfinMax rfl (by decide)
  rw [hfundMax'] at hrunMax
  refine ⟨by decide, rfl, rfl, hfin, hfund, ?_, ?_, by decide, by decide, by decide, rfl, rfl,
    hfinMax, hfundMax, ?_, ?_, by decide⟩
  · rw [hrun]
    rfl
  · rw [hrun]
    rfl
  · rw [hrunMax]
    rfl
  · rw [hrunMax]
    rfl

/-! ### The block a cancel stores -/

/-- C25, checked against the code: the claim says an accepted cancel at block `b`
stores `b` as the row's `updatedBlock`, as a fill does.  In the code
`handleOrderCancelled` never assigns `state.UpdatedBlock`: for every manager and
every accepted cancel the stored row keeps the block it held before, whereas for
every accepted fill the stored row holds the fill's block.  On the order stored
at block 100, the accepted cancel of block 103 leaves `updatedBlock` 100. -/
theorem handleOrderCancelled_keeps_updated_block :
    (∀ (om : OrderManagerImpl) (event : OrderCancelledEvent),
        (om.handleOrderCancelled event).2 = none →
        ∃ model : dao.Order, om.rds.GetOrderByHash event.OrderHash = some model
          ∧ ((om.handleOrderCancelled event).1.rds.GetOrderByHash event.OrderHash).map
              (fun row => row.UpdatedBlock) = some model.UpdatedBlock)
      ∧ (∀ (om : OrderManagerImpl) (event : OrderFilledEvent),
        (om.handleOrderFilled event).2 = none →
        ((om.handleOrderFilled event).1.rds.GetOrderByHash event.OrderHash).map
            (fun row => row.UpdatedBlock) = some event.Blocknumber)
      ∧ ((s1Manager 1).handleOrderCancelled cancel1000).2 = none
      ∧ cancel1000.Blocknumber = 103
      ∧ ((s1Manager 1).rds.GetOrderByHash cancel1000.OrderHash).map
          (fun row => row.UpdatedBlock) = some 100
      ∧ (((s1Manager 1).handleOrderCancelled cancel1000).1.rds.GetOrderByHash
          cancel1000.OrderHash).map (fun row => row.UpdatedBlock) = some 100 := by
  have hcancel : ∀ (om : OrderManagerImpl) (event : OrderCancelledEvent),
      (om.handleOrderCancelled event).2 = none →
      ∃ model : dao.Order, om.rds.GetOrderByHash event.OrderHash = some model
        ∧ ((om.handleOrderCancelled event).1.rds.GetOrderByHash event.OrderHash).map
            (fun row => row.UpdatedBlock) = some model.UpdatedBlock := by
    intro om event hacc
    obtain ⟨hnew, model, hget, hst⟩ := handleOrderCancelled_accepted hacc
    refine ⟨model, hget, ?_⟩
    rw [GetOrderByHash_handleOrderCancelled hnew hget hst]
    rfl
  have hacc : ((s1Manager 1).handleOrderCancelled cancel1000).2 = none := by
    rw [@handleOrderCancelled_of_legal (s1Manager 1) cancel1000 freshRow rfl rfl (by decide)]
  refine ⟨hcancel, ?_, hacc, rfl, rfl, ?_⟩
  · intro om event hacc
    obtain ⟨hnew, model, hget, hst⟩ := handleOrderFilled_accepted hacc
    rw [GetOrderByHash_handleOrderFilled hnew hget hst]
    rfl
  · obtain ⟨model, hget, hrow⟩ := hcancel (s1Manager 1) cancel1000 hacc
    have hmodel : model = freshRow := by
      have h : (s1Manager 1).rds.GetOrderByHash cancel1000.OrderHash = some freshRow := rfl
      rw [h] at hget
      cases hget
      rfl
    rw [hrow, hmodel]
    rfl

end ordermanager

/-! ### The account manager -/

namespace market

/-- Assigning a key that is present keeps the set of present keys. -/
theorem setKey_isSome {α : Type} (m : String → Option α) (key : String) (value : α)
    (h : (m key).isSome = true) (k : String) :
    (market.setKey m key value k).isSome = (m k).isSome := by
  unfold market.setKey
  split_ifs with hk
  · rw [hk, h]
    rfl
  · rfl

/-- Assigning a key leaves the other keys as they were. -/
theorem setKey_other {α : Type} (m : String → Option α) (key : String) (value : α)
    (k : String) (hk : k ≠ key) : market.setKey m key value k = m k := by
  unfold market.setKey
  rw [if_neg hk]

/-- The assigned key holds the assigned value. -/
theorem setKey_self {α : Type} (m : String → Option α) (key : String) (value : α) :
    market.setKey m key value key = some value := by
  unfold market.setKey
  rw [if_pos rfl]

/-- An update of a balance keeps the cached keys, the block number, the accessor
and the tables. -/
theorem updateBalance_frame (a : market.AccountManager) (event : types.TransferEvent)
    (isAdd : Bool) :
    (∀ k, ((a.updateBalance event isAdd).1.c k).isSome = (a.c k).isSome)
      ∧ (a.updateBalance event isAdd).1.newestBlockNumber = a.newestBlockNumber
      ∧ (a.updateBalance event isAdd).1.env = a.env := by
  unfold market.AccountManager.updateBalance
  simp only
  generalize (if (!isAdd) = true then a.env.AddressString event.From
    else a.env.AddressString event.To) = address
  by_cases halias : a.env.AddressToAlias (a.env.AddressString event.ContractAddress) = ""
  · rw [if_pos halias]
    exact ⟨fun _ => rfl, rfl, rfl⟩
  · rw [if_neg halias]
    cases hc : a.c address with
    | none => exact ⟨fun _ => rfl, rfl, rfl⟩
    | some account =>
      have hsome : (a.c address).isSome = true := by rw [hc]; rfl
      dsimp only
      cases hb : account.Balances
          (a.env.AddressToAlias (a.env.AddressString event.ContractAddress)) with
      | none => exact ⟨fun k => setKey_isSome _ _ _ hsome k, rfl, rfl⟩
      | some balance =>
        dsimp only
        cases hbb : balance.Balance with
        | none => exact ⟨fun _ => rfl, rfl, rfl⟩
        | some oldBalance => exact ⟨fun k => setKey_isSome _ _ _ hsome k, rfl, rfl⟩

/-- An update of an allowance keeps the cached keys and the block number. -/
theorem updateAllowance_frame (a : market.AccountManager) (event : types.ApprovalEvent) :
    (∀ k, ((a.updateAllowance event).1.c k).isSome = (a.c k).isSome)
      ∧ (a.updateAllowance event).1.newestBlockNumber = a.newestBlockNumber := by
  unfold market.AccountManager.updateAllowance
  simp only
  split_ifs with hfail hsp
  · exact ⟨fun _ => rfl, rfl⟩
  · exact ⟨fun _ => rfl, rfl⟩
  · cases hc : a.c (a.env.AddressString event.Owner) with
    | none => exact ⟨fun _ => rfl, rfl⟩
    | some account =>
      have hsome : (a.c (a.env.AddressString event.Owner)).isSome = true := by rw [hc]; rfl
      dsimp only
      exact ⟨fun k => setKey_isSome _ _ _ hsome k, rfl⟩

/-- The manager a transfer that is not taken for a reorganisation leaves: the
second update runs on what the first left, unless the first panicked. -/
theorem HandleTokenTransfer_state (a : market.AccountManager) (event : types.TransferEvent)
    (h : ¬ event.Blocknumber < a.newestBlockNumber) :
    (a.HandleTokenTransfer event).1 = (a.updateBalance event true).1
      ∨ (a.HandleTokenTransfer event).1
          = ((a.updateBalance event true).1.updateBalance event false).1 := by
  unfold market.AccountManager.HandleTokenTransfer
  rw [if_neg h]
  rcases hfirst : a.updateBalance event true with ⟨a1, r1⟩
  cases r1 with
  | panicked cause => exact Or.inl rfl
  | returned e1 =>
    right
    rcases hsecond : a1.updateBalance event false with ⟨a2, r2⟩
    cases r2 with
    | panicked cause => simp [hsecond]
    | returned e2 => simp [hsecond]

/-- A transfer below the newest block number flushes the cache. -/
theorem HandleTokenTransfer_of_older (a : market.AccountManager) (event : types.TransferEvent)
    (h : event.Blocknumber < a.newestBlockNumber) :
    a.HandleTokenTransfer event
      = ({ a with c := fun _ => none, newestBlockNumber := -1 }, go.Exec.returned none) := by
  unfold market.AccountManager.HandleTokenTransfer
  rw [if_pos h]

/-- An approval below the newest block number flushes the cache. -/
theorem HandleApprove_of_older (a : market.AccountManager) (event : types.ApprovalEvent)
    (h : event.Blocknumber < a.newestBlockNumber) :
    a.HandleApprove event
      = ({ a with c := fun _ => none, newestBlockNumber := -1 }, go.Exec.returned none) := by
  unfold market.AccountManager.HandleApprove
  rw [if_pos h]

/-- C21: for every transfer and every approval the account manager handles:
when the block number of the event is strictly below `newestBlockNumber`, the
handler leaves the cache empty, sets `newestBlockNumber` to -1, a value at most
0, and returns nil, so that no balance or allowance is written; when it is not
below, the cache is not flushed (the keys cached after are those cached before)
and `newestBlockNumber` is unchanged. -/
theorem handlers_flush_on_older_block_only (a : market.AccountManager)
    (transfer : types.TransferEvent) (approval : types.ApprovalEvent) :
    (transfer.Blocknumber < a.newestBlockNumber →
        (∀ k, (a.HandleTokenTransfer transfer).1.c k = none)
          ∧ (a.HandleTokenTransfer transfer).1.newestBlockNumber = -1
          ∧ (a.HandleTokenTransfer transfer).1.newestBlockNumber ≤ 0
          ∧ (a.HandleTokenTransfer transfer).2 = go.Exec.returned none)
      ∧ (¬ transfer.Blocknumber < a.newestBlockNumber →
        (∀ k, ((a.HandleTokenTransfer transfer).1.c k).isSome = (a.c k).isSome)
          ∧ (a.HandleTokenTransfer transfer).1.newestBlockNumber = a.newestBlockNumber)
      ∧ (approval.Blocknumber < a.newestBlockNumber →
        (∀ k, (a.HandleApprove approval).1.c k = none)
          ∧ (a.HandleApprove approval).1.newestBlockNumber = -1
          ∧ (a.HandleApprove approval).1.newestBlockNumber ≤ 0
          ∧ (a.HandleApprove approval).2 = go.Exec.returned none)
      ∧ (¬ approval.Blocknumber < a.newestBlockNumber →
        (∀ k, ((a.HandleApprove approval).1.c k).isSome = (a.c k).isSome)
          ∧ (a.HandleApprove approval).1.newestBlockNumber = a.newestBlockNumber) := by
  refine ⟨?_, ?_, ?_, ?_⟩
  · intro h
    rw [HandleTokenTransfer_of_older a transfer h]
    exact ⟨fun _ => rfl, rfl, show (-1 : Int) ≤ 0 by decide, rfl⟩
  · intro h
    have h1 := updateBalance_frame a transfer true
    have h2 := updateBalance_frame (a.updateBalance transfer true).1 transfer false
    rcases HandleTokenTransfer_state a transfer h with hs | hs
    · rw [hs]
      exact ⟨h1.1, h1.2.1⟩
    · rw [hs]
      exact ⟨fun k => (h2.1 k).trans (h1.1 k), h2.2.1.trans h1.2.1⟩
  · intro h
    rw [HandleApprove_of_older a approval h]
    exact ⟨fun _ => rfl, rfl, show (-1 : Int) ≤ 0 by decide, rfl⟩
  · intro h
    have h1 := updateAllowance_frame a approval
    have hs : (a.HandleApprove approval).1 = (a.updateAllowance approval).1 := by
      unfold market.AccountManager.HandleApprove
      rw [if_neg h]
      rcases hrun : a.updateAllowance approval with ⟨a1, err⟩
      cases err <;> rfl
    rw [hs]
    exact h1

/-- A cached balance that is not nil sits in a cached account, under its token. -/
theorem cachedBalance_eq_some {a : market.AccountManager} {address token : String} {b : Int}
    (h : a.cachedBalance address token = some b) :
    ∃ (account : market.Account) (balance : market.Balance), a.c address = some account
      ∧ account.Balances token = some balance ∧ balance.Balance = some b := by
  unfold market.AccountManager.cachedBalance at h
  cases hc : a.c address with
  | none => rw [hc] at h; cases h
  | some account =>
    rw [hc] at h
    dsimp only at h
    cases hb : account.Balances token with
    | none => rw [hb] at h; cases h
    | some balance =>
      rw [hb] at h
      exact ⟨account, balance, rfl, hb, h⟩

/-- The update for the recipient (`isAdd`) of a cached balance `b` leaves `b - v`. -/
theorem updateBalance_recipient (a : market.AccountManager) (event : types.TransferEvent)
    (b : Int)
    (halias : a.env.AddressToAlias (a.env.AddressString event.ContractAddress) ≠ "")
    (hb : a.cachedBalance (a.env.AddressString event.To)
      (a.env.AddressToAlias (a.env.AddressString event.ContractAddress)) = some b) :
    (a.updateBalance event true).1.cachedBalance (a.env.AddressString event.To)
        (a.env.AddressToAlias (a.env.AddressString event.ContractAddress))
      = some (b - event.Value) := by
  obtain ⟨account, balance, hc, hbal, hbb⟩ := cachedBalance_eq_some hb
  unfold market.AccountManager.updateBalance
  simp only [Bool.not_true, Bool.false_eq_true, if_false, if_neg halias, hc, hbal, hbb, if_true]
  simp only [market.AccountManager.cachedBalance, setKey_self]

/-- The update for the sender (not `isAdd`) of a cached balance `b` leaves `b + v`. -/
theorem updateBalance_sender (a : market.AccountManager) (event : types.TransferEvent)
    (b : Int)
    (halias : a.env.AddressToAlias (a.env.AddressString event.ContractAddress) ≠ "")
    (hb : a.cachedBalance (a.env.AddressString event.From)
      (a.env.AddressToAlias (a.env.AddressString event.ContractAddress)) = some b) :
    (a.updateBalance event false).1.cachedBalance (a.env.AddressString event.From)
        (a.env.AddressToAlias (a.env.AddressString event.ContractAddress))
      = some (b + event.Value) := by
  obtain ⟨account, balance, hc, hbal, hbb⟩ := cachedBalance_eq_some hb
  unfold market.AccountManager.updateBalance
  simp only [Bool.not_false, if_true, if_neg halias, hc, hbal, hbb, Bool.false_eq_true, if_false]
  simp only [market.AccountManager.cachedBalance, setKey_self]

/-- An update of a balance leaves the accounts under other keys as they were. -/
theorem updateBalance_other (a : market.AccountManager) (event : types.TransferEvent)
    (isAdd : Bool) (k : String)
    (hk : k ≠ (if (!isAdd) = true then a.env.AddressString event.From
      else a.env.AddressString event.To)) :
    (a.updateBalance event isAdd).1.c k = a.c k := by
  unfold market.AccountManager.updateBalance
  simp only
  generalize (if (!isAdd) = true then a.env.AddressString event.From
    else a.env.AddressString event.To) = address at hk
  by_cases halias : a.env.AddressToAlias (a.env.AddressString event.ContractAddress) = ""
  · rw [if_pos halias]
  · rw [if_neg halias]
    cases hc : a.c address with
    | none => rfl
    | some account =>
      dsimp only
      cases hb : account.Balances
          (a.env.AddressToAlias (a.env.AddressString event.ContractAddress)) with
      | none => exact setKey_other _ _ _ k hk
      | some balance =>
        dsimp only
        cases hbb : balance.Balance with
        | none => rfl
        | some oldBalance => exact setKey_other _ _ _ k hk

/-- C22, on the code: where the claim has the recipient of a transfer end with
`b + v` and the sender with `b - v`, `updateBalance` subtracts under `isAdd`
and adds otherwise.  For every transfer that is not taken for a reorganisation,
on a supported token, whose recipient and sender have different cache keys, a
cached recipient with balance `b` ends with `b - v`; and the transfer of 30
between two cached accounts of 100 each leaves the recipient with 70 and the
sender with 130. -/
theorem updateBalance_subtracts_for_recipient :
    (∀ (a : market.AccountManager) (event : types.TransferEvent) (b : Int),
        ¬ event.Blocknumber < a.newestBlockNumber →
        a.env.AddressToAlias (a.env.AddressString event.ContractAddress) ≠ "" →
        a.env.AddressString event.To ≠ a.env.AddressString event.From →
        a.cachedBalance (a.env.AddressString event.To)
          (a.env.AddressToAlias (a.env.AddressString event.ContractAddress)) = some b →
        (a.HandleTokenTransfer event).1.cachedBalance (a.env.AddressString event.To)
            (a.env.AddressToAlias (a.env.AddressString event.ContractAddress))
          = some (b - event.Value))
      ∧ ¬ market.transfer30.Blocknumber < market.lrcManager.newestBlockNumber
      ∧ market.transfer30.Value = 30
      ∧ market.lrcManager.cachedBalance "21" "LRC" = some 100
      ∧ market.lrcManager.cachedBalance "20" "LRC" = some 100
      ∧ (market.lrcManager.HandleTokenTransfer market.transfer30).2 = go.Exec.returned none
      ∧ (market.lrcManager.HandleTokenTransfer market.transfer30).1.cachedBalance "21" "LRC"
          = some 70
      ∧ (market.lrcManager.HandleTokenTransfer market.transfer30).1.cachedBalance "20" "LRC"
          = some 130 := by
  refine ⟨?_, by decide, by decide, by decide, by decide, by decide, by decide, by decide⟩
  intro a event b hblock halias hkeys hb
  have h1 := updateBalance_recipient a event b halias hb
  have hframe := updateBalance_frame a event true
  rcases HandleTokenTransfer_state a event hblock with hs | hs
  · rw [hs]
    exact h1
  · rw [hs]
    have hother := updateBalance_other (a.updateBalance event true).1 event false
      (a.env.AddressString event.To) (by
        rw [hframe.2.2]
        simpa using hkeys)
    unfold market.AccountManager.cachedBalance at h1 ⊢
    rw [hother]
    exact h1

/-- C27, on the code: where the claim has `HandleApprove` return nil for an
approval to the registered delegate, the handler evaluates `err.Error()` on the
nil error of the successful update.  For every approval whose block number is
not below `newestBlockNumber`, whose delegate lookup succeeds and answers the
spender of the event, `HandleApprove` panics with a nil dereference; no approval
that is not below `newestBlockNumber` makes it return nil; and the approval of
500 to the delegate 8 panics after the allowance 500 was cached. -/
theorem HandleApprove_dereferences_nil_error :
    (∀ (a : market.AccountManager) (event : types.ApprovalEvent),
        ¬ event.Blocknumber < a.newestBlockNumber →
        a.accessor.GetSenderAddressFails
          (a.env.HexToAddress (a.env.ContractVersionConfig "v1.0")) = false →
        a.accessor.GetSenderAddress
          (a.env.HexToAddress (a.env.ContractVersionConfig "v1.0")) = event.Spender →
        (a.HandleApprove event).2 = go.Exec.panicked go.Panic.nilDereference)
      ∧ (∀ (a : market.AccountManager) (event : types.ApprovalEvent),
        ¬ event.Blocknumber < a.newestBlockNumber →
        (a.HandleApprove event).2 ≠ go.Exec.returned none)
      ∧ ¬ market.approval500.Blocknumber < market.lrcManager.newestBlockNumber
      ∧ market.lrcManager.accessor.GetSenderAddressFails
          (market.lrcManager.env.HexToAddress
            (market.lrcManager.env.ContractVersionConfig "v1.0")) = false
      ∧ market.lrcManager.accessor.GetSenderAddress
          (market.lrcManager.env.HexToAddress
            (market.lrcManager.env.ContractVersionConfig "v1.0")) = market.approval500.Spender
      ∧ (market.lrcManager.HandleApprove market.approval500).2
          = go.Exec.panicked go.Panic.nilDereference
      ∧ (market.lrcManager.HandleApprove market.approval500).1.cachedAllowance "20" "LRC"
          = some 500 := by
  refine ⟨?_, ?_, by decide, by decide, by decide, by decide, by decide⟩
  · intro a event hblock hfail hsp
    have hupd : (a.updateAllowance event).2 = none := by
      unfold market.AccountManager.updateAllowance
      simp only [hfail, Bool.false_eq_true, if_false, hsp, ne_eq, not_true_eq_false]
      cases a.c (a.env.AddressString event.Owner) <;> rfl
    unfold market.AccountManager.HandleApprove
    rw [if_neg hblock]
    rcases hrun : a.updateAllowance event with ⟨a1, err⟩
    rw [hrun] at hupd
    cases hupd
    rfl
  · intro a event hblock
    unfold market.AccountManager.HandleApprove
    rw [if_neg hblock]
    rcases hrun : a.updateAllowance event with ⟨a1, err⟩
    cases err with
    | none => simp
    | some e => simp

end market

/-! ### Contract types -/

namespace ethaccessor

/-- A counting loop that appends one fill per turn and sums a weight, none of
its turns panicking, returns the fills in order and the sum of the weights. -/
theorem foldlM_append_some {α : Type} (f : Nat → Option α) (g : Nat → α) (w : α → Int)
    (xs : List Nat) (h : ∀ i ∈ xs, f i = some (g i)) (acc : List α × Int) :
    xs.foldlM (fun (acc : List α × Int) i => (f i).map (fun x => (acc.1 ++ [x], acc.2 + w x))) acc
      = some (acc.1 ++ xs.map g, acc.2 + (xs.map (fun i => w (g i))).sum) := by
  induction xs generalizing acc with
  | nil => simp
  | cons x xs ih =>
    have hx := h x (List.mem_cons_self x xs)
    have hxs : ∀ i ∈ xs, f i = some (g i) := fun i hi => h i (List.mem_cons_of_mem x hi)
    simp only [List.foldlM_cons, hx, Option.map_some', Option.bind_eq_bind, Option.some_bind]
    rw [ih hxs]
    simp [add_assoc]

/-- Past the length check no turn of `RingMinedEvent.ConvertDown` indexes out of
range, and the fill of index `i` carries the hash and the six amounts of that
index. -/
theorem RingMinedEvent.fill_of_lt (e : ethaccessor.RingMinedEvent) (i : Nat)
    (hlen : e.OrderHashList.length = e.AmountsList.length) (hi : i < e.OrderHashList.length)
    (h2 : 2 ≤ e.OrderHashList.length) :
    ∃ fill, e.fill e.OrderHashList.length i = some fill
      ∧ ∀ (hash : common.Hash) (amounts : Fin 6 → Int), e.OrderHashList[i]? = some hash → e.AmountsList[i]? = some amounts →
        fill.OrderHash = hash ∧ fill.AmountS = amounts 0 ∧ fill.AmountB = amounts 1
          ∧ fill.LrcReward = amounts 2 ∧ fill.LrcFee = amounts 3 ∧ fill.SplitS = amounts 4
          ∧ fill.SplitB = amounts 5 := by
  have hget : ∀ j (hj : j < e.OrderHashList.length),
      e.OrderHashList[j]? = some e.OrderHashList[j] :=
    fun j hj => List.getElem?_eq_getElem hj
  have hpre : (if i = 0 then e.OrderHashList.length - 1
      else if i = e.OrderHashList.length - 1 then e.OrderHashList.length - 2 else i - 1)
      < e.OrderHashList.length := by
    split_ifs <;> omega
  have hnext : (if i = 0 then 1 else if i = e.OrderHashList.length - 1 then 0 else i + 1)
      < e.OrderHashList.length := by
    split_ifs <;> omega
  have hamt : e.AmountsList[i]? = some e.AmountsList[i] :=
    List.getElem?_eq_getElem (hlen ▸ hi)
  have hf : e.fill e.OrderHashList.length i = some
      { types.OrderFilledEvent.zero with
        Ringhash := e.RingHash
        PreOrderHash := e.OrderHashList[if i = 0 then e.OrderHashList.length - 1
          else if i = e.OrderHashList.length - 1 then e.OrderHashList.length - 2 else i - 1]
        OrderHash := e.OrderHashList[i]
        NextOrderHash := e.OrderHashList[if i = 0 then 1
          else if i = e.OrderHashList.length - 1 then 0 else i + 1]
        RingIndex := e.RingIndex
        AmountS := e.AmountsList[i] 0
        AmountB := e.AmountsList[i] 1
        LrcReward := e.AmountsList[i] 2
        LrcFee := e.AmountsList[i] 3
        SplitS := e.AmountsList[i] 4
        SplitB := e.AmountsList[i] 5 } := by
    simp only [ethaccessor.RingMinedEvent.fill, hget _ hpre, hget _ hnext, hget _ hi, hamt,
      Option.bind_eq_bind, Option.some_bind, Option.pure_def]
  refine ⟨_, hf, ?_⟩
  · intro hash amounts hh ha
    rw [hget _ hi] at hh
    rw [hamt] at ha
    cases hh
    cases ha
    exact ⟨rfl, rfl, rfl, rfl, rfl, rfl, rfl⟩

/-- Reading a list index by index is mapping over it. -/
theorem map_getD_range {α β : Type} (xs : List α) (d : α) (f : α → β) :
    (List.range xs.length).map (fun i => f (xs.getD i d)) = xs.map f := by
  apply List.ext_getElem
  · simp
  · intro i h1 h2
    simp at h1
    simp [List.getD_eq_getElem?_getD, List.getElem?_eq_getElem h1]

/-- C26: `RingMinedEvent.ConvertDown` returns an error if and only if the two
lists differ in length or hold fewer than two entries; otherwise it returns,
without a panic, an event and exactly one fill per order hash, in order, the
fill of index `i` carrying `OrderHashList[i]` and the amounts
`AmountsList[i][0..5]` as `(amountS, amountB, lrcReward, lrcFee, splitS,
splitB)`, with `TradeAmount` the number of orders and `TotalLrcFee` the sum of
the `AmountsList[i][3]`. -/
theorem ConvertDown_returns_fills_in_order (e : ethaccessor.RingMinedEvent) :
    ((∃ err, e.ConvertDown = go.Exec.returned (Except.error err))
        ↔ (e.OrderHashList.length ≠ e.AmountsList.length ∨ e.OrderHashList.length < 2))
      ∧ (¬ (e.OrderHashList.length ≠ e.AmountsList.length ∨ e.OrderHashList.length < 2) →
        ∃ evt list, e.ConvertDown = go.Exec.returned (Except.ok (evt, list))
          ∧ list.length = e.OrderHashList.length
          ∧ (∀ (i : Nat) (hash : common.Hash) (amounts : Fin 6 → Int),
              e.OrderHashList[i]? = some hash → e.AmountsList[i]? = some amounts →
              ∃ fill : types.OrderFilledEvent, list[i]? = some fill ∧ fill.OrderHash = hash
                ∧ fill.AmountS = amounts 0 ∧ fill.AmountB = amounts 1
                ∧ fill.LrcReward = amounts 2 ∧ fill.LrcFee = amounts 3
                ∧ fill.SplitS = amounts 4 ∧ fill.SplitB = amounts 5)
          ∧ evt.TradeAmount = e.OrderHashList.length
          ∧ evt.TotalLrcFee = (e.AmountsList.map (fun amounts => amounts 3)).sum) := by
  have hok : ¬ (e.OrderHashList.length ≠ e.AmountsList.length ∨ e.OrderHashList.length < 2) →
      ∃ evt list, e.ConvertDown = go.Exec.returned (Except.ok (evt, list))
          ∧ list.length = e.OrderHashList.length
          ∧ (∀ (i : Nat) (hash : common.Hash) (amounts : Fin 6 → Int),
              e.OrderHashList[i]? = some hash → e.AmountsList[i]? = some amounts →
              ∃ fill : types.OrderFilledEvent, list[i]? = some fill ∧ fill.OrderHash = hash
                ∧ fill.AmountS = amounts 0 ∧ fill.AmountB = amounts 1
                ∧ fill.LrcReward = amounts 2 ∧ fill.LrcFee = amounts 3
                ∧ fill.SplitS = amounts 4 ∧ fill.SplitB = amounts 5)
          ∧ evt.TradeAmount = e.OrderHashList.length
          ∧ evt.TotalLrcFee = (e.AmountsList.map (fun amounts => amounts 3)).sum := by
    intro hv
    have hlen : e.OrderHashList.length = e.AmountsList.length := by
      by_contra h
      exact hv (Or.inl h)
    have h2 : 2 ≤ e.OrderHashList.length := by
      by_contra h
      exact hv (Or.inr (by omega))
    have hfill : ∀ i ∈ List.range e.OrderHashList.length,
        e.fill e.OrderHashList.length i
          = some ((e.fill e.OrderHashList.length i).getD types.OrderFilledEvent.zero) := by
      intro i hi
      obtain ⟨fill, hf, -⟩ := RingMinedEvent.fill_of_lt e i hlen (List.mem_range.mp hi) h2
      rw [hf]
      rfl
    have hloop := foldlM_append_some (e.fill e.OrderHashList.length)
      (fun i => (e.fill e.OrderHashList.length i).getD types.OrderFilledEvent.zero)
      (fun fill => fill.LrcFee) (List.range e.OrderHashList.length) hfill ([], 0)
    have hrun : e.ConvertDown = go.Exec.returned (Except.ok
        ({ RingIndex := e.RingIndex
           Ringhash := e.RingHash
           Miner := e.Miner
           FeeRecipient := e.FeeRecipient
           IsRinghashReserved := e.IsRingHashReserved
           TotalLrcFee := 0 + ((List.range e.OrderHashList.length).map (fun i =>
             ((e.fill e.OrderHashList.length i).getD types.OrderFilledEvent.zero).LrcFee)).sum
           TradeAmount := (e.OrderHashList.length : Int) },
         [] ++ (List.range e.OrderHashList.length).map (fun i =>
           (e.fill e.OrderHashList.length i).getD types.OrderFilledEvent.zero))) := by
      simp only [ethaccessor.RingMinedEvent.ConvertDown, if_neg hv]
      rw [hloop]
    refine ⟨_, _, hrun, ?_, ?_, ?_, ?_⟩
    · simp
    · intro i hash amounts hh ha
      have hi : i < e.OrderHashList.length := by
        by_contra h
        rw [List.getElem?_eq_none (by omega)] at hh
        cases hh
      obtain ⟨fill, hf, hprops⟩ := RingMinedEvent.fill_of_lt e i hlen hi h2
      refine ⟨fill, ?_, hprops hash amounts hh ha⟩
      simp [List.getElem?_map, List.getElem?_range hi, hf]
    · rfl
    · simp only [List.nil_append, zero_add]
      rw [← map_getD_range e.AmountsList (fun _ => 0) (fun amounts => amounts 3), ← hlen]
      apply congrArg
      apply List.map_congr_left
      intro i hi
      obtain ⟨fill, hf, hprops⟩ := RingMinedEvent.fill_of_lt e i hlen (List.mem_range.mp hi) h2
      have hi2 : i < e.AmountsList.length := hlen ▸ List.mem_range.mp hi
      rw [hf]
      have := hprops _ _ (List.getElem?_eq_getElem (List.mem_range.mp hi))
        (List.getElem?_eq_getElem hi2)
      simp [this.2.2.2.2.1, List.getD_eq_getElem?_getD, List.getElem?_eq_getElem hi2]
  refine ⟨⟨?_, ?_⟩, hok⟩
  · rintro ⟨err, herr⟩
    by_contra hv
    obtain ⟨evt, list, hrun, -⟩ := hok hv
    rw [hrun] at herr
    cases herr
  · intro hv
    exact ⟨ethaccessor.UnpackError.orderHashListLengthInvalid,
      by simp only [ethaccessor.RingMinedEvent.ConvertDown, if_pos hv]⟩

/-- The ring of two orders with the fees 3 and 4 converts to its two fills, each
beside the other, with the total fee 7. -/
theorem ringOfTwo_ConvertDown :
    ethaccessor.ringOfTwo.ConvertDown = go.Exec.returned (Except.ok
      ({ RingIndex := 1, Ringhash := 77, Miner := 5, FeeRecipient := 6,
         IsRinghashReserved := false, TotalLrcFee := 7, TradeAmount := 2 },
       [{ Ringhash := 77, PreOrderHash := 11, OrderHash := 10, NextOrderHash := 11,
          RingIndex := 1, AmountS := 100, AmountB := 200, LrcReward := 1, LrcFee := 3,
          SplitS := 0, SplitB := 0, Blocknumber := 0, TxHash := 0 },
        { Ringhash := 77, PreOrderHash := 10, OrderHash := 11, NextOrderHash := 10,
          RingIndex := 1, AmountS := 200, AmountB := 100, LrcReward := 2, LrcFee := 4,
          SplitS := 0, SplitB := 0, Blocknumber := 0, TxHash := 0 }])) := by
  rfl

/-- A counting loop that appends one order per turn, none of its turns
panicking, returns the orders in order. -/
theorem foldlM_snoc_some {α : Type} (f : Nat → Option α) (g : Nat → α)
    (xs : List Nat) (h : ∀ i ∈ xs, f i = some (g i)) (acc : List α) :
    xs.foldlM (fun (acc : List α) i => (f i).map (fun x => acc ++ [x])) acc
      = some (acc ++ xs.map g) := by
  induction xs generalizing acc with
  | nil => simp
  | cons x xs ih =>
    have hx := h x (List.mem_cons_self x xs)
    have hxs : ∀ i ∈ xs, f i = some (g i) := fun i hi => h i (List.mem_cons_of_mem x hi)
    simp only [List.foldlM_cons, hx, Option.map_some', Option.bind_eq_bind, Option.some_bind]
    rw [ih hxs]
    simp

/-- A counting loop one of whose turns panics returns nothing. -/
theorem foldlM_snoc_none {α : Type} (f : Nat → Option α)
    (xs : List Nat) (h : ∃ i ∈ xs, f i = none) (acc : List α) :
    xs.foldlM (fun (acc : List α) i => (f i).map (fun x => acc ++ [x])) acc = none := by
  induction xs generalizing acc with
  | nil =>
    obtain ⟨i, hi, -⟩ := h
    cases hi
  | cons x xs ih =>
    cases hx : f x with
    | none => simp [List.foldlM_cons, hx]
    | some y =>
      have hxs : ∃ i ∈ xs, f i = none := by
        obtain ⟨i, hi, hf⟩ := h
        rcases List.mem_cons.mp hi with rfl | hi
        · rw [hx] at hf
          cases hf
        · exact ⟨i, hi, hf⟩
      simp only [List.foldlM_cons, hx, Option.map_some', Option.bind_eq_bind, Option.some_bind]
      exact ih hxs _

/-- What the length check of `SubmitRingMethod.ConvertDown` establishes: it says
nothing of `BuyNoMoreThanBList`. -/
theorem SubmitRingMethod.lengths (m : ethaccessor.SubmitRingMethod)
    (h : m.lengthInvalid = false) :
    m.UintArgsList.length = m.AddressList.length
      ∧ m.Uint8ArgsList.length = m.AddressList.length
      ∧ m.VList.length = m.AddressList.length + 1
      ∧ m.SList.length = m.AddressList.length + 1
      ∧ m.RList.length = m.AddressList.length + 1
      ∧ 2 ≤ m.AddressList.length := by
  simp only [ethaccessor.SubmitRingMethod.lengthInvalid, decide_eq_false_iff_not, not_or,
    not_not, not_lt] at h
  omega

/-- Past the length check the turn of index `i` reads every list but
`BuyNoMoreThanBList` in range, and returns an order exactly when that list has
an entry of index `i`. -/
theorem SubmitRingMethod.order_of_lt (m : ethaccessor.SubmitRingMethod)
    (h : m.lengthInvalid = false) (i : Nat) (hi : i < m.AddressList.length) :
    ∃ (addresses next : Fin 2 → common.Address) (uintArgs : Fin 7 → Int)
        (uint8Args : Fin 2 → Nat) (v r s : Nat),
      m.AddressList[i]? = some addresses
        ∧ m.AddressList[(i + 1) % m.AddressList.length]? = some next
        ∧ m.UintArgsList[i]? = some uintArgs
        ∧ m.Uint8ArgsList[i]? = some uint8Args
        ∧ m.order m.AddressList.length i = (m.BuyNoMoreThanBList[i]?).map (fun flag =>
          { types.Order.zero with
            Owner := addresses 0
            TokenS := addresses 1
            TokenB := next 1
            AmountS := uintArgs 0
            AmountB := uintArgs 1
            Timestamp := uintArgs 2
            Ttl := uintArgs 3
            Salt := uintArgs 4
            LrcFee := (uint8Args 1 : Int)
            MarginSplitPercentage := uint8Args 0
            BuyNoMoreThanAmountB := flag
            V := v
            R := r
            S := s }) := by
  obtain ⟨hu, hu8, hv, hs, hr, h2⟩ := SubmitRingMethod.lengths m h
  have hnext : (if i = m.AddressList.length - 1 then 0 else i + 1)
      = (i + 1) % m.AddressList.length := by
    split_ifs with hlast
    · have : i + 1 = m.AddressList.length := by omega
      rw [this, Nat.mod_self]
    · rw [Nat.mod_eq_of_lt (by omega)]
  have hn : (i + 1) % m.AddressList.length < m.AddressList.length :=
    Nat.mod_lt _ (by omega)
  have ha : m.AddressList[i]? = some m.AddressList[i] := List.getElem?_eq_getElem hi
  have hb : m.AddressList[(i + 1) % m.AddressList.length]?
      = some m.AddressList[(i + 1) % m.AddressList.length] := List.getElem?_eq_getElem hn
  have hiu : i < m.UintArgsList.length := by omega
  have hiu8 : i < m.Uint8ArgsList.length := by omega
  have hiv : i < m.VList.length := by omega
  have hir : i < m.RList.length := by omega
  have his : i < m.SList.length := by omega
  have hc : m.UintArgsList[i]? = some m.UintArgsList[i] := List.getElem?_eq_getElem hiu
  have hd : m.Uint8ArgsList[i]? = some m.Uint8ArgsList[i] := List.getElem?_eq_getElem hiu8
  have hvv : m.VList[i]? = some m.VList[i] := List.getElem?_eq_getElem hiv
  have hrr : m.RList[i]? = some m.RList[i] := List.getElem?_eq_getElem hir
  have hss : m.SList[i]? = some m.SList[i] := List.getElem?_eq_getElem his
  refine ⟨_, _, _, _, m.VList[i], m.RList[i], m.SList[i], ha, hb, hc, hd, ?_⟩
  simp only [ethaccessor.SubmitRingMethod.order, hnext, ha, hb, hc, hd, hvv, hrr, hss,
    Option.bind_eq_bind, Option.some_bind, Option.pure_def]
  cases m.BuyNoMoreThanBList[i]? <;> rfl


/-- Past the length check a `BuyNoMoreThanBList` shorter than the address list
makes `ConvertDown` panic. -/
theorem SubmitRingMethod.ConvertDown_of_short (m : ethaccessor.SubmitRingMethod)
    (h : m.lengthInvalid = false) (hflags : m.BuyNoMoreThanBList.length < m.AddressList.length) :
    m.ConvertDown = go.Exec.panicked go.Panic.indexOutOfRange := by
  have hnone : ∃ i ∈ List.range m.AddressList.length, m.order m.AddressList.length i = none := by
    refine ⟨m.BuyNoMoreThanBList.length, List.mem_range.mpr hflags, ?_⟩
    obtain ⟨_, _, _, _, _, _, _, -, -, -, -, ho⟩ :=
      SubmitRingMethod.order_of_lt m h m.BuyNoMoreThanBList.length hflags
    rw [ho, List.getElem?_eq_none (le_refl _)]
    rfl
  simp only [ethaccessor.SubmitRingMethod.ConvertDown, h, Bool.false_eq_true, if_false]
  rw [foldlM_snoc_none _ _ hnone]

/-- Past the length check a `BuyNoMoreThanBList` as long as the address list
makes `ConvertDown` return one order per address entry. -/
theorem SubmitRingMethod.ConvertDown_of_long (m : ethaccessor.SubmitRingMethod)
    (h : m.lengthInvalid = false) (hflags : m.AddressList.length ≤ m.BuyNoMoreThanBList.length) :
    m.ConvertDown = go.Exec.returned (Except.ok ((List.range m.AddressList.length).map
      (fun i => (m.order m.AddressList.length i).getD types.Order.zero))) := by
  have hsome : ∀ i ∈ List.range m.AddressList.length, m.order m.AddressList.length i
      = some ((m.order m.AddressList.length i).getD types.Order.zero) := by
    intro i hi
    have hi := List.mem_range.mp hi
    obtain ⟨_, _, _, _, _, _, _, -, -, -, -, ho⟩ := SubmitRingMethod.order_of_lt m h i hi
    rw [ho, List.getElem?_eq_getElem (lt_of_lt_of_le hi hflags)]
    rfl
  simp only [ethaccessor.SubmitRingMethod.ConvertDown, h, Bool.false_eq_true, if_false]
  rw [foldlM_snoc_some _ _ _ hsome]
  rfl

/-- A `ConvertDown` that returned orders passed the length check, found
`BuyNoMoreThanBList` long enough and returned one order per turn. -/
theorem SubmitRingMethod.ConvertDown_ok (m : ethaccessor.SubmitRingMethod)
    (list : List types.Order) (hrun : m.ConvertDown = go.Exec.returned (Except.ok list)) :
    m.lengthInvalid = false ∧ m.AddressList.length ≤ m.BuyNoMoreThanBList.length
      ∧ list = (List.range m.AddressList.length).map
        (fun i => (m.order m.AddressList.length i).getD types.Order.zero) := by
  have h : m.lengthInvalid = false := by
    cases hv : m.lengthInvalid with
    | false => rfl
    | true =>
      simp only [ethaccessor.SubmitRingMethod.ConvertDown, hv, if_true] at hrun
      cases hrun
  have hflags : m.AddressList.length ≤ m.BuyNoMoreThanBList.length := by
    by_contra hlt
    rw [SubmitRingMethod.ConvertDown_of_short m h (by omega)] at hrun
    cases hrun
  rw [SubmitRingMethod.ConvertDown_of_long m h hflags] at hrun
  cases hrun
  exact ⟨h, hflags, rfl⟩

/-- C23, on the code: where the claim has the decoded order keep
`UintArgsList[i][5]` as its `LrcFee`, `SubmitRingMethod.ConvertDown` assigns
`Uint8ArgsList[i][1]` over it.  The call of two orders with fees 7 and 8 and
fee selections 1 and 0 passes the length check and decodes to orders with
`LrcFee` 1 and 0; and for every call and every index, the order `ConvertDown`
returns at that index has `LrcFee` equal to `Uint8ArgsList[i][1]`. -/
theorem ConvertDown_overwrites_lrcFee :
    ethaccessor.submitRingOfTwo.lengthInvalid = false
      ∧ ethaccessor.submitRingOfTwo.UintArgsList.map (fun uintArgs => uintArgs 5) = [7, 8]
      ∧ ethaccessor.submitRingOfTwo.Uint8ArgsList.map (fun uint8Args => uint8Args 1) = [1, 0]
      ∧ (∃ list, ethaccessor.submitRingOfTwo.ConvertDown = go.Exec.returned (Except.ok list)
          ∧ list.map (fun order => order.LrcFee) = [1, 0])
      ∧ ∀ (m : ethaccessor.SubmitRingMethod) (list : List types.Order) (i : Nat)
          (order : types.Order) (uint8Args : Fin 2 → Nat),
          m.ConvertDown = go.Exec.returned (Except.ok list) → list[i]? = some order →
          m.Uint8ArgsList[i]? = some uint8Args → order.LrcFee = (uint8Args 1 : Int) := by
  refine ⟨by decide, by decide, by decide, ⟨_, rfl, by decide⟩, ?_⟩
  intro m list i order uint8Args hrun hlist hargs
  obtain ⟨h, hflags, rfl⟩ := SubmitRingMethod.ConvertDown_ok m list hrun
  have hi : i < m.AddressList.length := by
    by_contra hge
    rw [List.getElem?_eq_none (by simpa using hge)] at hlist
    cases hlist
  obtain ⟨_, _, _, u8, _, _, _, -, -, -, hu8, ho⟩ := SubmitRingMethod.order_of_lt m h i hi
  rw [hu8] at hargs
  cases hargs
  rw [List.getElem?_map, List.getElem?_range hi, Option.map_some', ho,
    List.getElem?_eq_getElem (lt_of_lt_of_le hi hflags)] at hlist
  cases hlist
  rfl

/-- C30, on the code: where the claim has every indexed list hold an entry at
each index once the length check passed, the check of
`SubmitRingMethod.ConvertDown` leaves `BuyNoMoreThanBList` out.  The call of two
orders with an empty `BuyNoMoreThanBList` passes the check and panics on an
index out of range; for every call that passes the check, `ConvertDown` panics
if and only if `BuyNoMoreThanBList` is shorter than the address list; and
whenever orders are returned, the `tokenB` of order `i` is the `tokenS` of order
`(i + 1) mod n`. -/
theorem ConvertDown_indexes_unchecked_flags :
    ethaccessor.submitRingNoFlags.lengthInvalid = false
      ∧ ethaccessor.submitRingNoFlags.BuyNoMoreThanBList.length = 0
      ∧ ethaccessor.submitRingNoFlags.ConvertDown = go.Exec.panicked go.Panic.indexOutOfRange
      ∧ (∀ m : ethaccessor.SubmitRingMethod, m.lengthInvalid = false →
          (m.ConvertDown = go.Exec.panicked go.Panic.indexOutOfRange
            ↔ m.BuyNoMoreThanBList.length < m.AddressList.length))
      ∧ ∀ (m : ethaccessor.SubmitRingMethod) (list : List types.Order) (i : Nat),
          m.ConvertDown = go.Exec.returned (Except.ok list) → i < m.AddressList.length →
          ∃ order next : types.Order, list[i]? = some order
            ∧ list[(i + 1) % m.AddressList.length]? = some next ∧ order.TokenB = next.TokenS := by
  refine ⟨by decide, by decide, rfl, ?_, ?_⟩
  · intro m h
    constructor
    · intro hrun
      by_contra hge
      rw [SubmitRingMethod.ConvertDown_of_long m h (by omega)] at hrun
      cases hrun
    · exact SubmitRingMethod.ConvertDown_of_short m h
  · intro m list i hrun hi
    obtain ⟨h, hflags, rfl⟩ := SubmitRingMethod.ConvertDown_ok m list hrun
    have hn : (i + 1) % m.AddressList.length < m.AddressList.length :=
      Nat.mod_lt _ (by omega)
    obtain ⟨a, nx, _, _, _, _, _, -, hnx, -, -, ho⟩ := SubmitRingMethod.order_of_lt m h i hi
    obtain ⟨a2, _, _, _, _, _, _, ha2, -, -, -, ho2⟩ :=
      SubmitRingMethod.order_of_lt m h _ hn
    rw [hnx] at ha2
    cases ha2
    rw [List.getElem?_eq_getElem (lt_of_lt_of_le hi hflags)] at ho
    rw [List.getElem?_eq_getElem (lt_of_lt_of_le hn hflags)] at ho2
    have h1 : ((List.range m.AddressList.length).map
        (fun i => (m.order m.AddressList.length i).getD types.Order.zero))[i]?
        = some ((m.order m.AddressList.length i).getD types.Order.zero) := by
      rw [List.getElem?_map, List.getElem?_range hi, Option.map_some']
    have h2 : ((List.range m.AddressList.length).map
        (fun i => (m.order m.AddressList.length i).getD types.Order.zero))[
          (i + 1) % m.AddressList.length]?
        = some ((m.order m.AddressList.length ((i + 1) % m.AddressList.length)).getD
            types.Order.zero) := by
      rw [List.getElem?_map, List.getElem?_range hn, Option.map_some']
    refine ⟨_, _, h1, h2, ?_⟩
    rw [ho, ho2]
    rfl

end ethaccessor

/-! ### The text of rationals -/

namespace big

/-- The scan reads the character of a decimal digit as that digit. -/
theorem scanDigit_digitChar (acc d : Nat) (hd : d < 10) :
    big.scanDigit acc (Nat.digitChar d) = some (acc * 10 + d) := by
  unfold big.scanDigit
  interval_cases d <;> rfl

/-- The character of a decimal digit is a digit. -/
theorem digitChar_isDigit (d : Nat) (hd : d < 10) : (Nat.digitChar d).isDigit = true := by
  interval_cases d <;> rfl

/-- The decimal text of a number holds digits only. -/
theorem natDigits_isDigit (fuel n : Nat) : ∀ c ∈ big.natDigits fuel n, c.isDigit = true := by
  induction fuel generalizing n with
  | zero =>
    intro c hc
    cases hc
  | succ fuel ih =>
    intro c hc
    unfold big.natDigits at hc
    split_ifs at hc with hn
    · rw [List.mem_singleton.mp hc]
      exact digitChar_isDigit n hn
    · rcases List.mem_append.mp hc with h | h
      · exact ih _ c h
      · rw [List.mem_singleton.mp h]
        exact digitChar_isDigit _ (Nat.mod_lt _ (by decide))

/-- The decimal text of a number is not empty. -/
theorem natDigits_ne_nil (fuel n : Nat) : big.natDigits (fuel + 1) n ≠ [] := by
  unfold big.natDigits
  split_ifs <;> simp

/-- Scanning the decimal digits of a number gives the number back. -/
theorem foldlM_natDigits (fuel n : Nat) (h : n < fuel) :
    (big.natDigits fuel n).foldlM big.scanDigit 0 = some n := by
  induction fuel generalizing n with
  | zero => omega
  | succ fuel ih =>
    unfold big.natDigits
    split_ifs with hn
    · simp only [List.foldlM_cons, List.foldlM_nil, scanDigit_digitChar 0 n hn]
      simp
    · have hlt : n / 10 < fuel := by omega
      rw [List.foldlM_append, ih _ hlt]
      simp only [Option.bind_eq_bind, Option.some_bind, List.foldlM_cons, List.foldlM_nil,
        scanDigit_digitChar _ _ (Nat.mod_lt n (by decide : 0 < 10))]
      simp only [Option.pure_def, Option.bind_some]
      congr 1
      omega

/-- The decimal text of a natural number scans as that number. -/
theorem scanNat_natText (n : Nat) : big.scanNat (big.natText n) = some n := by
  unfold big.scanNat big.natText
  rw [if_neg (natDigits_ne_nil n n)]
  exact foldlM_natDigits (n + 1) n (by omega)

/-- The decimal text of an integer scans as that integer. -/
theorem scanInt_intText (z : Int) : big.scanInt (big.intText z) = some z := by
  unfold big.intText
  split_ifs with hz
  · simp only [big.scanInt, if_true, scanNat_natText, Option.map_some']
    rw [Int.ofNat_natAbs_of_nonpos (le_of_lt hz), neg_neg]
  · obtain ⟨c, rest, hcr⟩ : ∃ c rest, big.natText z.natAbs = c :: rest := by
      cases h : big.natText z.natAbs with
      | nil => exact absurd h (natDigits_ne_nil _ _)
      | cons c rest => exact ⟨c, rest, rfl⟩
    have hc : c.isDigit = true := by
      apply natDigits_isDigit (z.natAbs + 1) z.natAbs
      show c ∈ big.natText z.natAbs
      rw [hcr]
      exact List.mem_cons_self c rest
    have h1 : c ≠ '-' := by
      rintro rfl
      exact absurd hc (by decide)
    have h2 : c ≠ '+' := by
      rintro rfl
      exact absurd hc (by decide)
    rw [hcr]
    simp only [big.scanInt, if_neg h1, if_neg h2]
    rw [← hcr, scanNat_natText]
    show some ((z.natAbs : Int)) = some z
    rw [Int.natAbs_of_nonneg (not_lt.mp hz)]

/-- The text before the first bar of `a/b` is `a`, when `a` holds no bar. -/
theorem takeWhile_bar (l₁ l₂ : List Char) (h : ∀ c ∈ l₁, c ≠ '/') :
    (l₁ ++ '/' :: l₂).takeWhile (fun c => c != '/') = l₁ := by
  induction l₁ with
  | nil => rfl
  | cons c l ih =>
    have hc : (c != '/') = true := by
      simpa using h c (List.mem_cons_self c l)
    rw [List.cons_append, List.takeWhile_cons]
    simp only [hc, if_true]
    rw [ih (fun x hx => h x (List.mem_cons_of_mem c hx))]

/-- The text from the first bar of `a/b` on is `/b`, when `a` holds no bar. -/
theorem dropWhile_bar (l₁ l₂ : List Char) (h : ∀ c ∈ l₁, c ≠ '/') :
    (l₁ ++ '/' :: l₂).dropWhile (fun c => c != '/') = '/' :: l₂ := by
  induction l₁ with
  | nil => rfl
  | cons c l ih =>
    have hc : (c != '/') = true := by
      simpa using h c (List.mem_cons_self c l)
    rw [List.cons_append, List.dropWhile_cons]
    simp only [hc, if_true]
    rw [ih (fun x hx => h x (List.mem_cons_of_mem c hx))]

/-- The decimal text of an integer holds no bar. -/
theorem intText_no_bar (z : Int) : ∀ c ∈ big.intText z, c ≠ '/' := by
  intro c hc
  unfold big.intText at hc
  have hdigit : ∀ c ∈ big.natText z.natAbs, c ≠ '/' := by
    intro c hc
    have := natDigits_isDigit _ _ c hc
    rintro rfl
    exact absurd this (by decide)
  split_ifs at hc
  · rcases List.mem_cons.mp hc with rfl | h
    · decide
    · exact hdigit c h
  · exact hdigit c hc

/-- The text `a/b` of a rational scans as that rational. -/
theorem scanRat_ratText (v : ℚ) : big.scanRat (big.ratText v) = some v := by
  unfold big.scanRat big.ratText
  rw [dropWhile_bar _ _ (intText_no_bar v.num), takeWhile_bar _ _ (intText_no_bar v.num)]
  simp only [scanInt_intText, scanNat_natText, if_neg v.den_nz]
  rw [Rat.num_div_den]

/-- The text form `big.fractionText` keeps the contract of `math/big`. -/
theorem fractionText_faithful : big.fractionText.faithful := by
  refine ⟨rfl, ?_⟩
  intro v
  show (match big.scanRat (String.mk (big.ratText v)).data with
    | some v => (v, true)
    | none => (0, false)) = (v, true)
  rw [show (String.mk (big.ratText v)).data = big.ratText v from rfl, scanRat_ratText]

end big

/-! ### Filled-order rows -/

namespace dao

/-- What `getRatString` wrote reads back as a fresh rational: the value that was
written, 0 for nil. -/
theorem setRat_getRatString (t : big.RatText) (ht : t.faithful) (v : Option ℚ) :
    dao.setRat t (dao.getRatString t v) = some (v.getD 0) := by
  cases v with
  | none =>
    show some (t.SetString "").1 = some 0
    rw [ht.1]
  | some v =>
    show some (t.SetString (t.RatString v)).1 = some v
    rw [ht.2 v]

/-- A `ConvertUp` that returns no error has written every rational field. -/
theorem ConvertUp_of_ok (t : big.RatText) (row : dao.FilledOrder)
    (filledOrder : types.FilledOrder) (rds : Option dao.RdsService)
    (h : (row.ConvertUp t filledOrder rds).2 = none) :
    ∃ loaded : types.FilledOrder, (row.ConvertUp t filledOrder rds).1 =
      { loaded with
        FeeSelection := row.FeeSelection
        RateAmountS := dao.setRat t row.RateAmountS
        AvailableAmountS := dao.setRat t row.AvailableAmountS
        AvailableAmountB := dao.setRat t row.AvailableAmountB
        FillAmountS := dao.setRat t row.FillAmountS
        FillAmountB := dao.setRat t row.FillAmountB
        LrcReward := dao.setRat t row.LrcReward
        LrcFee := dao.setRat t row.LrcFee
        FeeS := dao.setRat t row.FeeS
        LegalFee := dao.setRat t row.LegalFee
        SPrice := dao.setRat t row.SPrice
        BPrice := dao.setRat t row.BPrice } := by
  unfold dao.FilledOrder.ConvertUp at h ⊢
  cases rds with
  | none => exact ⟨filledOrder, rfl⟩
  | some rds =>
    dsimp only at h ⊢
    cases hget : rds.GetOrderByHash row.OrderHash with
    | none =>
      rw [hget] at h
      cases h
    | some daoOrderState =>
      exact ⟨{ filledOrder with OrderState := daoOrderState.ConvertUp types.OrderState.zero },
        rfl⟩


/-- C24, as stated, fails: on the stored row whose `SPrice` and `BPrice` columns
are the empty string, `FilledOrder.ConvertUp` returns no error and leaves both
price fields at the rational 0, not nil. -/
theorem ConvertUp_reads_empty_price_as_zero :
    dao.rowNoPrices.SPrice = "" ∧ dao.rowNoPrices.BPrice = ""
      ∧ (dao.rowNoPrices.ConvertUp big.fractionText types.FilledOrder.zero none).2 = none
      ∧ (dao.rowNoPrices.ConvertUp big.fractionText types.FilledOrder.zero none).1.SPrice = some 0
      ∧ (dao.rowNoPrices.ConvertUp big.fractionText types.FilledOrder.zero none).1.BPrice = some 0
      ∧ (dao.rowNoPrices.ConvertUp big.fractionText types.FilledOrder.zero none).1.SPrice ≠ none
      ∧ (dao.rowNoPrices.ConvertUp big.fractionText types.FilledOrder.zero none).1.BPrice
          ≠ none := by
  decide

/-- C24, amended: under the contract of `math/big`, for every stored row a
`FilledOrder.ConvertUp` that returns no error leaves an `SPrice` or `BPrice`
field whose column is the empty string at the rational 0, never nil; and
`ConvertDown` followed by a `ConvertUp` that returns no error returns every
rational field that was not nil unchanged and every nil one as 0. -/
theorem ConvertUp_writes_fresh_rationals (t : big.RatText) (row : dao.FilledOrder)
    (filledOrder source : types.FilledOrder) (rds : Option dao.RdsService)
    (ringhash : common.Hash) (ht : t.faithful)
    (hrow : (row.ConvertUp t filledOrder rds).2 = none)
    (hback : ((row.ConvertDown t source ringhash).1.ConvertUp t filledOrder rds).2 = none) :
    (row.SPrice = "" → (row.ConvertUp t filledOrder rds).1.SPrice = some 0)
      ∧ (row.BPrice = "" → (row.ConvertUp t filledOrder rds).1.BPrice = some 0)
      ∧ ((row.ConvertDown t source ringhash).1.ConvertUp t filledOrder rds).1.RateAmountS
          = some (source.RateAmountS.getD 0)
      ∧ ((row.ConvertDown t source ringhash).1.ConvertUp t filledOrder rds).1.AvailableAmountS
          = some (source.AvailableAmountS.getD 0)
      ∧ ((row.ConvertDown t source ringhash).1.ConvertUp t filledOrder rds).1.AvailableAmountB
          = some (source.AvailableAmountB.getD 0)
      ∧ ((row.ConvertDown t source ringhash).1.ConvertUp t filledOrder rds).1.FillAmountS
          = some (source.FillAmountS.getD 0)
      ∧ ((row.ConvertDown t source ringhash).1.ConvertUp t filledOrder rds).1.FillAmountB
          = some (source.FillAmountB.getD 0)
      ∧ ((row.ConvertDown t source ringhash).1.ConvertUp t filledOrder rds).1.LrcReward
          = some (source.LrcReward.getD 0)
      ∧ ((row.ConvertDown t source ringhash).1.ConvertUp t filledOrder rds).1.LrcFee
          = some (source.LrcFee.getD 0)
      ∧ ((row.ConvertDown t source ringhash).1.ConvertUp t filledOrder rds).1.FeeS
          = some (source.FeeS.getD 0)
      ∧ ((row.ConvertDown t source ringhash).1.ConvertUp t filledOrder rds).1.LegalFee
          = some (source.LegalFee.getD 0)
      ∧ ((row.ConvertDown t source ringhash).1.ConvertUp t filledOrder rds).1.SPrice
          = some (source.SPrice.getD 0)
      ∧ ((row.ConvertDown t source ringhash).1.ConvertUp t filledOrder rds).1.BPrice
          = some (source.BPrice.getD 0) := by
  obtain ⟨loaded, hup⟩ := ConvertUp_of_ok t row filledOrder rds hrow
  obtain ⟨loaded2, hup2⟩ := ConvertUp_of_ok t _ filledOrder rds hback
  have hempty : dao.setRat t "" = some 0 := setRat_getRatString t ht none
  rw [hup, hup2]
  refine ⟨?_, ?_, ?_, ?_, ?_, ?_, ?_, ?_, ?_, ?_, ?_, ?_, ?_⟩
  · intro h
    show dao.setRat t row.SPrice = some 0
    rw [h, hempty]
  · intro h
    show dao.setRat t row.BPrice = some 0
    rw [h, hempty]
  all_goals exact setRat_getRatString t ht _

/-- C24, amended, at the text form `big.fractionText`, the stored row without
prices and the half-priced filled order. -/
theorem ConvertUp_writes_fresh_rationals_witness :
    big.fractionText.faithful
      ∧ (dao.rowNoPrices.ConvertUp big.fractionText types.FilledOrder.zero none).1.SPrice = some 0
      ∧ ((dao.rowNoPrices.ConvertDown big.fractionText types.filledOrderHalfPriced 77).1.ConvertUp
          big.fractionText types.FilledOrder.zero none).1.FillAmountS = some (3 / 2)
      ∧ ((dao.rowNoPrices.ConvertDown big.fractionText types.filledOrderHalfPriced 77).1.ConvertUp
          big.fractionText types.FilledOrder.zero none).1.SPrice = some (2 / 3)
      ∧ ((dao.rowNoPrices.ConvertDown big.fractionText types.filledOrderHalfPriced 77).1.ConvertUp
          big.fractionText types.FilledOrder.zero none).1.BPrice = some 0 := by
  have h := ConvertUp_writes_fresh_rationals big.fractionText dao.rowNoPrices
    types.FilledOrder.zero types.filledOrderHalfPriced none 77 big.fractionText_faithful rfl rfl
  exact ⟨big.fractionText_faithful, h.1 rfl, h.2.2.2.2.2.1, h.2.2.2.2.2.2.2.2.2.2.2.1,
    h.2.2.2.2.2.2.2.2.2.2.2.2⟩

end dao

/-! ### Depth and paging -/

namespace gateway

/-- A turn past the first on an order of the running price appends no row. -/
theorem turn_same_price (acc : gateway.DepthLoop) (item : Nat × types.OrderState)
    (hi : item.1 ≠ 0) (hp : item.2.RawOrder.Price = acc.lastPrice) :
    (gateway.calculateDepth.turn acc item).depth = acc.depth
      ∧ (gateway.calculateDepth.turn acc item).lastPrice = acc.lastPrice := by
  unfold gateway.calculateDepth.turn
  dsimp only
  rw [if_neg hi, if_neg (not_not.mpr hp.symm)]
  exact ⟨rfl, rfl⟩

/-- The turns past the first on orders of the running price append no row. -/
theorem foldl_same_price (l : List (Nat × types.OrderState)) (acc : gateway.DepthLoop)
    (h : ∀ x ∈ l, x.1 ≠ 0 ∧ x.2.RawOrder.Price = acc.lastPrice) :
    (l.foldl gateway.calculateDepth.turn acc).depth = acc.depth := by
  induction l generalizing acc with
  | nil => rfl
  | cons x l ih =>
    have hx := h x (List.mem_cons_self x l)
    have ht := turn_same_price acc x hx.1 hx.2
    rw [List.foldl_cons, ih]
    · exact ht.1
    · intro y hy
      rw [ht.2]
      exact h y (List.mem_cons_of_mem x hy)

/-- On a book whose orders all have one price, no row is ever appended, and the
cut at a positive length is beyond the capacity 0. -/
theorem calculateDepth_single_price (s : types.OrderState) (rest : List types.OrderState)
    (length : Int) (hrest : ∀ t ∈ rest, t.RawOrder.Price = s.RawOrder.Price)
    (hlen : 1 ≤ length) :
    gateway.calculateDepth (s :: rest) length
      = go.Exec.panicked go.Panic.sliceBoundsOutOfRange := by
  have hdepth : ((rest.enumFrom 1).foldl gateway.calculateDepth.turn
      (gateway.calculateDepth.turn
        { depth := go.Slice.make (List String), tempSumAmountS := 0, tempSumAmountB := 0,
          lastPrice := 0 } (0, s))).depth = go.Slice.make (List String) := by
    rw [foldl_same_price]
    · rfl
    · intro x hx
      refine ⟨?_, ?_⟩
      · have := List.le_fst_of_mem_enumFrom hx
        omega
      · exact hrest _ (List.snd_mem_of_mem_enumFrom hx)
  unfold gateway.calculateDepth
  simp only [List.length_cons, Nat.add_one_ne_zero, if_false, List.enum_cons, List.foldl_cons]
  rw [hdepth]
  unfold go.Slice.slice
  rw [if_pos]
  right
  show ((0 : Nat) : Int) < length
  omega

/-- C28, on the code: where the claim has `calculateDepth` return one row of sums
per run of equal prices, at most `length` of them, the code cuts `depth[:length]`
past the rows it appended and appends a row only when the price changes, after
which it restarts the sums at 0.  The book of one order panics at length 1; so
does every book of one price at every length from 1 on; the book of three
orders at the prices 1, 2, 3 returns the rows `(5, 5)` and `(0, 0)` at length 2
and panics at length 3. -/
theorem calculateDepth_cuts_beyond_capacity :
    gateway.calculateDepth [gateway.bookState 10 1 5 5] 1
        = go.Exec.panicked go.Panic.sliceBoundsOutOfRange
      ∧ (∀ (s : types.OrderState) (rest : List types.OrderState) (length : Int),
          (∀ t ∈ rest, t.RawOrder.Price = s.RawOrder.Price) → 1 ≤ length →
          gateway.calculateDepth (s :: rest) length
            = go.Exec.panicked go.Panic.sliceBoundsOutOfRange)
      ∧ gateway.bookOfThree.map (fun s => (s.RawOrder.Price, s.RawOrder.AmountS, s.RawOrder.AmountB))
          = [(1, 5, 5), (2, 14, 7), (3, 27, 9)]
      ∧ gateway.calculateDepth gateway.bookOfThree 2
          = go.Exec.returned [["5", "5"], ["0", "0"]]
      ∧ gateway.calculateDepth gateway.bookOfThree 3
          = go.Exec.panicked go.Panic.sliceBoundsOutOfRange := by
  exact ⟨by decide, calculateDepth_single_price, by decide, by decide, by decide⟩

/-- C29, on the code: where the claim has the page size be `q.PageSize` when it
lies between 1 and 20, `fillQueryToMap` and `ringMinedQueryToMap` return
`q.PageIndex` there.  For every query the page index is `q.PageIndex` when
positive and 1 otherwise, and the page size is 20 when `q.PageSize` is outside
1..20 and `q.PageIndex` otherwise; the queries of page size 10 on the pages 0
and 50 get the page sizes 0 and 50. -/
theorem fillQueryToMap_page_size_from_page_index :
    (∀ (config : String → String) (q : gateway.FillQuery),
        (gateway.fillQueryToMap config q).2.1 = (if q.PageIndex ≤ 0 then 1 else q.PageIndex)
          ∧ (gateway.fillQueryToMap config q).2.2
              = (if q.PageSize ≤ 0 ∨ q.PageSize > 20 then 20 else q.PageIndex))
      ∧ (∀ (config : String → String) (q : gateway.RingMinedQuery),
        (gateway.ringMinedQueryToMap config q).2.1 = (if q.PageIndex ≤ 0 then 1 else q.PageIndex)
          ∧ (gateway.ringMinedQueryToMap config q).2.2
              = (if q.PageSize ≤ 0 ∨ q.PageSize > 20 then 20 else q.PageIndex))
      ∧ gateway.fillQueryPage0.PageSize = 10
      ∧ (gateway.fillQueryToMap (fun s => s) gateway.fillQueryPage0).2.2 = 0
      ∧ gateway.fillQueryPage50.PageSize = 10
      ∧ (gateway.fillQueryToMap (fun s => s) gateway.fillQueryPage50).2.2 = 50
      ∧ gateway.ringMinedQueryPage50.PageSize = 10
      ∧ (gateway.ringMinedQueryToMap (fun s => s) gateway.ringMinedQueryPage50).2.2 = 50 := by
  exact ⟨fun _ _ => ⟨rfl, rfl⟩, fun _ _ => ⟨rfl, rfl⟩, by decide, by decide, by decide,
    by decide, by decide, by decide⟩

end gateway
